import Mathlib

/-!
# osfs: the in-memory linked-block filesystem of `LAB4_BONUS`

A shallow embedding of the block allocator, the inode allocator, `osfs_iget`
and `osfs_free_data_block_chain` of `inode.c`, of `osfs_read` and `osfs_write`
of `file.c`, of `osfs_lookup`, `osfs_iterate`, `osfs_new_inode`,
`osfs_add_dir_entry` and `osfs_create` of `dir.c`, and of `osfs_destroy_inode`
and `osfs_fill_super` of `super.c`, with theorems about them.

* The memory region of `osfs_fill_super` is a record `osfs_sb_info`: the two
  bitmaps are natural numbers read bit by bit (`test_bit`, `set_bit`,
  `clear_bit`), the inode table and the block array are total maps from an
  index to a record.
* 32-bit unsigned quantities are natural numbers; every place where the C code
  wraps or truncates carries an explicit `% 4294967296`.
* `size_t` and `loff_t` values (lengths, file positions) are natural numbers.
* User memory is a list of bytes: `copy_from_user` faults when it is asked for
  bytes past the end of the list, `copy_to_user` faults when it is asked to
  store past the capacity of the destination.
* Loops whose trip count is not bounded by a counter take a fuel argument and
  answer `none` when it runs out; `osfs_read` and `osfs_write` pass the fuel
  their loop needs, the chain walks of the other functions take it as an
  argument.
* Directory entries are bytes of a block payload, laid out by an
  `osfs_dir_layout`; a read or a store outside the `data` array of a block has
  no defined result, which the directory functions report as `none`.
* `osfs_lookup_flat` is `osfs_lookup` as the machine runs it: the block array
  is one run of bytes (payload, then link, block after block), so a slot past
  the payload is read from the link and the blocks that follow. Where
  `osfs_lookup` has a result, `osfs_lookup_flat` has the same one.
-/

namespace OSFS

/-! ## Machine words and bit operations -/

/-- The value of `-1` converted to `uint32_t`: the chain terminator. -/
def NO_BLOCK : Nat := 4294967295

/-- The C statement `x--` on a 32-bit unsigned field. -/
def u32_dec (n : Nat) : Nat := (4294967295 + n) % 4294967296

/-- The C statement `x++` on a 32-bit unsigned field. -/
def u32_inc (n : Nat) : Nat := (n + 1) % 4294967296

/-- Kernel `test_bit(nr, addr)`. -/
def test_bit (nr : Nat) (addr : Nat) : Bool := addr.testBit nr

/-- Kernel `set_bit(nr, addr)`. -/
def set_bit (nr : Nat) (addr : Nat) : Nat := addr ||| 2 ^ nr

/-- Kernel `clear_bit(nr, addr)`. -/
def clear_bit (nr : Nat) (addr : Nat) : Nat := addr ^^^ (addr &&& 2 ^ nr)

/-- Pointwise update of a table. -/
def upd {α : Type} (f : Nat → α) (i : Nat) (v : α) : Nat → α :=
  fun j => if j = i then v else f j

deriving instance DecidableEq for Except

/-- Error codes returned by the filesystem. -/
inductive Errno where
  | EFAULT
  | ENOSPC
  | EINVAL
  | ENOMEM
  | EIO_err
  | ENAMETOOLONG
  deriving DecidableEq, Repr

/-! ## Data model -/

/-- Modelled from the spec: `struct osfs_data_block` is declared in `osfs.h`,
which is not among the sources. A block is a payload byte region followed by
the link to the next block of the chain. -/
structure osfs_data_block where
  data : Nat → Nat
  next_block : Nat

/-- Modelled from the spec: `struct osfs_inode` is declared in `osfs.h`. The
fields are the ones the sources read and write. -/
structure osfs_inode where
  i_ino : Nat
  i_mode : Nat
  i_uid : Nat
  i_gid : Nat
  i_size : Nat
  i_blocks : Nat
  i_links_count : Nat
  first_block : Nat
  __i_atime : Nat
  __i_mtime : Nat
  __i_ctime : Nat

/-- Modelled from the spec: `struct osfs_sb_info` is declared in `osfs.h`. -/
structure osfs_sb_info where
  magic : Nat
  block_size : Nat
  inode_count : Nat
  block_count : Nat
  nr_free_inodes : Nat
  nr_free_blocks : Nat
  inode_bitmap : Nat
  block_bitmap : Nat
  inode_table : Nat → osfs_inode
  data_blocks : Nat → osfs_data_block

/-- The part of a VFS `struct inode` that the sources fill in. -/
structure vfs_inode where
  i_ino : Nat
  i_mode : Nat
  i_uid : Nat
  i_gid : Nat
  i_nlink : Nat
  i_size : Nat
  i_blocks : Nat
  i_private : Option Nat
  deriving DecidableEq, Repr

/-- The inode record after `memset(osfs_inode, 0, sizeof(*osfs_inode))`. -/
def zero_inode : osfs_inode :=
  { i_ino := 0, i_mode := 0, i_uid := 0, i_gid := 0, i_size := 0, i_blocks := 0,
    i_links_count := 0, first_block := 0, __i_atime := 0, __i_mtime := 0, __i_ctime := 0 }

/-- A block of the region right after `memset(memory_region, 0, ...)`. -/
def zero_block : osfs_data_block :=
  { data := fun _ => 0, next_block := 0 }

/-- Per-block payload capacity `sb_info->block_size - sizeof(uint32_t)` of
`file.c`; it is also the size of the `data` member. -/
def payload (sb : osfs_sb_info) : Nat := sb.block_size - 4

/-! ## inode.c -/

/-- `osfs_get_osfs_inode`: the slot of inode `ino`, or `none` for `NULL`. -/
def osfs_get_osfs_inode (sb : osfs_sb_info) (ino : Nat) : Option Nat :=
  if ino = 0 ∨ ino ≥ sb.inode_count then none else some ino

/-- The `for` loop of `osfs_get_free_inode`, entered at `ino` with `k`
iterations left. The result is the C `int`: an inode number or `-ENOSPC`. -/
def osfs_get_free_inode_from (sb : osfs_sb_info) : Nat → Nat → osfs_sb_info × Int
  | _, 0 => (sb, -28)
  | ino, k + 1 =>
    if test_bit ino sb.inode_bitmap = false then
      ({ sb with inode_bitmap := set_bit ino sb.inode_bitmap,
                 nr_free_inodes := u32_dec sb.nr_free_inodes }, (ino : Int))
    else osfs_get_free_inode_from sb (ino + 1) k

/-- `osfs_get_free_inode`: scan `ino = 1 .. inode_count - 1`. -/
def osfs_get_free_inode (sb : osfs_sb_info) : osfs_sb_info × Int :=
  osfs_get_free_inode_from sb 1 (sb.inode_count - 1)

/-- The body of the `if` of `osfs_alloc_data_block` for the block `i`: mark it
used, count it, zero its payload and terminate its link. The `memset` covers
`sizeof(data_block->data)` bytes, the payload capacity. -/
def alloc_init (sb : osfs_sb_info) (i : Nat) : osfs_sb_info :=
  { sb with
    block_bitmap := set_bit i sb.block_bitmap,
    nr_free_blocks := u32_dec sb.nr_free_blocks,
    data_blocks := upd sb.data_blocks i
      { data := fun j => if j < payload sb then 0 else (sb.data_blocks i).data j,
        next_block := NO_BLOCK } }

/-- The `for` loop of `osfs_alloc_data_block`, entered at `i` with `k`
iterations left. -/
def osfs_alloc_data_block_from (sb : osfs_sb_info) :
    Nat → Nat → osfs_sb_info × Except Errno Nat
  | _, 0 => (sb, .error .ENOSPC)
  | i, k + 1 =>
    if test_bit i sb.block_bitmap = false then (alloc_init sb i, .ok i)
    else osfs_alloc_data_block_from sb (i + 1) k

/-- `osfs_alloc_data_block`: the block number stored through `block_no`, or
`-ENOSPC`. -/
def osfs_alloc_data_block (sb : osfs_sb_info) : osfs_sb_info × Except Errno Nat :=
  osfs_alloc_data_block_from sb 0 sb.block_count

/-- `osfs_free_data_block`. -/
def osfs_free_data_block (sb : osfs_sb_info) (block_no : Nat) : osfs_sb_info :=
  { sb with
    block_bitmap := clear_bit block_no sb.block_bitmap,
    nr_free_blocks := u32_inc sb.nr_free_blocks }

/-! ## file.c -/

/-- The `while` loop of `osfs_read`. `cap` is the number of bytes the user
buffer can take, `out` the bytes stored in it so far. The answer is the final
`bytes_read` with the bytes stored, or `-EFAULT`. -/
def osfs_read_loop (sb : osfs_sb_info) (cap : Nat) :
    Nat → Nat → Nat → Nat → Nat → List Nat → Option (Except Errno (Nat × List Nat))
  | fuel, current_block, offset, len, bytes_read, out =>
    if current_block ≠ NO_BLOCK ∧ len > 0 then
      match fuel with
      | 0 => none
      | fuel + 1 =>
        let data_block := sb.data_blocks current_block
        let block_offset := offset % payload sb
        let block_size := min len (payload sb - block_offset)
        if cap < bytes_read + block_size then some (.error .EFAULT)
        else
          osfs_read_loop sb cap fuel data_block.next_block (offset - block_offset)
            (len - block_size) (bytes_read + block_size)
            (out ++ (List.range block_size).map (fun k => data_block.data (block_offset + k)))
    else some (.ok (bytes_read, out))

/-- `osfs_read` on the file whose inode record is slot `ino`: the new file
position and either `(bytes_read, bytes stored)` or an error. The sum
`*ppos + len` of the clamp test is a 64-bit sum and wraps at 2^64. -/
def osfs_read (sb : osfs_sb_info) (ino : Nat) (cap : Nat) (len : Nat) (ppos : Nat) :
    Option (Nat × Except Errno (Nat × List Nat)) :=
  let osfs_inode := sb.inode_table ino
  if osfs_inode.i_blocks = 0 ∨ ppos ≥ osfs_inode.i_size then some (ppos, .ok (0, []))
  else
    let len :=
      if (ppos + len) % 18446744073709551616 > osfs_inode.i_size then osfs_inode.i_size - ppos
      else len
    match osfs_read_loop sb cap len osfs_inode.first_block ppos len 0 [] with
    | none => none
    | some (.error e) => some (ppos, .error e)
    | some (.ok (bytes_read, out)) => some (ppos + bytes_read, .ok (bytes_read, out))

/-- The copy `copy_from_user(data_block->data + block_offset, buf + bytes_written,
block_size)` into block `b`. -/
def block_store (sb : osfs_sb_info) (b : Nat) (block_offset block_size : Nat)
    (buf : List Nat) (bytes_written : Nat) : osfs_sb_info :=
  let data_block := sb.data_blocks b
  let stored : osfs_data_block :=
    { data_block with
      data := fun j =>
        if block_offset ≤ j ∧ j < block_offset + block_size then
          buf.getD (bytes_written + (j - block_offset)) 0
        else data_block.data j }
  { sb with data_blocks := upd sb.data_blocks b stored }

/-- The assignment `data_block->next_block = new_block` on block `b`. -/
def link_block (sb : osfs_sb_info) (b new_block : Nat) : osfs_sb_info :=
  let data_block := sb.data_blocks b
  let linked : osfs_data_block := { data_block with next_block := new_block }
  { sb with data_blocks := upd sb.data_blocks b linked }

/-- The statement `osfs_inode->i_blocks++` on inode slot `ino`. -/
def inc_i_blocks (sb : osfs_sb_info) (ino : Nat) : osfs_sb_info :=
  let node := sb.inode_table ino
  let counted : osfs_inode := { node with i_blocks := u32_inc node.i_blocks }
  { sb with inode_table := upd sb.inode_table ino counted }

/-- The first-block branch of `osfs_write`: `osfs_inode->first_block =
current_block; osfs_inode->i_blocks++`. -/
def set_first_block (sb : osfs_sb_info) (ino current_block : Nat) : osfs_sb_info :=
  let node := sb.inode_table ino
  let owned : osfs_inode :=
    { node with first_block := current_block, i_blocks := u32_inc node.i_blocks }
  { sb with inode_table := upd sb.inode_table ino owned }

/-- The tail of `osfs_write`: `i_size = max(i_size, (uint32_t)*ppos)` and the
modify and change timestamps. -/
def update_size (sb : osfs_sb_info) (ino ppos now : Nat) : osfs_sb_info :=
  let node := sb.inode_table ino
  let sized : osfs_inode :=
    { node with i_size := max node.i_size (ppos % 4294967296),
                      __i_mtime := now, __i_ctime := now }
  { sb with inode_table := upd sb.inode_table ino sized }

/-- The `while (len > 0)` loop of `osfs_write`. `buf` is the readable user
memory. The answer is the final `bytes_written`, or an error. -/
def osfs_write_loop (ino : Nat) (buf : List Nat) :
    Nat → osfs_sb_info → Nat → Nat → Nat → Nat → Option (osfs_sb_info × Except Errno Nat)
  | fuel, sb, current_block, offset, len, bytes_written =>
    if len > 0 then
      match fuel with
      | 0 => none
      | fuel + 1 =>
        let block_offset := offset % payload sb
        let block_size := min len (payload sb - block_offset)
        if buf.length < bytes_written + block_size then some (sb, .error .EFAULT)
        else
          let sb1 := block_store sb current_block block_offset block_size buf bytes_written
          if len - block_size > 0 ∧ (sb1.data_blocks current_block).next_block = NO_BLOCK then
            match osfs_alloc_data_block sb1 with
            | (sb2, .error _) => some (sb2, .error .ENOSPC)
            | (sb2, .ok new_block) =>
              let sb3 := link_block sb2 current_block new_block
              let sb4 := inc_i_blocks sb3 ino
              osfs_write_loop ino buf fuel sb4 new_block (offset - block_offset)
                (len - block_size) (bytes_written + block_size)
          else
            osfs_write_loop ino buf fuel sb1 (sb1.data_blocks current_block).next_block
              (offset - block_offset) (len - block_size) (bytes_written + block_size)
    else some (sb, .ok bytes_written)

/-- `osfs_write` on the file whose inode record is slot `ino`, at time `now`:
the store, the new file position and either `bytes_written` or an error. -/
def osfs_write (sb : osfs_sb_info) (ino : Nat) (buf : List Nat) (len : Nat) (ppos : Nat)
    (now : Nat) : Option (osfs_sb_info × Nat × Except Errno Nat) :=
  let first : osfs_sb_info × Except Errno Nat :=
    if (sb.inode_table ino).i_blocks = 0 then
      match osfs_alloc_data_block sb with
      | (sb1, .error _) => (sb1, .error .ENOSPC)
      | (sb1, .ok current_block) =>
        (set_first_block sb1 ino current_block, .ok current_block)
    else (sb, .ok (sb.inode_table ino).first_block)
  match first with
  | (sb1, .error e) => some (sb1, ppos, .error e)
  | (sb1, .ok current_block) =>
    match osfs_write_loop ino buf len sb1 current_block ppos len 0 with
    | none => none
    | some (sb2, .error e) => some (sb2, ppos, .error e)
    | some (sb2, .ok bytes_written) =>
      let ppos1 := ppos + bytes_written
      some (update_size sb2 ino ppos1 now, ppos1, .ok bytes_written)

/-! ## dir.c -/

/-- Kernel `S_ISDIR(mode)`: `(mode & S_IFMT) == S_IFDIR`. -/
def S_ISDIR (mode : Nat) : Bool := mode &&& 61440 == 16384

/-- Kernel `S_ISREG(mode)`: `(mode & S_IFMT) == S_IFREG`. -/
def S_ISREG (mode : Nat) : Bool := mode &&& 61440 == 32768

/-- Kernel `S_ISLNK(mode)`: `(mode & S_IFMT) == S_IFLNK`. -/
def S_ISLNK (mode : Nat) : Bool := mode &&& 61440 == 40960

/-- The inode record written by `osfs_new_inode` between the `memset` and the
allocation of the first block. -/
def init_inode (ino mode uid gid now : Nat) : osfs_inode :=
  { zero_inode with
    i_ino := ino, i_mode := mode, i_uid := uid, i_gid := gid, i_size := 0, i_blocks := 1,
    __i_atime := now, __i_mtime := now, __i_ctime := now }

/-- The assignment `osfs_inode->first_block = first_block` on inode slot `ino`. -/
def assign_first_block (sb : osfs_sb_info) (ino first_block : Nat) : osfs_sb_info :=
  let node := sb.inode_table ino
  let owned : osfs_inode := { node with first_block := first_block }
  { sb with inode_table := upd sb.inode_table ino owned }

/-- `osfs_new_inode`. `uid` and `gid` are the owner chosen by `inode_init_owner`,
`vfs_ok` tells whether the kernel's `new_inode(sb)` returns an inode, `now` is
`current_time`. The `iput` on the two late failure paths reaches
`osfs_destroy_inode` with `i_private == NULL`, which returns at once. -/
def osfs_new_inode (sb : osfs_sb_info) (mode uid gid : Nat) (vfs_ok : Bool) (now : Nat) :
    osfs_sb_info × Except Errno vfs_inode :=
  if !S_ISDIR mode && !S_ISREG mode && !S_ISLNK mode then (sb, .error .EINVAL)
  else if sb.nr_free_inodes = 0 ∨ sb.nr_free_blocks = 0 then (sb, .error .ENOSPC)
  else
    match osfs_get_free_inode sb with
    | (sb1, r) =>
      let ino := (r % 4294967296).toNat
      if ino ≥ sb1.inode_count then (sb1, .error .ENOSPC)
      else if !vfs_ok then (sb1, .error .ENOMEM)
      else
        match osfs_get_osfs_inode sb1 ino with
        | none => (sb1, .error .EIO_err)
        | some slot =>
          let sb2 := { sb1 with
            inode_table := upd sb1.inode_table slot (init_inode ino mode uid gid now) }
          match osfs_alloc_data_block sb2 with
          | (sb3, .error e) => (sb3, .error e)
          | (sb3, .ok first_block) =>
            let sb4 := assign_first_block sb3 slot first_block
            let sb5 := { sb4 with nr_free_inodes := u32_dec sb4.nr_free_inodes }
            (sb5, .ok { i_ino := ino, i_mode := mode, i_uid := uid, i_gid := gid,
                        i_nlink := if S_ISDIR mode then 2 else 1, i_size := 0, i_blocks := 0,
                        i_private := some slot })

/-- The two assignments `osfs_create` makes on the inode it has just created:
`first_block = -1` and `i_blocks = 0`. -/
def osfs_create_reset (sb : osfs_sb_info) (ino : Nat) : osfs_sb_info :=
  let node := sb.inode_table ino
  let emptied : osfs_inode := { node with first_block := NO_BLOCK, i_blocks := 0 }
  { sb with inode_table := upd sb.inode_table ino emptied }

/-! ## super.c -/

/-- Modelled from the spec: the constants of `osfs.h` that `osfs_fill_super`
uses, and `sizeof(struct osfs_data_block)`. -/
structure osfs_config where
  OSFS_MAGIC : Nat
  INODE_COUNT : Nat
  DATA_BLOCK_COUNT : Nat
  ROOT_INODE : Nat
  sizeof_data_block : Nat

/-- The superblock record of `osfs_fill_super` over the zeroed region. -/
def format_region (cfg : osfs_config) : osfs_sb_info :=
  { magic := cfg.OSFS_MAGIC % 4294967296,
    block_size := cfg.sizeof_data_block % 4294967296,
    inode_count := cfg.INODE_COUNT % 4294967296,
    block_count := cfg.DATA_BLOCK_COUNT % 4294967296,
    nr_free_inodes := (4294967295 + cfg.INODE_COUNT) % 4294967296,
    nr_free_blocks := cfg.DATA_BLOCK_COUNT % 4294967296,
    inode_bitmap := 0,
    block_bitmap := 0,
    inode_table := fun _ => zero_inode,
    data_blocks := fun _ => zero_block }

/-- The root inode record written by `osfs_fill_super`. -/
def root_record (cfg : osfs_config) (now : Nat) : osfs_inode :=
  { zero_inode with
    i_ino := cfg.ROOT_INODE, i_mode := 16877, i_links_count := 2,
    __i_atime := now, __i_mtime := now, __i_ctime := now, first_block := NO_BLOCK }

/-- `osfs_fill_super`. The three flags tell whether `vmalloc`, `new_inode` and
`d_make_root` succeed. On every failure the region is released. -/
def osfs_fill_super (cfg : osfs_config) (vmalloc_ok new_inode_ok make_root_ok : Bool)
    (now : Nat) : Except Errno osfs_sb_info :=
  if !vmalloc_ok then .error .ENOMEM
  else
    let sb := format_region cfg
    if !new_inode_ok then .error .ENOMEM
    else
      match osfs_get_osfs_inode sb cfg.ROOT_INODE with
      | none => .error .EIO_err
      | some slot =>
        let sb1 := { sb with inode_table := upd sb.inode_table slot (root_record cfg now) }
        let sb2 := { sb1 with inode_bitmap := set_bit cfg.ROOT_INODE sb1.inode_bitmap }
        if !make_root_ok then .error .ENOMEM else .ok sb2

/-! ## Directory entries inside a block payload -/

/-- Modelled from the spec: `struct osfs_dir_entry` and the constants
`MAX_FILENAME_LEN` and `MAX_DIR_ENTRIES` are declared in `osfs.h`, which is not
among the sources. An entry is a fixed-length name buffer that starts the
record, followed by the child inode number (32 bits, stored low byte first) at
`inode_no_offset`; `sizeof_dir_entry` is the size of one record. -/
structure osfs_dir_layout where
  MAX_FILENAME_LEN : Nat
  MAX_DIR_ENTRIES : Nat
  sizeof_dir_entry : Nat
  inode_no_offset : Nat

/-- The layout fits the code: the name buffer has room for `MAX_FILENAME_LEN`
bytes and the terminator that `osfs_add_dir_entry` stores after them, the inode
number lies inside the record, and `MAX_DIR_ENTRIES` records fit the payload. -/
def layout_ok (L : osfs_dir_layout) (sb : osfs_sb_info) : Prop :=
  L.MAX_FILENAME_LEN < L.inode_no_offset ∧
  L.inode_no_offset + 4 ≤ L.sizeof_dir_entry ∧
  L.MAX_DIR_ENTRIES * L.sizeof_dir_entry ≤ payload sb

/-- C `strlen` on the bytes `d p, d (p + 1), ...` of an array with `k` bytes
left from `p`: `none` when no terminator lies inside the array. -/
def c_strlen (d : Nat → Nat) : Nat → Nat → Option Nat
  | _, 0 => none
  | p, k + 1 =>
    if d p = 0 then some 0
    else
      match c_strlen d (p + 1) k with
      | none => none
      | some n => some (n + 1)

/-- The test `strncmp(filename, name, len) == 0` once `strlen(filename) == len`
is known: the `len` bytes at `p` equal the bytes of `name`. -/
def c_name_eq (d : Nat → Nat) (p : Nat) (name : List Nat) : Bool :=
  (List.range name.length).all (fun k => d (p + k) == name.getD k 0)

/-- The 32-bit value stored low byte first in the four bytes at `p`. -/
def load_le32 (d : Nat → Nat) (p : Nat) : Nat :=
  d p + 256 * d (p + 1) + 65536 * d (p + 2) + 16777216 * d (p + 3)

/-- The byte number `k` (0 to 3) of the 32-bit value `v`, low byte first. -/
def le32_byte (v k : Nat) : Nat := v / 256 ^ k % 256

/-- The name stored in slot `i` of block `b`, as `strlen` and the bytes before
the terminator give it; `none` when the scan leaves the `data` array. -/
def slot_name (L : osfs_dir_layout) (sb : osfs_sb_info) (b i : Nat) : Option (List Nat) :=
  let d := (sb.data_blocks b).data
  let p := i * L.sizeof_dir_entry
  match c_strlen d p (payload sb - p) with
  | none => none
  | some n => some ((List.range n).map (fun k => d (p + k)))

/-- The field `dir_entries[i].inode_no` of block `b`; `none` when the field lies
outside the `data` array. -/
def slot_inode_no (L : osfs_dir_layout) (sb : osfs_sb_info) (b i : Nat) : Option Nat :=
  let p := i * L.sizeof_dir_entry + L.inode_no_offset
  if p + 4 ≤ payload sb then some (load_le32 (sb.data_blocks b).data p) else none

/-- The three stores `strncpy(filename, name, name_len)`,
`filename[name_len] = 0` and `inode_no = ...` into slot `i` of block `b`, in
that order; `none` when one of them lies outside the `data` array. The name
holds no zero byte, so `strncpy` copies all of it. -/
def write_entry (L : osfs_dir_layout) (sb : osfs_sb_info) (b i : Nat) (name : List Nat)
    (inode_no : Nat) : Option osfs_sb_info :=
  let p := i * L.sizeof_dir_entry
  let q := p + L.inode_no_offset
  if p + name.length < payload sb ∧ q + 4 ≤ payload sb then
    let data_block := sb.data_blocks b
    let d1 : Nat → Nat := fun j =>
      if p ≤ j ∧ j < p + name.length then name.getD (j - p) 0 else data_block.data j
    let d2 : Nat → Nat := fun j => if j = p + name.length then 0 else d1 j
    let d3 : Nat → Nat := fun j => if q ≤ j ∧ j < q + 4 then le32_byte inode_no (j - q) else d2 j
    let stored : osfs_data_block := { data_block with data := d3 }
    some { sb with data_blocks := upd sb.data_blocks b stored }
  else none

/-! ## inode.c: `osfs_iget` and the chain release -/

/-- `osfs_iget`: the VFS inode built from the record of inode `ino`. `vfs_ok`
tells whether the kernel's `new_inode(sb)` returns an inode (whose link count
is 1). -/
def osfs_iget (sb : osfs_sb_info) (ino : Nat) (vfs_ok : Bool) : Except Errno vfs_inode :=
  match osfs_get_osfs_inode sb ino with
  | none => .error .EFAULT
  | some slot =>
    if !vfs_ok then .error .ENOMEM
    else
      let node := sb.inode_table slot
      .ok { i_ino := ino, i_mode := node.i_mode, i_uid := node.i_uid, i_gid := node.i_gid,
            i_nlink := 1, i_size := node.i_size, i_blocks := node.i_blocks,
            i_private := some slot }

/-- The `while (current_block != -1)` loop shared by `osfs_destroy_inode` and
`osfs_free_data_block_chain`: read the link, free the block, go on. -/
def free_chain_loop : Nat → osfs_sb_info → Nat → Option osfs_sb_info
  | fuel, sb, current_block =>
    if current_block = NO_BLOCK then some sb
    else
      match fuel with
      | 0 => none
      | fuel + 1 =>
        let next_block := (sb.data_blocks current_block).next_block
        free_chain_loop fuel (osfs_free_data_block sb current_block) next_block

/-- `osfs_free_data_block_chain` of `inode.c`: the store and the VFS inode with
`i_private` cleared. -/
def osfs_free_data_block_chain (sb : osfs_sb_info) (inode : vfs_inode) (fuel : Nat) :
    Option (osfs_sb_info × vfs_inode) :=
  match inode.i_private with
  | none => some (sb, inode)
  | some slot =>
    match free_chain_loop fuel sb (sb.inode_table slot).first_block with
    | none => none
    | some sb1 => some (sb1, { inode with i_private := none })

/-! ## super.c: `osfs_destroy_inode` -/

/-- `osfs_destroy_inode`. The block address is computed with the macro
`BLOCK_SIZE`, taken to be `sb_info->block_size` as everywhere else. -/
def osfs_destroy_inode (sb : osfs_sb_info) (inode : vfs_inode) (fuel : Nat) :
    Option (osfs_sb_info × vfs_inode) :=
  match inode.i_private with
  | none => some (sb, inode)
  | some slot =>
    match free_chain_loop fuel sb (sb.inode_table slot).first_block with
    | none => none
    | some sb1 => some (sb1, { inode with i_private := none })

/-! ## dir.c: lookup, insertion, creation, iteration -/

/-- The `for` loop of `osfs_lookup` over block `b`, at slot `i` with `k`
iterations left: `some (some ino)` for the first slot whose name has the length
and the bytes of `name`, `some none` when no slot matches, `none` when a read
leaves the `data` array. -/
def lookup_block (L : osfs_dir_layout) (sb : osfs_sb_info) (b : Nat) (name : List Nat) :
    Nat → Nat → Option (Option Nat)
  | _, 0 => some none
  | i, k + 1 =>
    let d := (sb.data_blocks b).data
    let p := i * L.sizeof_dir_entry
    match c_strlen d p (payload sb - p) with
    | none => none
    | some n =>
      if n = name.length ∧ c_name_eq d p name = true then
        match slot_inode_no L sb b i with
        | none => none
        | some ino => some (some ino)
      else lookup_block L sb b name (i + 1) k

/-- The `while` loop of `osfs_lookup` over the chain. -/
def lookup_chain (L : osfs_dir_layout) (sb : osfs_sb_info) (dir : Nat) (name : List Nat) :
    Nat → Nat → Option (Option Nat)
  | fuel, current_block =>
    if current_block = NO_BLOCK then some none
    else
      match fuel with
      | 0 => none
      | fuel + 1 =>
        let dir_entry_count := (sb.inode_table dir).i_size / L.sizeof_dir_entry
        match lookup_block L sb current_block name 0 dir_entry_count with
        | none => none
        | some (some ino) => some (some ino)
        | some none => lookup_chain L sb dir name fuel (sb.data_blocks current_block).next_block

/-- `osfs_lookup` of `name` in the directory whose inode record is slot `dir`:
`ok none` for the `NULL` of a miss, `ok (some inode)` for the inode spliced to
the dentry, an error from `osfs_iget`; `none` when the walk is undefined (a read
outside a `data` array) or the fuel runs out. -/
def osfs_lookup (L : osfs_dir_layout) (sb : osfs_sb_info) (dir : Nat) (name : List Nat)
    (vfs_ok : Bool) (fuel : Nat) : Option (Except Errno (Option vfs_inode)) :=
  match lookup_chain L sb dir name fuel (sb.inode_table dir).first_block with
  | none => none
  | some none => some (.ok none)
  | some (some ino) =>
    match osfs_iget sb ino vfs_ok with
    | .error e => some (.error e)
    | .ok inode => some (.ok (some inode))

/-- The `for (i = 0; i < MAX_DIR_ENTRIES; i++)` loop of `osfs_add_dir_entry`
over block `b`: the first slot whose name starts with a zero byte. -/
def find_empty_slot (L : osfs_dir_layout) (sb : osfs_sb_info) (b : Nat) :
    Nat → Nat → Option (Option Nat)
  | _, 0 => some none
  | i, k + 1 =>
    let p := i * L.sizeof_dir_entry
    if p < payload sb then
      if (sb.data_blocks b).data p = 0 then some (some i)
      else find_empty_slot L sb b (i + 1) k
    else none

/-- The `while` loop of `osfs_add_dir_entry`: `inl (b, i)` for the first empty
slot `i` of the first block `b` that has one, `inr prev_block` when the chain
ends without one. -/
def add_dir_entry_walk (L : osfs_dir_layout) (sb : osfs_sb_info) :
    Nat → Nat → Nat → Option (Sum (Nat × Nat) Nat)
  | fuel, current_block, prev_block =>
    if current_block = NO_BLOCK then some (.inr prev_block)
    else
      match fuel with
      | 0 => none
      | fuel + 1 =>
        match find_empty_slot L sb current_block 0 L.MAX_DIR_ENTRIES with
        | none => none
        | some (some i) => some (.inl (current_block, i))
        | some none =>
          add_dir_entry_walk L sb fuel (sb.data_blocks current_block).next_block current_block

/-- The statements `parent_inode->i_size += sizeof(struct osfs_dir_entry)` and
the two timestamps, on inode slot `dir`. -/
def bump_dir_size (L : osfs_dir_layout) (sb : osfs_sb_info) (dir now : Nat) : osfs_sb_info :=
  let node := sb.inode_table dir
  let grown : osfs_inode :=
    { node with i_size := (node.i_size + L.sizeof_dir_entry) % 4294967296,
                __i_mtime := now, __i_ctime := now }
  { sb with inode_table := upd sb.inode_table dir grown }

/-- The statements `memset(data_block, 0, sb_info->block_size)` and
`data_block->next_block = -1` on the new block `b`. -/
def clear_new_block (sb : osfs_sb_info) (b : Nat) : osfs_sb_info :=
  let data_block := sb.data_blocks b
  let cleared : osfs_data_block :=
    { data := fun j => if j < payload sb then 0 else data_block.data j,
      next_block := NO_BLOCK }
  { sb with data_blocks := upd sb.data_blocks b cleared }

/-- `osfs_add_dir_entry` on the directory whose inode record is slot `dir`. -/
def osfs_add_dir_entry (L : osfs_dir_layout) (sb : osfs_sb_info) (dir inode_no : Nat)
    (name : List Nat) (now fuel : Nat) : Option (osfs_sb_info × Except Errno Unit) :=
  match add_dir_entry_walk L sb fuel (sb.inode_table dir).first_block 0 with
  | none => none
  | some (.inl (b, i)) =>
    match write_entry L sb b i name inode_no with
    | none => none
    | some sb1 => some (bump_dir_size L sb1 dir now, .ok ())
  | some (.inr prev_block) =>
    match osfs_alloc_data_block sb with
    | (sb1, .error e) => some (sb1, .error e)
    | (sb1, .ok new_block) =>
      let sb2 := clear_new_block sb1 new_block
      let sb3 :=
        if prev_block ≠ 0 then link_block sb2 prev_block new_block
        else assign_first_block sb2 dir new_block
      match write_entry L sb3 new_block 0 name inode_no with
      | none => none
      | some sb4 => some (bump_dir_size L sb4 dir now, .ok ())

/-- `osfs_create` of `name` in the directory whose inode record is slot `dir`.
The `iput` after a failed insertion reaches `osfs_destroy_inode`. -/
def osfs_create (L : osfs_dir_layout) (sb : osfs_sb_info) (dir : Nat) (name : List Nat)
    (mode uid gid : Nat) (vfs_ok : Bool) (now fuel : Nat) :
    Option (osfs_sb_info × Except Errno vfs_inode) :=
  if name.length > L.MAX_FILENAME_LEN then some (sb, .error .ENAMETOOLONG)
  else
    match osfs_new_inode sb mode uid gid vfs_ok now with
    | (sb1, .error e) => some (sb1, .error e)
    | (sb1, .ok inode) =>
      match inode.i_private with
      | none => some (sb1, .error .EIO_err)
      | some slot =>
        let sb2 := osfs_create_reset sb1 slot
        match osfs_add_dir_entry L sb2 dir inode.i_ino name now fuel with
        | none => none
        | some (sb3, .error e) =>
          match osfs_destroy_inode sb3 inode fuel with
          | none => none
          | some (sb4, _) => some (sb4, .error e)
        | some (sb3, .ok _) => some (bump_dir_size L sb3 dir now, .ok inode)

/-- The state of a directory listing: the cursor `ctx->pos`, the entries the
actor has taken so far, and the error the call ends with, if any. -/
structure dir_listing where
  pos : Nat
  emitted : List (List Nat × Nat)
  error : Option Errno
  deriving DecidableEq, Repr

/-- Kernel `dir_emit`: hand one entry to the actor of the caller. `accept` is
the verdict of that actor, given the number of entries it holds and the name;
`none` stands for the `false` of a refusal. -/
def dir_emit (accept : Nat → List Nat → Bool) (ctx : dir_listing) (name : List Nat)
    (ino : Nat) : Option dir_listing :=
  if accept ctx.emitted.length name = true then
    some { ctx with emitted := ctx.emitted ++ [(name, ino)] }
  else none

/-- Kernel `dir_emit_dots`: "." at cursor 0 and ".." at cursor 1 (the bytes 46
and 46, 46), with the listing reached and whether both went through. -/
def dir_emit_dots (accept : Nat → List Nat → Bool) (dir parent : Nat) (ctx : dir_listing) :
    dir_listing × Bool :=
  let after_dot : dir_listing × Bool :=
    if ctx.pos = 0 then
      match dir_emit accept ctx [46] dir with
      | none => (ctx, false)
      | some ctx1 => ({ ctx1 with pos := 1 }, true)
    else (ctx, true)
  if after_dot.2 = false then after_dot
  else if after_dot.1.pos = 1 then
    match dir_emit accept after_dot.1 [46, 46] parent with
    | none => (after_dot.1, false)
    | some ctx2 => ({ ctx2 with pos := 2 }, true)
  else after_dot

/-- The `for` loop of `osfs_iterate` over block `b`, at slot `i` with `k`
iterations left. `entry_index` is the C `int` counter of entries still to skip.
The result carries the counter for the next block; `none` when a read leaves
the `data` array. -/
def iterate_block (L : osfs_dir_layout) (sb : osfs_sb_info) (accept : Nat → List Nat → Bool)
    (b : Nat) : Nat → Nat → Int → dir_listing → Option (Int × dir_listing)
  | _, 0, entry_index, ctx => some (entry_index, ctx)
  | i, k + 1, entry_index, ctx =>
    if entry_index > 0 then iterate_block L sb accept b (i + 1) k (entry_index - 1) ctx
    else
      match slot_name L sb b i, slot_inode_no L sb b i with
      | some name, some ino =>
        match dir_emit accept ctx name ino with
        | none => some (entry_index, { ctx with error := some .EINVAL })
        | some ctx1 =>
          iterate_block L sb accept b (i + 1) k entry_index { ctx1 with pos := ctx1.pos + 1 }
      | _, _ => none

/-- The `while` loop of `osfs_iterate` over the chain. -/
def iterate_chain (L : osfs_dir_layout) (sb : osfs_sb_info) (accept : Nat → List Nat → Bool)
    (dir : Nat) : Nat → Nat → Int → dir_listing → Option dir_listing
  | fuel, current_block, entry_index, ctx =>
    if current_block = NO_BLOCK then some ctx
    else
      match fuel with
      | 0 => none
      | fuel + 1 =>
        let dir_entry_count := (sb.inode_table dir).i_size / L.sizeof_dir_entry
        match iterate_block L sb accept current_block 0 dir_entry_count entry_index ctx with
        | none => none
        | some (entry_index1, ctx1) =>
          match ctx1.error with
          | some _ => some ctx1
          | none =>
            iterate_chain L sb accept dir fuel (sb.data_blocks current_block).next_block
              entry_index1 ctx1

/-- `osfs_iterate` on the directory whose inode record (and inode number) is
`dir`, from cursor `pos`: the new cursor, the entries emitted and the error.
`parent` is the inode number behind "..". -/
def osfs_iterate (L : osfs_dir_layout) (sb : osfs_sb_info) (accept : Nat → List Nat → Bool)
    (dir parent pos fuel : Nat) : Option dir_listing :=
  let entry_index : Int := (pos : Int) - 2
  let ctx : dir_listing := { pos := pos, emitted := [], error := none }
  let dotted : dir_listing × Bool :=
    if pos = 0 then dir_emit_dots accept dir parent ctx else (ctx, true)
  if dotted.2 = false then some dotted.1
  else iterate_chain L sb accept dir fuel (sb.inode_table dir).first_block entry_index dotted.1

/-! ## The block array as the machine reads it -/

/-- Modelled from the spec: the byte at offset `a` of the array
`sb_info->data_blocks`. A block record is its payload followed by the 32-bit
link, stored low byte first (`struct osfs_data_block` is declared in `osfs.h`),
and the records follow one another without a gap. The answer is `none` outside
the array. -/
def area_byte (sb : osfs_sb_info) (a : Nat) : Option Nat :=
  if a / sb.block_size < sb.block_count then
    let data_block := sb.data_blocks (a / sb.block_size)
    let o := a % sb.block_size
    some (if o < payload sb then data_block.data o
          else le32_byte data_block.next_block (o - payload sb))
  else none

/-- C `strlen` on the bytes of the array from offset `a` on, with `k` bytes of
the array left: `none` when no terminator lies inside the array. -/
def area_strlen (sb : osfs_sb_info) : Nat → Nat → Option Nat
  | _, 0 => none
  | a, k + 1 =>
    match area_byte sb a with
    | none => none
    | some c =>
      if c = 0 then some 0
      else
        match area_strlen sb (a + 1) k with
        | none => none
        | some n => some (n + 1)

/-- The test `strncmp(filename, name, len) == 0` on the bytes of the array at
offset `a`, once `strlen(filename) == len` is known. -/
def area_name_eq (sb : osfs_sb_info) (a : Nat) (name : List Nat) : Bool :=
  (List.range name.length).all (fun k => area_byte sb (a + k) == some (name.getD k 0))

/-- The 32-bit value stored low byte first in the four bytes of the array at
offset `a`. -/
def area_load_le32 (sb : osfs_sb_info) (a : Nat) : Option Nat :=
  match area_byte sb a, area_byte sb (a + 1), area_byte sb (a + 2), area_byte sb (a + 3) with
  | some b0, some b1, some b2, some b3 => some (b0 + 256 * b1 + 65536 * b2 + 16777216 * b3)
  | _, _, _, _ => none

/-- The `for` loop of `osfs_lookup` over block `b` as the machine runs it:
`dir_entries[i]` is the record at byte `i * sizeof(struct osfs_dir_entry)`
from the start of the block's payload, also when that lies past the payload,
in the link field and in the blocks that follow. -/
def lookup_block_flat (L : osfs_dir_layout) (sb : osfs_sb_info) (b : Nat) (name : List Nat) :
    Nat → Nat → Option (Option Nat)
  | _, 0 => some none
  | i, k + 1 =>
    let a := b * sb.block_size + i * L.sizeof_dir_entry
    match area_strlen sb a (sb.block_count * sb.block_size - a) with
    | none => none
    | some n =>
      if n = name.length ∧ area_name_eq sb a name = true then
        match area_load_le32 sb (a + L.inode_no_offset) with
        | none => none
        | some ino => some (some ino)
      else lookup_block_flat L sb b name (i + 1) k

/-- The `while` loop of `osfs_lookup` over the chain, as the machine runs it. -/
def lookup_chain_flat (L : osfs_dir_layout) (sb : osfs_sb_info) (dir : Nat) (name : List Nat) :
    Nat → Nat → Option (Option Nat)
  | fuel, current_block =>
    if current_block = NO_BLOCK then some none
    else
      match fuel with
      | 0 => none
      | fuel + 1 =>
        let dir_entry_count := (sb.inode_table dir).i_size / L.sizeof_dir_entry
        match lookup_block_flat L sb current_block name 0 dir_entry_count with
        | none => none
        | some (some ino) => some (some ino)
        | some none =>
          lookup_chain_flat L sb dir name fuel (sb.data_blocks current_block).next_block

/-- `osfs_lookup` as the machine runs it: the same walk as `osfs_lookup`, with
every slot read from the bytes of the block array. `none` when a read leaves
the array or the fuel runs out. -/
def osfs_lookup_flat (L : osfs_dir_layout) (sb : osfs_sb_info) (dir : Nat) (name : List Nat)
    (vfs_ok : Bool) (fuel : Nat) : Option (Except Errno (Option vfs_inode)) :=
  match lookup_chain_flat L sb dir name fuel (sb.inode_table dir).first_block with
  | none => none
  | some none => some (.ok none)
  | some (some ino) =>
    match osfs_iget sb ino vfs_ok with
    | .error e => some (.error e)
    | .ok inode => some (.ok (some inode))

/-! ## Specification vocabulary -/

/-- Number of clear bits of the bitmap `bm` among the positions below `n`. -/
def count_clear (bm : Nat) : Nat → Nat
  | 0 => 0
  | n + 1 => count_clear bm n + (if test_bit n bm = false then 1 else 0)

/-- The chain that starts at block `b` holds at least `n` blocks. -/
def chain_has (sb : osfs_sb_info) : Nat → Nat → Bool
  | _, 0 => true
  | b, n + 1 => b != NO_BLOCK && chain_has sb (sb.data_blocks b).next_block n

/-- The number `ceil(s / p)` of blocks of capacity `p` that `s` bytes occupy. -/
def blocks_for (s p : Nat) : Nat := (s + p - 1) / p

/-- The chain that starts at block `b` is the list `l` of blocks, in order, and
ends with the terminator. -/
def chain_is (sb : osfs_sb_info) : Nat → List Nat → Bool
  | b, [] => b == NO_BLOCK
  | b, c :: l => b == c && c != NO_BLOCK && chain_is sb (sb.data_blocks c).next_block l

/-- Block `b` is met within `fuel` steps of the chain that starts at `start`. -/
def chain_reaches (sb : osfs_sb_info) (b : Nat) : Nat → Nat → Bool
  | 0, _ => false
  | fuel + 1, start =>
    start != NO_BLOCK &&
      (start == b || chain_reaches sb b fuel (sb.data_blocks start).next_block)

/-- Slot `i` of block `b` is empty: the first byte of its name is zero. -/
def slot_empty (L : osfs_dir_layout) (sb : osfs_sb_info) (b i : Nat) : Bool :=
  (sb.data_blocks b).data (i * L.sizeof_dir_entry) == 0

/-- The chain that starts at block `start` runs through the blocks of `pre`, in
order, and then reaches block `b`. -/
def chain_leads (sb : osfs_sb_info) : Nat → List Nat → Nat → Bool
  | start, [], b => start == b
  | start, c :: l, b =>
    start == c && c != NO_BLOCK && chain_leads sb (sb.data_blocks c).next_block l b

/-- The free-block counter counts the clear bits of the block bitmap below
`block_count`; no bit at or above `block_count` is set, and `block_count` is a
32-bit value. -/
def blocks_consistent (sb : osfs_sb_info) : Prop :=
  sb.nr_free_blocks = count_clear sb.block_bitmap sb.block_count ∧
  (∀ j, sb.block_count ≤ j → test_bit j sb.block_bitmap = false) ∧
  sb.block_count < 4294967296

/-- The stores reached from a successful `osfs_fill_super` by
`osfs_alloc_data_block`, by `osfs_free_data_block` on a block whose bit is set,
by `osfs_create`, by `osfs_write`, and by `osfs_destroy_inode` on an inode
whose chain is a list of blocks whose bits are set. -/
inductive reached : osfs_sb_info → Prop
  | fill (cfg : osfs_config) (vmalloc_ok new_inode_ok make_root_ok : Bool) (now : Nat)
      (sb : osfs_sb_info) :
      osfs_fill_super cfg vmalloc_ok new_inode_ok make_root_ok now = .ok sb → reached sb
  | alloc (sb : osfs_sb_info) : reached sb → reached (osfs_alloc_data_block sb).1
  | free (sb : osfs_sb_info) (b : Nat) :
      reached sb → test_bit b sb.block_bitmap = true → reached (osfs_free_data_block sb b)
  | create (L : osfs_dir_layout) (sb : osfs_sb_info) (dir : Nat) (name : List Nat)
      (mode uid gid : Nat) (vfs_ok : Bool) (now fuel : Nat) (sb1 : osfs_sb_info)
      (r : Except Errno vfs_inode) :
      reached sb → osfs_create L sb dir name mode uid gid vfs_ok now fuel = some (sb1, r) →
      reached sb1
  | write (sb : osfs_sb_info) (ino : Nat) (buf : List Nat) (len ppos now : Nat)
      (sb1 : osfs_sb_info) (ppos1 : Nat) (r : Except Errno Nat) :
      reached sb → osfs_write sb ino buf len ppos now = some (sb1, ppos1, r) → reached sb1
  | destroy (sb : osfs_sb_info) (inode : vfs_inode) (fuel : Nat) (slot : Nat) (l : List Nat)
      (sb1 : osfs_sb_info) (inode1 : vfs_inode) :
      reached sb → inode.i_private = some slot →
      chain_is sb (sb.inode_table slot).first_block l = true →
      (∀ b, b ∈ l → test_bit b sb.block_bitmap = true) →
      osfs_destroy_inode sb inode fuel = some (sb1, inode1) → reached sb1

/-- The number of inode numbers in `[1, inode_count)` whose bitmap bit is clear:
the numbers `osfs_get_free_inode` can still return. -/
def free_inode_numbers (sb : osfs_sb_info) : Nat :=
  ((List.range sb.inode_count).filter
    (fun i => decide (1 ≤ i) && !test_bit i sb.inode_bitmap)).length

/-- The blocks of the array link to blocks of the array or end the chain. -/
def links_in_range (sb : osfs_sb_info) : Prop :=
  ∀ c, c < sb.block_count →
    (sb.data_blocks c).next_block = NO_BLOCK ∨ (sb.data_blocks c).next_block < sb.block_count

/-! ## Concrete stores used as test inputs -/

/-- A small geometry: 5 inodes, 4 blocks of 8 bytes (payload capacity 4). -/
def sample_config : osfs_config :=
  { OSFS_MAGIC := 1, INODE_COUNT := 5, DATA_BLOCK_COUNT := 4, ROOT_INODE := 1,
    sizeof_data_block := 8 }

/-- The store inside a successful `osfs_fill_super` result. -/
def store_of (r : Except Errno osfs_sb_info) (cfg : osfs_config) : osfs_sb_info :=
  match r with
  | .ok sb => sb
  | .error _ => format_region cfg

/-- The freshly formatted store of `sample_config`. -/
def sample_store : osfs_sb_info :=
  store_of (osfs_fill_super sample_config true true true 0) sample_config

/-- The store `sample_store` with every block in use. -/
def full_store : osfs_sb_info :=
  { sample_store with block_bitmap := 15, nr_free_blocks := 0 }

/-- The store `sample_store` after `osfs_new_inode` for a regular file (mode
`0100644`) and the two assignments of `osfs_create` on the new inode: inode 2
owns no block and its `first_block` is the terminator. Block 0 stays marked
used; blocks 1, 2 and 3 are free. -/
def file_store : osfs_sb_info :=
  osfs_create_reset (osfs_new_inode sample_store 33188 0 0 true 0).1 2

/-- The store inside the result of an `osfs_write`. -/
def store_after (r : Option (osfs_sb_info × Nat × Except Errno Nat)) (dflt : osfs_sb_info) :
    osfs_sb_info :=
  match r with
  | some (sb, _, _) => sb
  | none => dflt

/-- Ten bytes, enough for three blocks of payload capacity 4. -/
def ten_bytes : List Nat := [10, 11, 12, 13, 14, 15, 16, 17, 18, 19]

/-- The store `file_store` after `ten_bytes` has been written to file 2 at
offset 0. -/
def written_store : osfs_sb_info :=
  store_after (osfs_write file_store 2 ten_bytes 10 0 0) file_store

/-- Sixteen bytes: one block more than `file_store` has free. -/
def sixteen_bytes : List Nat :=
  [20, 21, 22, 23, 24, 25, 26, 27, 28, 29, 30, 31, 32, 33, 34, 35]

/-- The store `file_store` after the attempt to write `sixteen_bytes` to file 2
at offset 0. -/
def overfull_store : osfs_sb_info :=
  store_after (osfs_write file_store 2 sixteen_bytes 16 0 0) file_store

/-- The file position and the return value of an `osfs_write`, without the
store. -/
def write_answer (r : Option (osfs_sb_info × Nat × Except Errno Nat)) :
    Option (Nat × Except Errno Nat) :=
  match r with
  | some (_, ppos, ret) => some (ppos, ret)
  | none => none

/-- The store `sample_store` with every block bit set while the free-block
counter still says 4. -/
def miscounted_store : osfs_sb_info :=
  { sample_store with block_bitmap := 15 }

/-- The store `sample_store` after two successful `osfs_new_inode` calls for
regular files (inodes 2 and 3). -/
def two_files_store : osfs_sb_info :=
  (osfs_new_inode (osfs_new_inode sample_store 33188 0 0 true 0).1 33188 0 0 true 0).1

/-- The geometry of the scenario of the specification: 8 inodes and 16 blocks
of 1020 bytes, that is payload capacity 1016. -/
def scenario_config : osfs_config :=
  { OSFS_MAGIC := 1, INODE_COUNT := 8, DATA_BLOCK_COUNT := 16, ROOT_INODE := 1,
    sizeof_data_block := 1020 }

/-- The freshly formatted store of `scenario_config`. -/
def scenario_store : osfs_sb_info :=
  store_of (osfs_fill_super scenario_config true true true 0) scenario_config

/-- The store `scenario_store` after `osfs_new_inode` for a regular file and the
two assignments of `osfs_create` on the new inode: inode 2 owns no block. -/
def scenario_file_store : osfs_sb_info :=
  osfs_create_reset (osfs_new_inode scenario_store 33188 0 0 true 0).1 2

/-- The 2000 bytes `0, 1, ..., 255, 0, 1, ...`. -/
def scenario_bytes : List Nat := (List.range 2000).map (fun i => i % 256)

/-- A directory layout with small numbers: names of up to 3 bytes in a 4-byte
buffer, the inode number in the 4 bytes after it, records of 8 bytes, and 2
records in one block. -/
def tiny_layout : osfs_dir_layout :=
  { MAX_FILENAME_LEN := 3, MAX_DIR_ENTRIES := 2, sizeof_dir_entry := 8, inode_no_offset := 4 }

/-- A geometry for `tiny_layout`: 8 inodes and 6 blocks of 20 bytes, that is
payload capacity 16, the size of 2 records. -/
def tiny_config : osfs_config :=
  { OSFS_MAGIC := 1, INODE_COUNT := 8, DATA_BLOCK_COUNT := 6, ROOT_INODE := 1,
    sizeof_data_block := 20 }

/-- The freshly formatted store of `tiny_config`. -/
def tiny_store : osfs_sb_info :=
  store_of (osfs_fill_super tiny_config true true true 0) tiny_config

/-- The layout `tiny_layout` with 8 records in one block. -/
def wide_layout : osfs_dir_layout :=
  { MAX_FILENAME_LEN := 3, MAX_DIR_ENTRIES := 8, sizeof_dir_entry := 8, inode_no_offset := 4 }

/-- A geometry for `wide_layout`: 8 inodes and 16 blocks of 68 bytes, that is
payload capacity 64, the size of 8 records. -/
def wide_config : osfs_config :=
  { OSFS_MAGIC := 1, INODE_COUNT := 8, DATA_BLOCK_COUNT := 16, ROOT_INODE := 1,
    sizeof_data_block := 68 }

/-- The freshly formatted store of `wide_config`. -/
def wide_store : osfs_sb_info :=
  store_of (osfs_fill_super wide_config true true true 0) wide_config

/-- The geometry `wide_config` with a single data block. -/
def one_config : osfs_config :=
  { OSFS_MAGIC := 1, INODE_COUNT := 8, DATA_BLOCK_COUNT := 1, ROOT_INODE := 1,
    sizeof_data_block := 68 }

/-- The freshly formatted store of `one_config`. -/
def one_store : osfs_sb_info :=
  store_of (osfs_fill_super one_config true true true 0) one_config

/-- The store inside the result of an `osfs_add_dir_entry`. -/
def store_added (r : Option (osfs_sb_info × Except Errno Unit)) (dflt : osfs_sb_info) :
    osfs_sb_info :=
  match r with
  | some (sb, _) => sb
  | none => dflt

/-- The return value of an `osfs_add_dir_entry`, without the store. -/
def add_answer (r : Option (osfs_sb_info × Except Errno Unit)) : Option (Except Errno Unit) :=
  match r with
  | some (_, ret) => some ret
  | none => none

/-- The store inside the result of an `osfs_create`. -/
def store_created (r : Option (osfs_sb_info × Except Errno vfs_inode)) (dflt : osfs_sb_info) :
    osfs_sb_info :=
  match r with
  | some (sb, _) => sb
  | none => dflt

/-- The return value of an `osfs_create`, without the store: the inode number
of the new file or the error. -/
def create_answer (r : Option (osfs_sb_info × Except Errno vfs_inode)) :
    Option (Except Errno Nat) :=
  match r with
  | some (_, .ok inode) => some (.ok inode.i_ino)
  | some (_, .error e) => some (.error e)
  | none => none

/-- The outcome of an `osfs_lookup` with the inode reduced to its number. -/
def lookup_answer (r : Option (Except Errno (Option vfs_inode))) :
    Option (Except Errno (Option Nat)) :=
  match r with
  | some (.ok (some inode)) => some (.ok (some inode.i_ino))
  | some (.ok none) => some (.ok none)
  | some (.error e) => some (.error e)
  | none => none

/-- The store inside the result of an `osfs_destroy_inode`. -/
def store_destroyed (r : Option (osfs_sb_info × vfs_inode)) (dflt : osfs_sb_info) :
    osfs_sb_info :=
  match r with
  | some (sb, _) => sb
  | none => dflt

/-- The VFS inode inside a successful `osfs_iget` result. -/
def inode_of (r : Except Errno vfs_inode) : vfs_inode :=
  match r with
  | .ok inode => inode
  | .error _ =>
    { i_ino := 0, i_mode := 0, i_uid := 0, i_gid := 0, i_nlink := 0, i_size := 0, i_blocks := 0,
      i_private := none }

/-- An actor that takes every entry. -/
def accept_all : Nat → List Nat → Bool := fun _ _ => true

/-- An actor that refuses an entry with an empty name, as the kernel's
`filldir` does, and takes every other entry. -/
def accept_named : Nat → List Nat → Bool := fun _ name => !name.isEmpty

/-- The store `tiny_store` with block 0 taken by another owner before the
entries ("a", 5) and ("b", 6) are inserted into the root directory, which fill
its only block, block 1. -/
def dir_two_late : osfs_sb_info :=
  store_added (osfs_add_dir_entry tiny_layout
    (store_added (osfs_add_dir_entry tiny_layout (osfs_alloc_data_block tiny_store).1
      1 5 [97] 0 10) tiny_store)
    1 6 [98] 0 10) tiny_store

/-- The store `dir_two_late` after the entry ("abc", 7) has been inserted as
well. -/
def dir_three_late : osfs_sb_info :=
  store_added (osfs_add_dir_entry tiny_layout dir_two_late 1 7 [97, 98, 99] 0 10) tiny_store

/-- The store `wide_store` after `osfs_create` of the regular file "a" in the
root directory. -/
def root_one : osfs_sb_info :=
  store_created (osfs_create wide_layout wide_store 1 [97] 33188 0 0 true 0 20) wide_store

/-- The store `root_one` after `osfs_create` of "b". -/
def root_two : osfs_sb_info :=
  store_created (osfs_create wide_layout root_one 1 [98] 33188 0 0 true 0 20) wide_store

/-- The store `root_two` after `osfs_create` of "c". -/
def root_three : osfs_sb_info :=
  store_created (osfs_create wide_layout root_two 1 [99] 33188 0 0 true 0 20) wide_store

/-- The store `root_three` after `osfs_destroy_inode` on the inode of "b", as
`osfs_iget` hands it out. -/
def root_destroyed : osfs_sb_info :=
  store_destroyed (osfs_destroy_inode root_three (inode_of (osfs_iget root_three 3 true)) 20)
    root_three

/-- The store `one_store` after the attempt to create "a" in its root. -/
def one_failed : osfs_sb_info :=
  store_created (osfs_create wide_layout one_store 1 [97] 33188 0 0 true 0 20) one_store

/-- The store `written_store` (file 2 holds `ten_bytes` in blocks 1, 2, 3 of
payload capacity 4) after the one byte 99 has been written at offset 4. -/
def patched_store : osfs_sb_info :=
  store_after (osfs_write written_store 2 [99] 1 4 0) written_store

/-- The store `written_store` after the one byte 99 has been written at
offset 1. -/
def patched_low_store : osfs_sb_info :=
  store_after (osfs_write written_store 2 [99] 1 1 0) written_store

/-- The store `tiny_store` after `osfs_create` of "a" in the root. -/
def pair_one : osfs_sb_info :=
  store_created (osfs_create tiny_layout tiny_store 1 [97] 33188 0 0 true 0 20) tiny_store

/-- The store `pair_one` after `osfs_create` of "b" in the root. -/
def pair_two : osfs_sb_info :=
  store_created (osfs_create tiny_layout pair_one 1 [98] 33188 0 0 true 0 20) pair_one

/-- The store `root_one` after one byte has been written to the file "a"
(inode 2), which gives the file block 2. -/
def root_written : osfs_sb_info :=
  store_after (osfs_write root_one 2 [7] 1 0 0) root_one

/-- The store `root_written` after `osfs_destroy_inode` on the inode of "a". -/
def root_released : osfs_sb_info :=
  store_destroyed (osfs_destroy_inode root_written (inode_of (osfs_iget root_written 2 true)) 20)
    root_written

/-- The store `root_written` after `osfs_free_data_block` on block 2, the block
of the file "a". -/
def root_freed : osfs_sb_info := osfs_free_data_block root_written 2

/-- The store `root_freed` after `osfs_destroy_inode` on the inode of "a". -/
def root_freed_twice : osfs_sb_info :=
  store_destroyed (osfs_destroy_inode root_freed (inode_of (osfs_iget root_freed 2 true)) 20)
    root_freed

/-- The store `tiny_store` after `osfs_create` of "abc" in the root. -/
def abc_store : osfs_sb_info :=
  store_created (osfs_create tiny_layout tiny_store 1 [97, 98, 99] 33188 0 0 true 0 20)
    tiny_store

/-- The store `pair_one` (the root holds "a") after `osfs_create` of the name
that is the one byte 255. -/
def high_two : osfs_sb_info :=
  store_created (osfs_create tiny_layout pair_one 1 [255] 33188 0 0 true 0 20) pair_one

/-- The store `pair_two` (the root holds "a" and "b") after `osfs_create` of the
name that is the one byte 4. -/
def pair_three : osfs_sb_info :=
  store_created (osfs_create tiny_layout pair_two 1 [4] 33188 0 0 true 0 20) pair_two

/-- A geometry for `tiny_layout` with room for five files: 12 inodes and 10
blocks of 20 bytes. -/
def deep_config : osfs_config :=
  { OSFS_MAGIC := 1, INODE_COUNT := 12, DATA_BLOCK_COUNT := 10, ROOT_INODE := 1,
    sizeof_data_block := 20 }

/-- The freshly formatted store of `deep_config`. -/
def deep_store : osfs_sb_info :=
  store_of (osfs_fill_super deep_config true true true 0) deep_config

/-- The store `deep_store` after `osfs_create` of "a" in the root. -/
def deep_one : osfs_sb_info :=
  store_created (osfs_create tiny_layout deep_store 1 [97] 33188 0 0 true 0 20) deep_store

/-- The store `deep_one` after `osfs_create` of "b". -/
def deep_two : osfs_sb_info :=
  store_created (osfs_create tiny_layout deep_one 1 [98] 33188 0 0 true 0 20) deep_one

/-- The store `deep_two` after `osfs_create` of "c". -/
def deep_three : osfs_sb_info :=
  store_created (osfs_create tiny_layout deep_two 1 [99] 33188 0 0 true 0 20) deep_two

/-- The store `deep_three` after `osfs_create` of the name that is the one
byte 5. -/
def deep_four : osfs_sb_info :=
  store_created (osfs_create tiny_layout deep_three 1 [5] 33188 0 0 true 0 20) deep_three

/-- The store `deep_four` after `osfs_create` of "e". -/
def deep_five : osfs_sb_info :=
  store_created (osfs_create tiny_layout deep_four 1 [101] 33188 0 0 true 0 20) deep_four

/-! # Theorems -/

/-! ## Bitmap facts -/

theorem test_bit_set_bit (i j bm : Nat) :
    test_bit j (set_bit i bm) = (test_bit j bm || decide (i = j)) := by
  simp [test_bit, set_bit, Nat.testBit_two_pow]

theorem test_bit_clear_bit (i j bm : Nat) :
    test_bit j (clear_bit i bm) = (test_bit j bm && !decide (i = j)) := by
  simp only [test_bit, clear_bit, Nat.testBit_xor, Nat.testBit_and, Nat.testBit_two_pow]
  by_cases h : i = j <;> simp [h]

theorem u32_inc_dec (n : Nat) (h : n < 4294967296) : u32_inc (u32_dec n) = n := by
  unfold u32_inc u32_dec
  omega

theorem u32_dec_pos (n : Nat) (h0 : 0 < n) (h : n < 4294967296) : u32_dec n + 1 = n := by
  unfold u32_dec
  omega

theorem count_clear_congr (bm bm1 : Nat) :
    ∀ n, (∀ m, m < n → test_bit m bm1 = test_bit m bm) → count_clear bm1 n = count_clear bm n := by
  intro n
  induction n with
  | zero => intro _; rfl
  | succ n ih =>
    intro h
    simp only [count_clear]
    rw [ih (fun m hm => h m (by omega)), h n (by omega)]

theorem count_clear_set_bit (bm i : Nat) :
    ∀ n, i < n → test_bit i bm = false →
      count_clear (set_bit i bm) n + 1 = count_clear bm n := by
  intro n
  induction n with
  | zero => intro h; omega
  | succ n ih =>
    intro hi hc
    simp only [count_clear]
    by_cases hin : i = n
    · subst hin
      have h1 : count_clear (set_bit i bm) i = count_clear bm i :=
        count_clear_congr bm (set_bit i bm) i (fun m hm => by
          rw [test_bit_set_bit]
          have : ¬ i = m := by omega
          simp [this])
      have h2 : test_bit i (set_bit i bm) = true := by
        rw [test_bit_set_bit]; simp
      rw [h1, h2, hc]
      simp
    · have h1 := ih (by omega) hc
      have h2 : test_bit n (set_bit i bm) = test_bit n bm := by
        rw [test_bit_set_bit]; simp [hin]
      rw [h2]
      omega

theorem count_clear_pos (bm : Nat) :
    ∀ n, 0 < count_clear bm n → ∃ i, i < n ∧ test_bit i bm = false := by
  intro n
  induction n with
  | zero => intro h; simp [count_clear] at h
  | succ n ih =>
    intro h
    simp only [count_clear] at h
    by_cases hb : test_bit n bm = false
    · exact ⟨n, by omega, hb⟩
    · simp only [hb] at h
      obtain ⟨i, hi, hc⟩ := ih (by simpa using h)
      exact ⟨i, by omega, hc⟩

/-! ## The block allocator -/

/-- The scan either stops at the lowest clear bit of its range or finds none. -/
theorem alloc_from_cases (sb : osfs_sb_info) :
    ∀ k i,
      (∃ j, i ≤ j ∧ j < i + k ∧ test_bit j sb.block_bitmap = false ∧
          (∀ m, i ≤ m → m < j → test_bit m sb.block_bitmap = true) ∧
          osfs_alloc_data_block_from sb i k = (alloc_init sb j, .ok j)) ∨
      ((∀ m, i ≤ m → m < i + k → test_bit m sb.block_bitmap = true) ∧
          osfs_alloc_data_block_from sb i k = (sb, .error .ENOSPC)) := by
  intro k
  induction k with
  | zero =>
    intro i
    right
    exact ⟨fun m h1 h2 => by omega, rfl⟩
  | succ k ih =>
    intro i
    by_cases hb : test_bit i sb.block_bitmap = false
    · left
      refine ⟨i, Nat.le_refl i, by omega, hb, fun m h1 h2 => by omega, ?_⟩
      simp [osfs_alloc_data_block_from, hb]
    · have hb1 : test_bit i sb.block_bitmap = true := by simpa using hb
      rcases ih (i + 1) with ⟨j, h1, h2, h3, h4, h5⟩ | ⟨h1, h2⟩
      · left
        refine ⟨j, by omega, by omega, h3, ?_, ?_⟩
        · intro m hm1 hm2
          by_cases hmi : m = i
          · rw [hmi]; exact hb1
          · exact h4 m (by omega) hm2
        · simp [osfs_alloc_data_block_from, hb1, h5]
      · right
        refine ⟨?_, ?_⟩
        · intro m hm1 hm2
          by_cases hmi : m = i
          · rw [hmi]; exact hb1
          · exact h1 m (by omega) (by omega)
        · simp [osfs_alloc_data_block_from, hb1, h2]

/-- A successful allocation returns the lowest clear bit and the store
`alloc_init` builds for it. -/
theorem alloc_ok_inv (sb sb1 : osfs_sb_info) (i : Nat)
    (h : osfs_alloc_data_block sb = (sb1, .ok i)) :
    i < sb.block_count ∧ test_bit i sb.block_bitmap = false ∧
      (∀ m, m < i → test_bit m sb.block_bitmap = true) ∧ sb1 = alloc_init sb i := by
  unfold osfs_alloc_data_block at h
  rcases alloc_from_cases sb sb.block_count 0 with ⟨j, _, h2, h3, h4, h5⟩ | ⟨_, h2⟩
  · rw [h5] at h
    simp only [Prod.mk.injEq, Except.ok.injEq] at h
    obtain ⟨e1, e2⟩ := h
    subst e2
    exact ⟨by omega, h3, fun m hm => h4 m (by omega) hm, e1.symm⟩
  · rw [h2] at h
    simp at h

/-- With a clear bit below `block_count` the allocation succeeds. -/
theorem alloc_ok_of_clear (sb : osfs_sb_info) (j : Nat) (hj : j < sb.block_count)
    (hc : test_bit j sb.block_bitmap = false) :
    ∃ i, i < sb.block_count ∧ test_bit i sb.block_bitmap = false ∧
      (∀ m, m < i → test_bit m sb.block_bitmap = true) ∧
      osfs_alloc_data_block sb = (alloc_init sb i, .ok i) := by
  unfold osfs_alloc_data_block
  rcases alloc_from_cases sb sb.block_count 0 with ⟨i, _, h2, h3, h4, h5⟩ | ⟨h1, _⟩
  · exact ⟨i, by omega, h3, fun m hm => h4 m (by omega) hm, h5⟩
  · have := h1 j (by omega) (by omega)
    rw [hc] at this
    cases this


/-- C8: `osfs_alloc_data_block` returns the lowest clear bit `i` below
`block_count` when there is one, sets that bit, decrements the free-block
counter by one (as a 32-bit decrement), leaves block `i` with an all-zero
payload and the terminator link, and changes no other bit, block or field;
when no bit below `block_count` is clear it returns `-ENOSPC` and the store
is unchanged. -/
theorem osfs_alloc_data_block_contract (sb : osfs_sb_info) :
    ((∃ j, j < sb.block_count ∧ test_bit j sb.block_bitmap = false) →
      ∃ i sb1, osfs_alloc_data_block sb = (sb1, .ok i) ∧
        i < sb.block_count ∧ test_bit i sb.block_bitmap = false ∧
        (∀ m, m < i → test_bit m sb.block_bitmap = true) ∧
        test_bit i sb1.block_bitmap = true ∧
        sb1.nr_free_blocks = u32_dec sb.nr_free_blocks ∧
        (0 < sb.nr_free_blocks → sb.nr_free_blocks < 4294967296 →
          sb1.nr_free_blocks + 1 = sb.nr_free_blocks) ∧
        (∀ k, k < payload sb → (sb1.data_blocks i).data k = 0) ∧
        (sb1.data_blocks i).next_block = NO_BLOCK ∧
        (∀ m, m ≠ i → test_bit m sb1.block_bitmap = test_bit m sb.block_bitmap) ∧
        (∀ m, m ≠ i → sb1.data_blocks m = sb.data_blocks m) ∧
        sb1.inode_bitmap = sb.inode_bitmap ∧ sb1.inode_table = sb.inode_table ∧
        sb1.nr_free_inodes = sb.nr_free_inodes ∧ sb1.magic = sb.magic ∧
        sb1.block_size = sb.block_size ∧ sb1.inode_count = sb.inode_count ∧
        sb1.block_count = sb.block_count) ∧
    ((∀ j, j < sb.block_count → test_bit j sb.block_bitmap = true) →
      osfs_alloc_data_block sb = (sb, .error .ENOSPC)) := by
  constructor
  · rintro ⟨j, hj, hc⟩
    obtain ⟨i, hi, hci, hlow, heq⟩ := alloc_ok_of_clear sb j hj hc
    refine ⟨i, alloc_init sb i, heq, hi, hci, hlow, ?_, rfl, ?_, ?_, ?_, ?_, ?_,
      rfl, rfl, rfl, rfl, rfl, rfl, rfl⟩
    · simp [alloc_init, test_bit_set_bit]
    · intro h0 h1
      exact u32_dec_pos _ h0 h1
    · intro k hk
      simp [alloc_init, upd, hk]
    · simp [alloc_init, upd]
    · intro m hm
      have : ¬ i = m := fun e => hm e.symm
      simp [alloc_init, test_bit_set_bit, this]
    · intro m hm
      simp [alloc_init, upd, hm]
  · intro hall
    unfold osfs_alloc_data_block
    rcases alloc_from_cases sb sb.block_count 0 with ⟨i, _, h2, h3, _, _⟩ | ⟨_, h2⟩
    · have := hall i (by omega)
      rw [h3] at this
      cases this
    · exact h2

/-- The fresh store yields a block; the full store yields `-ENOSPC`. -/
theorem osfs_alloc_data_block_contract_witness :
    (∃ j, j < sample_store.block_count ∧ test_bit j sample_store.block_bitmap = false) ∧
    (∀ j, j < full_store.block_count → test_bit j full_store.block_bitmap = true) ∧
    (∃ i sb1, osfs_alloc_data_block sample_store = (sb1, .ok i) ∧ i < sample_store.block_count) ∧
    osfs_alloc_data_block full_store = (full_store, .error .ENOSPC) := by
  have h1 : ∃ j, j < sample_store.block_count ∧ test_bit j sample_store.block_bitmap = false :=
    ⟨0, by decide, by decide⟩
  have h2 : ∀ j, j < full_store.block_count → test_bit j full_store.block_bitmap = true := by
    show ∀ j, j < 4 → test_bit j 15 = true
    decide
  obtain ⟨i, sb1, h3, h4, _⟩ := (osfs_alloc_data_block_contract sample_store).1 h1
  exact ⟨h1, h2, ⟨i, sb1, h3, h4⟩, (osfs_alloc_data_block_contract full_store).2 h2⟩

/-- C7: when `osfs_alloc_data_block` succeeds with index `i`, freeing `i` and
allocating again returns the same `i`, and the free-block counter after the
free equals its value before the first allocation. -/
theorem alloc_free_alloc_round_trip (sb sb1 : osfs_sb_info) (i : Nat)
    (hw : sb.nr_free_blocks < 4294967296)
    (h : osfs_alloc_data_block sb = (sb1, .ok i)) :
    (osfs_alloc_data_block (osfs_free_data_block sb1 i)).2 = .ok i ∧
      (osfs_free_data_block sb1 i).nr_free_blocks = sb.nr_free_blocks := by
  obtain ⟨hi, hc, hlow, hsb⟩ := alloc_ok_inv sb sb1 i h
  subst hsb
  have hbit : ∀ m, test_bit m (osfs_free_data_block (alloc_init sb i) i).block_bitmap =
      (test_bit m sb.block_bitmap && !decide (i = m)) := by
    intro m
    simp only [osfs_free_data_block, alloc_init, test_bit_clear_bit, test_bit_set_bit]
    by_cases e : i = m <;> simp [e]
  have hcount : (osfs_free_data_block (alloc_init sb i) i).block_count = sb.block_count := rfl
  have hci : test_bit i (osfs_free_data_block (alloc_init sb i) i).block_bitmap = false := by
    rw [hbit]; simp
  obtain ⟨i1, _, h2, h3, h4⟩ :=
    alloc_ok_of_clear (osfs_free_data_block (alloc_init sb i) i) i (by rw [hcount]; exact hi) hci
  have e : i1 = i := by
    rcases Nat.lt_trichotomy i1 i with hlt | heq | hgt
    · have := hlow i1 hlt
      rw [hbit] at h2
      have hne : ¬ i = i1 := by omega
      simp [this, hne] at h2
    · exact heq
    · have := h3 i hgt
      rw [hci] at this
      cases this
  subst e
  refine ⟨by rw [h4], ?_⟩
  show u32_inc (u32_dec sb.nr_free_blocks) = sb.nr_free_blocks
  exact u32_inc_dec _ hw

/-- In the fresh store block 0 is allocated, freed and allocated again. -/
theorem alloc_free_alloc_round_trip_witness :
    sample_store.nr_free_blocks < 4294967296 ∧
    osfs_alloc_data_block sample_store = (alloc_init sample_store 0, .ok 0) ∧
    (osfs_alloc_data_block (osfs_free_data_block (alloc_init sample_store 0) 0)).2 = .ok 0 ∧
    (osfs_free_data_block (alloc_init sample_store 0) 0).nr_free_blocks =
      sample_store.nr_free_blocks :=
  ⟨by show (4 : Nat) < 4294967296; decide, rfl,
    alloc_free_alloc_round_trip sample_store (alloc_init sample_store 0) 0
      (by show (4 : Nat) < 4294967296; decide) rfl⟩

/-! ## The write loop -/

theorem osfs_write_loop_zero (ino : Nat) (buf : List Nat) (fuel : Nat) (sb : osfs_sb_info)
    (cur off bw : Nat) :
    osfs_write_loop ino buf fuel sb cur off 0 bw = some (sb, .ok bw) := by
  unfold osfs_write_loop
  simp

theorem osfs_write_loop_succ (ino : Nat) (buf : List Nat) (fuel : Nat) (sb : osfs_sb_info)
    (cur off len bw : Nat) (h : 0 < len) :
    osfs_write_loop ino buf (fuel + 1) sb cur off len bw =
      if buf.length < bw + min len (payload sb - off % payload sb) then
        some (sb, .error .EFAULT)
      else
        if len - min len (payload sb - off % payload sb) > 0 ∧
            ((block_store sb cur (off % payload sb) (min len (payload sb - off % payload sb))
              buf bw).data_blocks cur).next_block = NO_BLOCK then
          match osfs_alloc_data_block
              (block_store sb cur (off % payload sb) (min len (payload sb - off % payload sb))
                buf bw) with
          | (sb2, .error _) => some (sb2, .error .ENOSPC)
          | (sb2, .ok new_block) =>
            osfs_write_loop ino buf fuel (inc_i_blocks (link_block sb2 cur new_block) ino)
              new_block (off - off % payload sb)
              (len - min len (payload sb - off % payload sb))
              (bw + min len (payload sb - off % payload sb))
        else
          osfs_write_loop ino buf fuel
            (block_store sb cur (off % payload sb) (min len (payload sb - off % payload sb))
              buf bw)
            ((block_store sb cur (off % payload sb) (min len (payload sb - off % payload sb))
              buf bw).data_blocks cur).next_block
            (off - off % payload sb)
            (len - min len (payload sb - off % payload sb))
            (bw + min len (payload sb - off % payload sb)) := by
  rw [osfs_write_loop]
  simp only [h, if_true, gt_iff_lt]


/-! ## Frame facts of the store updates -/

@[simp] theorem payload_block_store (sb : osfs_sb_info) (b o n : Nat) (buf : List Nat) (w : Nat) :
    payload (block_store sb b o n buf w) = payload sb := rfl

@[simp] theorem payload_link_block (sb : osfs_sb_info) (b n : Nat) :
    payload (link_block sb b n) = payload sb := rfl

@[simp] theorem payload_inc_i_blocks (sb : osfs_sb_info) (ino : Nat) :
    payload (inc_i_blocks sb ino) = payload sb := rfl

@[simp] theorem payload_alloc_init (sb : osfs_sb_info) (i : Nat) :
    payload (alloc_init sb i) = payload sb := rfl

@[simp] theorem payload_set_first_block (sb : osfs_sb_info) (ino b : Nat) :
    payload (set_first_block sb ino b) = payload sb := rfl

@[simp] theorem payload_update_size (sb : osfs_sb_info) (ino p now : Nat) :
    payload (update_size sb ino p now) = payload sb := rfl

/-- A failed allocation leaves the store as it was. -/
theorem alloc_err_inv (sb sb1 : osfs_sb_info) (e : Errno)
    (h : osfs_alloc_data_block sb = (sb1, .error e)) :
    sb1 = sb ∧ e = .ENOSPC ∧ ∀ m, m < sb.block_count → test_bit m sb.block_bitmap = true := by
  unfold osfs_alloc_data_block at h
  rcases alloc_from_cases sb sb.block_count 0 with ⟨j, _, _, _, _, h5⟩ | ⟨h1, h2⟩
  · rw [h5] at h
    simp at h
  · rw [h2] at h
    simp only [Prod.mk.injEq, Except.error.injEq] at h
    exact ⟨h.1.symm, h.2.symm, fun m hm => h1 m (by omega) (by omega)⟩

/-- Every step of the write loop ends with all requested bytes written or with
`-ENOSPC`, and never touches the size field of the inode. -/
theorem write_loop_result (ino : Nat) (buf : List Nat) :
    ∀ fuel sb cur off len bw, 0 < payload sb → len ≤ fuel → bw + len ≤ buf.length →
      ∃ sb1, (osfs_write_loop ino buf fuel sb cur off len bw = some (sb1, .ok (bw + len)) ∨
              osfs_write_loop ino buf fuel sb cur off len bw = some (sb1, .error .ENOSPC)) ∧
        (sb1.inode_table ino).i_size = (sb.inode_table ino).i_size ∧
        payload sb1 = payload sb := by
  intro fuel
  induction fuel with
  | zero =>
    intro sb cur off len bw _ hlen _
    have h0 : len = 0 := by omega
    subst h0
    exact ⟨sb, Or.inl (osfs_write_loop_zero ino buf 0 sb cur off bw), rfl, rfl⟩
  | succ f ih =>
    intro sb cur off len bw hP hlen hbuf
    by_cases h0 : len = 0
    · subst h0
      exact ⟨sb, Or.inl (osfs_write_loop_zero ino buf (f + 1) sb cur off bw), rfl, rfl⟩
    · have hpos : 0 < len := by omega
      have hmod : off % payload sb < payload sb := Nat.mod_lt _ hP
      have hbs : 0 < min len (payload sb - off % payload sb) := by
        rw [Nat.lt_min]; omega
      have hle : min len (payload sb - off % payload sb) ≤ len := Nat.min_le_left _ _
      rw [osfs_write_loop_succ ino buf f sb cur off len bw hpos]
      have hnf : ¬ buf.length < bw + min len (payload sb - off % payload sb) := by omega
      rw [if_neg hnf]
      split
      · cases hal : osfs_alloc_data_block
            (block_store sb cur (off % payload sb) (min len (payload sb - off % payload sb))
              buf bw) with
        | mk sb2 r =>
          cases r with
          | error e =>
            obtain ⟨e1, _, _⟩ := alloc_err_inv _ _ _ hal
            subst e1
            exact ⟨_, Or.inr rfl, rfl, rfl⟩
          | ok nb =>
            obtain ⟨_, _, _, e2⟩ := alloc_ok_inv _ _ _ hal
            subst e2
            obtain ⟨sb3, hres, hsz, hpl⟩ := ih
              (inc_i_blocks (link_block (alloc_init (block_store sb cur (off % payload sb)
                (min len (payload sb - off % payload sb)) buf bw) nb) cur nb) ino) nb
              (off - off % payload sb) (len - min len (payload sb - off % payload sb))
              (bw + min len (payload sb - off % payload sb)) (by simpa using hP) (by omega)
              (by omega)
            refine ⟨sb3, ?_, ?_, ?_⟩
            · have e : bw + min len (payload sb - off % payload sb) +
                  (len - min len (payload sb - off % payload sb)) = bw + len := by omega
              rw [e] at hres
              exact hres
            · rw [hsz]
              simp [inc_i_blocks, upd, link_block, alloc_init, block_store]
            · rw [hpl]; simp
      · obtain ⟨sb3, hres, hsz, hpl⟩ := ih
          (block_store sb cur (off % payload sb) (min len (payload sb - off % payload sb)) buf bw)
          ((block_store sb cur (off % payload sb) (min len (payload sb - off % payload sb))
              buf bw).data_blocks cur).next_block
          (off - off % payload sb) (len - min len (payload sb - off % payload sb))
          (bw + min len (payload sb - off % payload sb)) (by simpa using hP) (by omega)
          (by omega)
        refine ⟨sb3, ?_, ?_, ?_⟩
        · have e : bw + min len (payload sb - off % payload sb) +
              (len - min len (payload sb - off % payload sb)) = bw + len := by omega
          rw [e] at hres
          exact hres
        · rw [hsz]; rfl
        · rw [hpl]; simp


/-! ## The read loop -/

theorem osfs_read_loop_stop (sb : osfs_sb_info) (cap fuel cur off len br : Nat) (out : List Nat)
    (h : cur = NO_BLOCK ∨ len = 0) :
    osfs_read_loop sb cap fuel cur off len br out = some (.ok (br, out)) := by
  unfold osfs_read_loop
  have : ¬ (cur ≠ NO_BLOCK ∧ len > 0) := by
    rcases h with h | h
    · simp [h]
    · simp [h]
  rw [if_neg this]

theorem osfs_read_loop_succ (sb : osfs_sb_info) (cap fuel cur off len br : Nat) (out : List Nat)
    (hc : cur ≠ NO_BLOCK) (hl : 0 < len) :
    osfs_read_loop sb cap (fuel + 1) cur off len br out =
      if cap < br + min len (payload sb - off % payload sb) then some (.error .EFAULT)
      else
        osfs_read_loop sb cap fuel (sb.data_blocks cur).next_block (off - off % payload sb)
          (len - min len (payload sb - off % payload sb))
          (br + min len (payload sb - off % payload sb))
          (out ++ (List.range (min len (payload sb - off % payload sb))).map
            (fun k => (sb.data_blocks cur).data (off % payload sb + k))) := by
  rw [osfs_read_loop]
  have : cur ≠ NO_BLOCK ∧ len > 0 := ⟨hc, hl⟩
  rw [if_pos this]

theorem sub_mod_self_mod (a p : Nat) : (a - a % p) % p = 0 :=
  Nat.sub_mod_eq_zero_of_mod_eq (by rw [Nat.mod_mod])

theorem blocks_for_mul_ge (s p : Nat) (hp : 0 < p) : s ≤ blocks_for s p * p := by
  unfold blocks_for
  have h1 := Nat.div_add_mod (s + p - 1) p
  have h2 := Nat.mod_lt (s + p - 1) hp
  rw [Nat.mul_comm] at h1
  omega

/-- Over a chain of at least `n` blocks the read loop delivers every byte it
is asked for, as long as the request ends inside the `n` blocks. -/
theorem read_loop_count (sb : osfs_sb_info) (cap : Nat) :
    ∀ fuel n cur off len br out, 0 < payload sb → len ≤ fuel → chain_has sb cur n = true →
      len + off % payload sb ≤ n * payload sb → br + len ≤ cap →
      ∃ out1, osfs_read_loop sb cap fuel cur off len br out = some (.ok (br + len, out1)) ∧
        out1.length = out.length + len := by
  intro fuel
  induction fuel with
  | zero =>
    intro n cur off len br out _ hlen _ _ _
    have h0 : len = 0 := by omega
    subst h0
    exact ⟨out, osfs_read_loop_stop sb cap 0 cur off 0 br out (Or.inr rfl), rfl⟩
  | succ f ih =>
    intro n cur off len br out hP hlen hch hfit hcap
    by_cases h0 : len = 0
    · subst h0
      exact ⟨out, osfs_read_loop_stop sb cap (f + 1) cur off 0 br out (Or.inr rfl), rfl⟩
    · have hpos : 0 < len := by omega
      cases n with
      | zero => simp at hfit; omega
      | succ n =>
        simp only [chain_has, Bool.and_eq_true, bne_iff_ne, ne_eq] at hch
        obtain ⟨hne, hch1⟩ := hch
        have hmod : off % payload sb < payload sb := Nat.mod_lt _ hP
        rw [osfs_read_loop_succ sb cap f cur off len br out hne hpos]
        have hle : min len (payload sb - off % payload sb) ≤ len := Nat.min_le_left _ _
        have hbs : 0 < min len (payload sb - off % payload sb) := by
          rw [Nat.lt_min]; omega
        rw [if_neg (by omega)]
        have hfit1 : len - min len (payload sb - off % payload sb) +
            (off - off % payload sb) % payload sb ≤ n * payload sb := by
          rw [sub_mod_self_mod]
          rw [Nat.succ_mul] at hfit
          rcases Nat.le_total len (payload sb - off % payload sb) with h | h
          · rw [Nat.min_eq_left h]; omega
          · rw [Nat.min_eq_right h]; omega
        obtain ⟨out1, hres, hlen1⟩ := ih n (sb.data_blocks cur).next_block
          (off - off % payload sb) (len - min len (payload sb - off % payload sb))
          (br + min len (payload sb - off % payload sb))
          (out ++ (List.range (min len (payload sb - off % payload sb))).map
            (fun k => (sb.data_blocks cur).data (off % payload sb + k)))
          hP (by omega) hch1 hfit1 (by omega)
        refine ⟨out1, ?_, ?_⟩
        · rw [hres]
          have e : br + min len (payload sb - off % payload sb) +
              (len - min len (payload sb - off % payload sb)) = br + len := by omega
          rw [e]
        · rw [hlen1]
          simp only [List.length_append, List.length_map, List.length_range]
          omega


/-! ## Writing a fresh chain and reading it back -/

theorem range_map_getD (buf : List Nat) (bw n : Nat) (h : bw + n ≤ buf.length) :
    (List.range n).map (fun k => buf.getD (bw + k) 0) = (buf.drop bw).take n := by
  apply List.ext_getElem
  · simp only [List.length_map, List.length_range, List.length_take, List.length_drop]
    omega
  · intro i h1 h2
    simp only [List.length_map, List.length_range] at h1
    simp only [List.getElem_map, List.getElem_range, List.getElem_take, List.getElem_drop]
    rw [List.getD_eq_getElem _ _ (by omega)]

theorem stored_chunk_at (buf : List Nat) (d : Nat → Nat) (b bs bw n : Nat)
    (h : ∀ k, k < n → d k = buf.getD (bw + k) 0) (hb : b + bs ≤ n)
    (hbuf : bw + n ≤ buf.length) :
    (List.range bs).map (fun k => d (b + k)) = (buf.drop (bw + b)).take bs := by
  rw [← range_map_getD buf (bw + b) bs (by omega)]
  apply List.map_congr_left
  intro k hk
  rw [List.mem_range] at hk
  rw [h (b + k) (by omega), Nat.add_assoc]

theorem take_split (l : List Nat) (a b : Nat) (h : a ≤ b) :
    l.take a ++ (l.drop a).take (b - a) = l.take b := by
  have e : b = a + (b - a) := by omega
  conv_rhs => rw [e, List.take_add]

theorem blocks_for_zero (p : Nat) (hp : 0 < p) : blocks_for 0 p = 0 := by
  unfold blocks_for
  apply Nat.div_eq_of_lt
  omega

theorem blocks_for_le (s p : Nat) (hs : 0 < s) (h : s ≤ p) : blocks_for s p = 1 := by
  unfold blocks_for
  have e : s + p - 1 = (s - 1) + p := by omega
  rw [e, Nat.add_div_right _ (by omega : 0 < p), Nat.div_eq_of_lt (by omega)]

theorem blocks_for_gt (s p : Nat) (hp : 0 < p) (h : p < s) :
    blocks_for s p = blocks_for (s - p) p + 1 := by
  unfold blocks_for
  have e : s + p - 1 = (s - p + p - 1) + p := by omega
  rw [e, Nat.add_div_right _ hp]

theorem blocks_for_pos (s p : Nat) (hp : 0 < p) (hs : 0 < s) : 0 < blocks_for s p := by
  have h := blocks_for_mul_ge s p hp
  rcases Nat.eq_zero_or_pos (blocks_for s p) with h0 | h0
  · rw [h0, Nat.zero_mul] at h
    omega
  · exact h0

/-- The read loop looks only at the block array and the block size. -/
theorem read_loop_congr (sb sb1 : osfs_sb_info) (cap : Nat)
    (hd : sb1.data_blocks = sb.data_blocks) (hp : payload sb1 = payload sb) :
    ∀ fuel cur off len br out,
      osfs_read_loop sb1 cap fuel cur off len br out =
        osfs_read_loop sb cap fuel cur off len br out := by
  intro fuel
  induction fuel with
  | zero =>
    intro cur off len br out
    unfold osfs_read_loop
    rfl
  | succ f ih =>
    intro cur off len br out
    by_cases h : cur ≠ NO_BLOCK ∧ len > 0
    · rw [osfs_read_loop_succ sb1 cap f cur off len br out h.1 h.2,
        osfs_read_loop_succ sb cap f cur off len br out h.1 h.2, hd, hp]
      split
      · rfl
      · exact ih _ _ _ _ _
    · have h1 : cur = NO_BLOCK ∨ len = 0 := by
        by_cases hc : cur = NO_BLOCK
        · exact Or.inl hc
        · right
          have : ¬ len > 0 := fun hl => h ⟨hc, hl⟩
          omega
      rw [osfs_read_loop_stop sb1 cap _ cur off len br out h1,
        osfs_read_loop_stop sb cap _ cur off len br out h1]


/-- The store after one growing iteration of the write loop: block `cur` holds
the bytes stored and links to the new block `nb`, which is fresh. -/
theorem grow_facts (sb : osfs_sb_info) (cur nb ino o n : Nat) (buf : List Nat) (bw : Nat)
    (hne : nb ≠ cur) :
    (inc_i_blocks (link_block (alloc_init (block_store sb cur o n buf bw) nb) cur nb)
        ino).block_bitmap = set_bit nb sb.block_bitmap ∧
    (inc_i_blocks (link_block (alloc_init (block_store sb cur o n buf bw) nb) cur nb)
        ino).block_count = sb.block_count ∧
    ((inc_i_blocks (link_block (alloc_init (block_store sb cur o n buf bw) nb) cur nb)
        ino).data_blocks nb).next_block = NO_BLOCK ∧
    ((inc_i_blocks (link_block (alloc_init (block_store sb cur o n buf bw) nb) cur nb)
        ino).data_blocks cur).next_block = nb ∧
    ((inc_i_blocks (link_block (alloc_init (block_store sb cur o n buf bw) nb) cur nb)
        ino).data_blocks cur).data = ((block_store sb cur o n buf bw).data_blocks cur).data ∧
    (∀ j, j ≠ cur → j ≠ nb →
      (inc_i_blocks (link_block (alloc_init (block_store sb cur o n buf bw) nb) cur nb)
        ino).data_blocks j = sb.data_blocks j) ∧
    ((inc_i_blocks (link_block (alloc_init (block_store sb cur o n buf bw) nb) cur nb)
        ino).inode_table ino).i_blocks = u32_inc (sb.inode_table ino).i_blocks ∧
    ((inc_i_blocks (link_block (alloc_init (block_store sb cur o n buf bw) nb) cur nb)
        ino).inode_table ino).i_size = (sb.inode_table ino).i_size ∧
    ((inc_i_blocks (link_block (alloc_init (block_store sb cur o n buf bw) nb) cur nb)
        ino).inode_table ino).first_block = (sb.inode_table ino).first_block := by
  have hne1 : cur ≠ nb := fun e => hne e.symm
  refine ⟨rfl, rfl, ?_, ?_, ?_, ?_, ?_, ?_, ?_⟩
  · simp [inc_i_blocks, link_block, alloc_init, block_store, upd, hne]
  · simp [inc_i_blocks, link_block, alloc_init, block_store, upd]
  · simp [inc_i_blocks, link_block, alloc_init, block_store, upd, hne1]
  · intro j h1 h2
    simp [inc_i_blocks, link_block, alloc_init, block_store, upd, h1, h2]
  · simp [inc_i_blocks, link_block, alloc_init, block_store, upd]
  · simp [inc_i_blocks, link_block, alloc_init, block_store, upd]
  · simp [inc_i_blocks, link_block, alloc_init, block_store, upd]

/-- Writing `len` bytes at offset 0 into a chain whose tail `cur` is in use and
terminated: the loop allocates `blocks_for len P - 1` further blocks, and the
read loop over the resulting chain returns exactly the bytes written. -/
theorem write_loop_fresh (ino : Nat) (buf : List Nat) :
    ∀ fuel sb cur len bw, 0 < payload sb → len ≤ fuel → bw + len ≤ buf.length →
      test_bit cur sb.block_bitmap = true → (sb.data_blocks cur).next_block = NO_BLOCK →
      cur ≠ NO_BLOCK → sb.block_count ≤ NO_BLOCK →
      blocks_for len (payload sb) ≤ count_clear sb.block_bitmap sb.block_count + 1 →
      (sb.inode_table ino).i_blocks + (blocks_for len (payload sb) - 1) < 4294967296 →
      ∃ sb1, osfs_write_loop ino buf fuel sb cur 0 len bw = some (sb1, .ok (bw + len)) ∧
        (∀ cap fuel1 off len1 br out, len1 ≤ fuel1 → off % payload sb + len1 ≤ len →
          br + len1 ≤ cap →
          osfs_read_loop sb1 cap fuel1 cur off len1 br out =
            some (.ok (br + len1, out ++ (buf.drop (bw + off % payload sb)).take len1))) ∧
        (∀ j, j ≠ cur → test_bit j sb.block_bitmap = true →
          sb1.data_blocks j = sb.data_blocks j) ∧
        (sb1.inode_table ino).i_blocks =
          (sb.inode_table ino).i_blocks + (blocks_for len (payload sb) - 1) ∧
        (sb1.inode_table ino).i_size = (sb.inode_table ino).i_size ∧
        (sb1.inode_table ino).first_block = (sb.inode_table ino).first_block ∧
        payload sb1 = payload sb := by
  intro fuel
  induction fuel with
  | zero =>
    intro sb cur len bw hP hlen _ _ _ _ _ _ _
    have h0 : len = 0 := by omega
    subst h0
    refine ⟨sb, osfs_write_loop_zero ino buf 0 sb cur 0 bw, ?_, fun _ _ _ => rfl, ?_, rfl, rfl, rfl⟩
    · intro cap fuel1 off len1 br out _ hfit _
      have hl1 : len1 = 0 := by omega
      subst hl1
      rw [osfs_read_loop_stop sb cap fuel1 cur off 0 br out (Or.inr rfl)]
      simp
    · rw [blocks_for_zero _ hP]; rfl
  | succ f ih =>
    intro sb cur len bw hP hlen hbuf hbit hnext hcur hbc hfree hib
    by_cases h0 : len = 0
    · subst h0
      refine ⟨sb, osfs_write_loop_zero ino buf (f + 1) sb cur 0 bw, ?_, fun _ _ _ => rfl, ?_,
        rfl, rfl, rfl⟩
      · intro cap fuel1 off len1 br out _ hfit _
        have hl1 : len1 = 0 := by omega
        subst hl1
        rw [osfs_read_loop_stop sb cap fuel1 cur off 0 br out (Or.inr rfl)]
        simp
      · rw [blocks_for_zero _ hP]; rfl
    · have hpos : 0 < len := by omega
      rw [osfs_write_loop_succ ino buf f sb cur 0 len bw hpos]
      simp only [Nat.zero_mod, Nat.sub_zero]
      have hle : min len (payload sb) ≤ len := Nat.min_le_left _ _
      have hnf : ¬ buf.length < bw + min len (payload sb) := by omega
      rw [if_neg hnf]
      have hst_next : ((block_store sb cur 0 (min len (payload sb)) buf bw).data_blocks
          cur).next_block = NO_BLOCK := by
        simp [block_store, upd, hnext]
      have hst_data : ∀ k, k < min len (payload sb) →
          ((block_store sb cur 0 (min len (payload sb)) buf bw).data_blocks cur).data k =
            buf.getD (bw + k) 0 := by
        intro k hk
        simp only [block_store, upd, eq_self_iff_true, if_true]
        rw [if_pos ⟨Nat.zero_le k, by omega⟩, Nat.sub_zero]
      rcases Nat.lt_or_ge (payload sb) len with hbig | hsmall
      · -- more than one block: allocate and continue
        have hmin : min len (payload sb) = payload sb := Nat.min_eq_right (by omega)
        rw [hmin] at hst_next hst_data ⊢
        have hgt : len - payload sb > 0 := by omega
        rw [if_pos ⟨hgt, hst_next⟩]
        have hbf := blocks_for_gt len (payload sb) hP hbig
        have hbf1 := blocks_for_pos (len - payload sb) (payload sb) hP (by omega)
        have hfree1 : 0 < count_clear (block_store sb cur 0 (payload sb) buf bw).block_bitmap
            (block_store sb cur 0 (payload sb) buf bw).block_count := by
          show 0 < count_clear sb.block_bitmap sb.block_count
          omega
        obtain ⟨j0, hj0, hc0⟩ := count_clear_pos _ _ hfree1
        obtain ⟨nb, hnb, hnbc, _, hal⟩ := alloc_ok_of_clear _ j0 hj0 hc0
        rw [hal]
        simp only
        have hne : nb ≠ cur := by
          intro e
          rw [e] at hnbc
          have : test_bit cur sb.block_bitmap = false := hnbc
          rw [hbit] at this
          cases this
        have hnbc1 : test_bit nb sb.block_bitmap = false := hnbc
        have hnb1 : nb < sb.block_count := hnb
        obtain ⟨g1, g2, g3, g4, g5, g6, g7, g8, g9⟩ :=
          grow_facts sb cur nb ino 0 (payload sb) buf bw hne
        have hx : u32_inc (sb.inode_table ino).i_blocks = (sb.inode_table ino).i_blocks + 1 := by
          unfold u32_inc
          apply Nat.mod_eq_of_lt
          omega
        have hcnt := count_clear_set_bit sb.block_bitmap nb sb.block_count hnb1 hnbc1
        obtain ⟨sb1, hw, hr, hfr, hib1, hsz1, hfb1, hpl1⟩ := ih
          (inc_i_blocks (link_block (alloc_init (block_store sb cur 0 (payload sb) buf bw) nb)
            cur nb) ino) nb (len - payload sb) (bw + payload sb)
          (by simpa using hP) (by omega) (by omega)
          (by rw [g1, test_bit_set_bit]; simp) g3
          (by unfold NO_BLOCK at hbc ⊢; omega)
          (by rw [g2]; exact hbc)
          (by
            rw [g1, g2]
            simp only [payload_inc_i_blocks, payload_link_block, payload_alloc_init,
              payload_block_store]
            omega)
          (by
            rw [g7, hx]
            simp only [payload_inc_i_blocks, payload_link_block, payload_alloc_init,
              payload_block_store]
            omega)
        simp only [payload_inc_i_blocks, payload_link_block, payload_alloc_init,
          payload_block_store] at hpl1 hib1
        have hcur1 : sb1.data_blocks cur = (inc_i_blocks (link_block (alloc_init
            (block_store sb cur 0 (payload sb) buf bw) nb) cur nb) ino).data_blocks cur :=
          hfr cur (fun e => hne e.symm) (by rw [g1, test_bit_set_bit, hbit]; simp)
        refine ⟨sb1, ?_, ?_, ?_, ?_, ?_, ?_, hpl1⟩
        · rw [hw]
          have e : bw + payload sb + (len - payload sb) = bw + len := by omega
          rw [e]
        · intro cap fuel1 off len1 br out hf1 hfit hc1
          by_cases hl1 : len1 = 0
          · subst hl1
            rw [osfs_read_loop_stop sb1 cap fuel1 cur off 0 br out (Or.inr rfl)]
            simp
          · cases fuel1 with
            | zero => omega
            | succ g =>
              have hb : off % payload sb < payload sb := Nat.mod_lt _ hP
              have hbs1 : min len1 (payload sb - off % payload sb) ≤ len1 := Nat.min_le_left _ _
              have hbs2 : min len1 (payload sb - off % payload sb) ≤
                  payload sb - off % payload sb := Nat.min_le_right _ _
              rw [osfs_read_loop_succ sb1 cap g cur off len1 br out hcur (by omega)]
              rw [hpl1]
              have hnc : ¬ cap < br + min len1 (payload sb - off % payload sb) := by omega
              rw [if_neg hnc, hcur1, g4, g5]
              have hch := stored_chunk_at buf
                ((block_store sb cur 0 (payload sb) buf bw).data_blocks cur).data
                (off % payload sb) (min len1 (payload sb - off % payload sb)) bw (payload sb)
                hst_data (by omega) (by omega)
              have hzero := sub_mod_self_mod off (payload sb)
              rw [hch, hr cap g (off - off % payload sb)
                (len1 - min len1 (payload sb - off % payload sb))
                (br + min len1 (payload sb - off % payload sb)) _ (by omega)
                (by
                  simp only [payload_inc_i_blocks, payload_link_block, payload_alloc_init,
                    payload_block_store]
                  rw [hzero]
                  rcases Nat.le_total len1 (payload sb - off % payload sb) with h | h
                  · rw [Nat.min_eq_left h]; omega
                  · rw [Nat.min_eq_right h]; omega)
                (by omega)]
              simp only [payload_inc_i_blocks, payload_link_block, payload_alloc_init,
                payload_block_store]
              rw [hzero, Nat.add_zero]
              have e : br + min len1 (payload sb - off % payload sb) +
                  (len1 - min len1 (payload sb - off % payload sb)) = br + len1 := by omega
              rw [e, List.append_assoc]
              rcases Nat.le_total len1 (payload sb - off % payload sb) with h | h
              · rw [Nat.min_eq_left h, Nat.sub_self]
                simp
              · rw [Nat.min_eq_right h]
                have e2 : List.drop (bw + payload sb) buf =
                    List.drop (payload sb - off % payload sb)
                      (List.drop (bw + off % payload sb) buf) := by
                  rw [List.drop_drop]
                  congr 1
                  omega
                rw [e2, take_split _ _ _ h]
        · intro j hj hbj
          have hjn : j ≠ nb := by
            intro e
            rw [e, hnbc1] at hbj
            cases hbj
          rw [hfr j hjn (by rw [g1, test_bit_set_bit, hbj]; simp)]
          exact g6 j hj hjn
        · rw [hib1, g7, hx]
          omega
        · rw [hsz1, g8]
        · rw [hfb1, g9]
      · -- the last block
        have hmin : min len (payload sb) = len := Nat.min_eq_left hsmall
        rw [hmin] at hst_next hst_data ⊢
        have hng : ¬ (len - len > 0 ∧
            ((block_store sb cur 0 len buf bw).data_blocks cur).next_block = NO_BLOCK) := by
          intro h
          have := h.1
          omega
        rw [if_neg hng, Nat.sub_self, osfs_write_loop_zero]
        refine ⟨block_store sb cur 0 len buf bw, rfl, ?_, ?_, ?_, rfl, rfl, rfl⟩
        · intro cap fuel1 off len1 br out hf1 hfit hc1
          by_cases hl1 : len1 = 0
          · subst hl1
            rw [osfs_read_loop_stop _ cap fuel1 cur off 0 br out (Or.inr rfl)]
            simp
          · cases fuel1 with
            | zero => omega
            | succ g =>
              rw [osfs_read_loop_succ _ cap g cur off len1 br out hcur (by omega)]
              simp only [payload_block_store]
              have hm1 : min len1 (payload sb - off % payload sb) = len1 :=
                Nat.min_eq_left (by omega)
              rw [hm1, if_neg (by omega), Nat.sub_self]
              rw [osfs_read_loop_stop _ cap g _ _ 0 _ _ (Or.inr rfl)]
              have hch := stored_chunk_at buf
                ((block_store sb cur 0 len buf bw).data_blocks cur).data
                (off % payload sb) len1 bw len hst_data hfit (by omega)
              rw [hch]
        · intro j hj _
          simp [block_store, upd, hj]
        · rw [blocks_for_le len (payload sb) hpos hsmall]
          rfl

theorem count_clear_le (bm : Nat) : ∀ n, count_clear bm n ≤ n := by
  intro n
  induction n with
  | zero => exact Nat.le_refl 0
  | succ n ih =>
    simp only [count_clear]
    split <;> omega

/-- One `osfs_write` at offset 0 into a file that owns no block, with enough
clear bits in the block bitmap: the call succeeds, the file owns
`max 1 (blocks_for N P)` blocks, and a later `osfs_read` at offset `o` for `l`
bytes inside the written range returns `l` bytes, namely the input from
position `o % P` on. -/
theorem osfs_write_fresh (sb : osfs_sb_info) (ino : Nat) (buf : List Nat) (now : Nat)
    (hP : 4 < sb.block_size) (hfresh : (sb.inode_table ino).i_blocks = 0)
    (hN : buf.length < 4294967296) (hbc : sb.block_count < 4294967296)
    (hfree : max 1 (blocks_for buf.length (payload sb)) ≤
      count_clear sb.block_bitmap sb.block_count) :
    ∃ sb1, osfs_write sb ino buf buf.length 0 now = some (sb1, buf.length, .ok buf.length) ∧
      (∀ cap o l, o + l ≤ buf.length → l ≤ cap →
        osfs_read sb1 ino cap l o =
          some (o + l, .ok (l, (buf.drop (o % payload sb)).take l))) ∧
      (sb1.inode_table ino).i_blocks = max 1 (blocks_for buf.length (payload sb)) ∧
      (sb1.inode_table ino).i_size = max (sb.inode_table ino).i_size buf.length := by
  have hPp : 0 < payload sb := by unfold payload; omega
  have hfree1 : 0 < count_clear sb.block_bitmap sb.block_count := by omega
  obtain ⟨j0, hj0, hc0⟩ := count_clear_pos _ _ hfree1
  obtain ⟨cb, hcb, hcbc, _, hal⟩ := alloc_ok_of_clear sb j0 hj0 hc0
  have hcnt := count_clear_set_bit sb.block_bitmap cb sb.block_count hcb hcbc
  have hle := count_clear_le sb.block_bitmap sb.block_count
  have hx : u32_inc 0 = 1 := by decide
  have hib0 : ((set_first_block (alloc_init sb cb) ino cb).inode_table ino).i_blocks = 1 := by
    simp [set_first_block, alloc_init, upd, hfresh, hx]
  have hsz0 : ((set_first_block (alloc_init sb cb) ino cb).inode_table ino).i_size =
      (sb.inode_table ino).i_size := by
    simp [set_first_block, alloc_init, upd]
  have hfb0 : ((set_first_block (alloc_init sb cb) ino cb).inode_table ino).first_block = cb := by
    simp [set_first_block, alloc_init, upd]
  have hpl0 : payload (set_first_block (alloc_init sb cb) ino cb) = payload sb := rfl
  obtain ⟨sb1, hw, hr, _, hib, hsz, hfb, hpl⟩ := write_loop_fresh ino buf buf.length
    (set_first_block (alloc_init sb cb) ino cb) cb buf.length 0
    (by simpa using hPp) (Nat.le_refl _) (by omega)
    (by
      show test_bit cb (set_bit cb sb.block_bitmap) = true
      rw [test_bit_set_bit]; simp)
    (by simp [set_first_block, alloc_init, upd])
    (by unfold NO_BLOCK; omega)
    (by
      show sb.block_count ≤ NO_BLOCK
      unfold NO_BLOCK; omega)
    (by
      show blocks_for buf.length (payload sb) ≤
        count_clear (set_bit cb sb.block_bitmap) sb.block_count + 1
      omega)
    (by
      rw [hib0]
      show 1 + (blocks_for buf.length (payload sb) - 1) < 4294967296
      omega)
  rw [hib0, hpl0] at hib
  rw [hsz0] at hsz
  rw [hfb0] at hfb
  rw [hpl0] at hpl hr
  have hmod : (0 + buf.length) % 4294967296 = buf.length := by
    rw [Nat.zero_add]; exact Nat.mod_eq_of_lt hN
  have hib2 : ((update_size sb1 ino (0 + buf.length) now).inode_table ino).i_blocks =
      1 + (blocks_for buf.length (payload sb) - 1) := by
    simp [update_size, upd, hib]
  have hsz2 : ((update_size sb1 ino (0 + buf.length) now).inode_table ino).i_size =
      max (sb.inode_table ino).i_size buf.length := by
    simp only [update_size, upd, if_true, hmod, hsz]
  have hfb2 : ((update_size sb1 ino (0 + buf.length) now).inode_table ino).first_block =
      cb := by
    simp [update_size, upd, hfb]
  refine ⟨update_size sb1 ino (0 + buf.length) now, ?_, ?_, ?_, hsz2⟩
  · unfold osfs_write
    simp only [hfresh, if_true, hal, hw, Nat.zero_add]
  · intro cap o l hol hlc
    have hge := Nat.le_max_right (sb.inode_table ino).i_size buf.length
    unfold osfs_read
    simp only [hib2, hsz2, hfb2]
    by_cases hc : (1 + (blocks_for buf.length (payload sb) - 1) = 0 ∨
        o ≥ max (sb.inode_table ino).i_size buf.length)
    · rw [if_pos hc]
      have h0 : l = 0 := by
        rcases hc with h | h
        · omega
        · omega
      subst h0
      simp
    · rw [if_neg hc]
      have hlen : (if (o + l) % 18446744073709551616 >
            max (sb.inode_table ino).i_size buf.length then
          max (sb.inode_table ino).i_size buf.length - o else l) = l := by
        have hsum : (o + l) % 18446744073709551616 = o + l := Nat.mod_eq_of_lt (by omega)
        rw [hsum, if_neg (by omega)]
      rw [hlen]
      rw [read_loop_congr sb1 (update_size sb1 ino (0 + buf.length) now) cap rfl rfl]
      have hmodle : o % payload sb ≤ o := Nat.mod_le _ _
      rw [hr cap l o l 0 [] (Nat.le_refl _) (by omega) (by omega)]
      simp
  · rw [hib2]
    rcases Nat.eq_zero_or_pos buf.length with h0 | h0
    · rw [h0, blocks_for_zero _ hPp]; rfl
    · have := blocks_for_pos buf.length (payload sb) hPp h0
      omega

/-! ## Claims on `osfs_read` and `osfs_write` -/

/-- C1: write/read round trip. For a file that owns no block, a payload
capacity `P > 0`, and `N` bytes (`N` below `2^32`, the width of the size
field) with `max 1 (ceil (N / P))` clear bits in the block bitmap, `osfs_write`
of the `N` bytes at offset 0 returns `N`, and `osfs_read` of `N` bytes from
offset 0 then returns `N` and the identical bytes. -/
theorem write_read_round_trip (sb : osfs_sb_info) (ino : Nat) (buf : List Nat) (cap now : Nat)
    (hP : 4 < sb.block_size) (hfresh : (sb.inode_table ino).i_blocks = 0)
    (hN : buf.length < 4294967296) (hbc : sb.block_count < 4294967296)
    (hfree : max 1 (blocks_for buf.length (payload sb)) ≤
      count_clear sb.block_bitmap sb.block_count)
    (hcap : buf.length ≤ cap) :
    ∃ sb1, osfs_write sb ino buf buf.length 0 now = some (sb1, buf.length, .ok buf.length) ∧
      osfs_read sb1 ino cap buf.length 0 = some (buf.length, .ok (buf.length, buf)) := by
  obtain ⟨sb1, h1, h2, _, _⟩ := osfs_write_fresh sb ino buf now hP hfresh hN hbc hfree
  refine ⟨sb1, h1, ?_⟩
  rw [h2 cap 0 buf.length (by omega) hcap]
  simp

/-- The round trip on ten bytes over three blocks of payload capacity 4. -/
theorem write_read_round_trip_witness :
    4 < file_store.block_size ∧ (file_store.inode_table 2).i_blocks = 0 ∧
    ten_bytes.length < 4294967296 ∧ file_store.block_count < 4294967296 ∧
    max 1 (blocks_for ten_bytes.length (payload file_store)) ≤
      count_clear file_store.block_bitmap file_store.block_count ∧
    ten_bytes.length ≤ 10 ∧
    ∃ sb1, osfs_write file_store 2 ten_bytes ten_bytes.length 0 0 =
        some (sb1, ten_bytes.length, .ok ten_bytes.length) ∧
      osfs_read sb1 2 10 ten_bytes.length 0 =
        some (ten_bytes.length, .ok (ten_bytes.length, ten_bytes)) :=
  ⟨by decide, by decide, by decide, by decide, by decide, by decide,
    write_read_round_trip file_store 2 ten_bytes 10 0 (by decide) (by decide) (by decide)
      (by decide) (by decide) (by decide)⟩


theorem scenario_bytes_length : scenario_bytes.length = 2000 := by
  simp [scenario_bytes]

/-- C2 (the code at the failing input). Ten bytes are written at offset 0 to a
fresh file with payload capacity 4; `osfs_read` at offset 4 for 2 bytes returns
2 bytes, but they are bytes `[0, 2)` of the input (`10, 11`), not bytes
`[4, 6)` (`14, 15`). In the scenario of the specification (2000 bytes, payload
capacity 1016) the read at offset 1016 for 50 bytes returns bytes `[0, 50)` of
the input, whose first byte is 0, while bytes `[1016, 1066)` start with 248.
The loop starts at the first block for every offset. -/
theorem read_past_first_block_restarts_chain :
    (osfs_write file_store 2 ten_bytes 10 0 0 = some (written_store, 10, .ok 10) ∧
      osfs_read written_store 2 2 2 4 = some (6, .ok (2, [10, 11])) ∧
      (ten_bytes.drop 4).take 2 = [14, 15]) ∧
    (∃ sb1, osfs_write scenario_file_store 2 scenario_bytes 2000 0 0 =
        some (sb1, 2000, .ok 2000) ∧
      osfs_read sb1 2 50 50 1016 = some (1066, .ok (50, (scenario_bytes.drop 0).take 50)) ∧
      ((scenario_bytes.drop 0).take 50)[0]? = some 0 ∧
      ((scenario_bytes.drop 1016).take 50)[0]? = some 248) := by
  refine ⟨⟨rfl, by decide, by decide⟩, ?_⟩
  have hpl : payload scenario_file_store = 1016 := by decide
  obtain ⟨sb1, h1, h2, _, _⟩ := osfs_write_fresh scenario_file_store 2 scenario_bytes 0
    (by decide) (by decide) (by rw [scenario_bytes_length]; decide) (by decide)
    (by rw [scenario_bytes_length]; decide)
  have h3 := h2 50 1016 50 (by rw [scenario_bytes_length]; decide) (Nat.le_refl _)
  rw [hpl] at h3
  rw [scenario_bytes_length] at h1
  refine ⟨sb1, h1, h3, ?_, ?_⟩
  · simp [scenario_bytes]
  · simp [scenario_bytes]

/-- C3 (amended): after `osfs_write` of `S` bytes at offset 0 to a file that
owns no block, the block count of the inode is `max 1 (ceil (S / P))`: it is
`ceil (S / P)` for every `S > 0`, and 1 for `S = 0`, because the first block is
allocated before the copy loop looks at the length. -/
theorem chain_growth (sb : osfs_sb_info) (ino : Nat) (buf : List Nat) (now : Nat)
    (hP : 4 < sb.block_size) (hfresh : (sb.inode_table ino).i_blocks = 0)
    (hN : buf.length < 4294967296) (hbc : sb.block_count < 4294967296)
    (hfree : max 1 (blocks_for buf.length (payload sb)) ≤
      count_clear sb.block_bitmap sb.block_count) :
    ∃ sb1, osfs_write sb ino buf buf.length 0 now = some (sb1, buf.length, .ok buf.length) ∧
      (sb1.inode_table ino).i_blocks = max 1 (blocks_for buf.length (payload sb)) ∧
      (0 < buf.length → (sb1.inode_table ino).i_blocks = blocks_for buf.length (payload sb)) := by
  obtain ⟨sb1, h1, _, h3, _⟩ := osfs_write_fresh sb ino buf now hP hfresh hN hbc hfree
  refine ⟨sb1, h1, h3, ?_⟩
  intro hpos
  have := blocks_for_pos buf.length (payload sb) (by unfold payload; omega) hpos
  rw [h3]
  omega

/-- Ten bytes with payload capacity 4 give three blocks. -/
theorem chain_growth_witness :
    4 < file_store.block_size ∧ (file_store.inode_table 2).i_blocks = 0 ∧
    ten_bytes.length < 4294967296 ∧ file_store.block_count < 4294967296 ∧
    max 1 (blocks_for ten_bytes.length (payload file_store)) ≤
      count_clear file_store.block_bitmap file_store.block_count ∧
    ∃ sb1, osfs_write file_store 2 ten_bytes ten_bytes.length 0 0 =
        some (sb1, ten_bytes.length, .ok ten_bytes.length) ∧
      (sb1.inode_table 2).i_blocks = max 1 (blocks_for ten_bytes.length (payload file_store)) ∧
      (0 < ten_bytes.length →
        (sb1.inode_table 2).i_blocks = blocks_for ten_bytes.length (payload file_store)) :=
  ⟨by decide, by decide, by decide, by decide, by decide,
    chain_growth file_store 2 ten_bytes 0 (by decide) (by decide) (by decide) (by decide)
      (by decide)⟩

/-- C3 (counterexample): writing `S = 0` bytes at offset 0 to a file that owns
no block and whose `first_block` is the terminator succeeds and leaves the
inode with one block, while `ceil (0 / P)` is 0. -/
theorem chain_growth_counterexample :
    (file_store.inode_table 2).i_blocks = 0 ∧
    (file_store.inode_table 2).first_block = NO_BLOCK ∧
    write_answer (osfs_write file_store 2 [] 0 0 0) = some (0, .ok 0) ∧
    ((store_after (osfs_write file_store 2 [] 0 0 0) file_store).inode_table 2).i_blocks = 1 ∧
    blocks_for 0 (payload file_store) = 0 ∧
    ((store_after (osfs_write file_store 2 [] 0 0 0) file_store).inode_table 2).i_blocks ≠
      blocks_for 0 (payload file_store) :=
  ⟨by decide, by decide, by decide, by decide, by decide, by decide⟩


/-- C4: number of bytes read. `osfs_read` returns 0 bytes without error and
leaves the file position where it was when the inode owns no block or the
offset is at or beyond the size. Otherwise, when the chain holds at least
`ceil (size / P)` blocks (and the user buffer takes the bytes), it returns
exactly `min length (size - offset)` bytes and advances the position by that
amount, for every request whose `offset + length` fits the 64 bits in which
the code adds them. -/
theorem osfs_read_returns_count (sb : osfs_sb_info) (ino cap len ppos : Nat) :
    (((sb.inode_table ino).i_blocks = 0 ∨ ppos ≥ (sb.inode_table ino).i_size) →
      osfs_read sb ino cap len ppos = some (ppos, .ok (0, []))) ∧
    (¬ ((sb.inode_table ino).i_blocks = 0 ∨ ppos ≥ (sb.inode_table ino).i_size) →
      ppos + len < 18446744073709551616 →
      4 < sb.block_size →
      chain_has sb (sb.inode_table ino).first_block
        (blocks_for (sb.inode_table ino).i_size (payload sb)) = true →
      min len ((sb.inode_table ino).i_size - ppos) ≤ cap →
      ∃ out, osfs_read sb ino cap len ppos =
          some (ppos + min len ((sb.inode_table ino).i_size - ppos),
            .ok (min len ((sb.inode_table ino).i_size - ppos), out)) ∧
        out.length = min len ((sb.inode_table ino).i_size - ppos)) := by
  constructor
  · intro h
    unfold osfs_read
    simp only [h, if_true]
  · intro h hfit64 hP hch hcap
    have hPp : 0 < payload sb := by unfold payload; omega
    have hlt : ppos < (sb.inode_table ino).i_size := by
      by_cases hc : ppos ≥ (sb.inode_table ino).i_size
      · exact absurd (Or.inr hc) h
      · omega
    have hsum : (ppos + len) % 18446744073709551616 = ppos + len := Nat.mod_eq_of_lt hfit64
    have hclamp : (if (ppos + len) % 18446744073709551616 > (sb.inode_table ino).i_size then
        (sb.inode_table ino).i_size - ppos else len) =
          min len ((sb.inode_table ino).i_size - ppos) := by
      rw [hsum]
      split
      · rw [Nat.min_eq_right (by omega)]
      · rw [Nat.min_eq_left (by omega)]
    have hfit := blocks_for_mul_ge (sb.inode_table ino).i_size (payload sb) hPp
    have hmodle : ppos % payload sb ≤ ppos := Nat.mod_le _ _
    have hmin : min len ((sb.inode_table ino).i_size - ppos) ≤
        (sb.inode_table ino).i_size - ppos := Nat.min_le_right _ _
    obtain ⟨out, hres, hlen⟩ := read_loop_count sb cap
      (min len ((sb.inode_table ino).i_size - ppos))
      (blocks_for (sb.inode_table ino).i_size (payload sb))
      (sb.inode_table ino).first_block ppos
      (min len ((sb.inode_table ino).i_size - ppos)) 0 [] hPp (Nat.le_refl _) hch
      (by omega) (by omega)
    refine ⟨out, ?_, by simpa using hlen⟩
    unfold osfs_read
    simp only [if_neg h, hclamp, hres, Nat.zero_add]

/-- An empty file gives 0 bytes; a request of 100 bytes at offset 5 of a file of
10 bytes gives 5 bytes. -/
theorem osfs_read_returns_count_witness :
    ((file_store.inode_table 2).i_blocks = 0 ∨ 0 ≥ (file_store.inode_table 2).i_size) ∧
    osfs_read file_store 2 100 100 0 = some (0, .ok (0, [])) ∧
    ¬ ((written_store.inode_table 2).i_blocks = 0 ∨ 5 ≥ (written_store.inode_table 2).i_size) ∧
    5 + 100 < 18446744073709551616 ∧
    4 < written_store.block_size ∧
    chain_has written_store (written_store.inode_table 2).first_block
      (blocks_for (written_store.inode_table 2).i_size (payload written_store)) = true ∧
    min 100 ((written_store.inode_table 2).i_size - 5) ≤ 100 ∧
    ∃ out, osfs_read written_store 2 100 100 5 =
        some (5 + min 100 ((written_store.inode_table 2).i_size - 5),
          .ok (min 100 ((written_store.inode_table 2).i_size - 5), out)) ∧
      out.length = min 100 ((written_store.inode_table 2).i_size - 5) :=
  ⟨by decide,
    (osfs_read_returns_count file_store 2 100 100 0).1 (by decide),
    by decide, by decide, by decide, by decide, by decide,
    (osfs_read_returns_count written_store 2 100 100 5).2 (by decide) (by decide) (by decide)
      (by decide) (by decide)⟩

/-- C5 (amended): when no block allocation fails (and the user buffer holds
the `L` bytes), `osfs_write` returns `L`, advances the file position by `L`,
and sets the size to `max (old size) ((o + L) mod 2^32)`, which is
`max (old size) (o + L)` whenever `o + L < 2^32`. -/
theorem osfs_write_postcondition (sb : osfs_sb_info) (ino : Nat) (buf : List Nat)
    (L o now : Nat) (hP : 4 < sb.block_size) (hbuf : L ≤ buf.length)
    (hno : ∀ sb1 p, osfs_write sb ino buf L o now ≠ some (sb1, p, .error .ENOSPC)) :
    ∃ sb1, osfs_write sb ino buf L o now = some (sb1, o + L, .ok L) ∧
      (sb1.inode_table ino).i_size =
        max (sb.inode_table ino).i_size ((o + L) % 4294967296) ∧
      (o + L < 4294967296 →
        (sb1.inode_table ino).i_size = max (sb.inode_table ino).i_size (o + L)) := by
  have hPp : 0 < payload sb := by unfold payload; omega
  have key : ∀ sb0 cb, payload sb0 = payload sb →
      (sb0.inode_table ino).i_size = (sb.inode_table ino).i_size →
      (∀ sb1, osfs_write_loop ino buf L sb0 cb o L 0 ≠ some (sb1, .error .ENOSPC)) →
      ∃ sb2, osfs_write_loop ino buf L sb0 cb o L 0 = some (sb2, .ok L) ∧
        (sb2.inode_table ino).i_size = (sb.inode_table ino).i_size := by
    intro sb0 cb hp0 hs0 hne
    obtain ⟨sb2, hres, hsz, _⟩ := write_loop_result ino buf L sb0 cb o L 0
      (by rw [hp0]; exact hPp) (Nat.le_refl _) (by omega)
    rcases hres with hres | hres
    · rw [Nat.zero_add] at hres
      exact ⟨sb2, hres, by rw [hsz, hs0]⟩
    · exact absurd hres (hne sb2)
  have fin : ∀ sb2 : osfs_sb_info, (sb2.inode_table ino).i_size = (sb.inode_table ino).i_size →
      ((update_size sb2 ino (o + L) now).inode_table ino).i_size =
        max (sb.inode_table ino).i_size ((o + L) % 4294967296) := by
    intro sb2 h
    simp only [update_size, upd, if_true, h]
  by_cases hz : (sb.inode_table ino).i_blocks = 0
  · cases hal : osfs_alloc_data_block sb with
    | mk sba r =>
      cases r with
      | error e =>
        exfalso
        apply hno sba o
        unfold osfs_write
        simp only [hz, if_true, hal]
      | ok cb =>
        obtain ⟨_, _, _, e2⟩ := alloc_ok_inv _ _ _ hal
        subst e2
        have hw0 : osfs_write sb ino buf L o now =
            (match osfs_write_loop ino buf L (set_first_block (alloc_init sb cb) ino cb) cb o L 0
              with
              | none => none
              | some (sb2, .error e) => some (sb2, o, .error e)
              | some (sb2, .ok bytes_written) =>
                some (update_size sb2 ino (o + bytes_written) now, o + bytes_written,
                  .ok bytes_written)) := by
          unfold osfs_write
          simp only [hz, if_true, hal]
        obtain ⟨sb2, hres, hsz⟩ := key (set_first_block (alloc_init sb cb) ino cb) cb rfl
          (by simp [set_first_block, alloc_init, upd])
          (by
            intro sb1 hbad
            apply hno sb1 o
            rw [hw0, hbad])
        refine ⟨update_size sb2 ino (o + L) now, ?_, fin sb2 hsz, ?_⟩
        · rw [hw0, hres]
        · intro hlt
          rw [fin sb2 hsz, Nat.mod_eq_of_lt hlt]
  · have hw0 : osfs_write sb ino buf L o now =
        (match osfs_write_loop ino buf L sb (sb.inode_table ino).first_block o L 0 with
          | none => none
          | some (sb2, .error e) => some (sb2, o, .error e)
          | some (sb2, .ok bytes_written) =>
            some (update_size sb2 ino (o + bytes_written) now, o + bytes_written,
              .ok bytes_written)) := by
      unfold osfs_write
      simp only [hz, if_false]
    obtain ⟨sb2, hres, hsz⟩ := key sb (sb.inode_table ino).first_block rfl rfl
      (by
        intro sb1 hbad
        apply hno sb1 o
        rw [hw0, hbad])
    refine ⟨update_size sb2 ino (o + L) now, ?_, fin sb2 hsz, ?_⟩
    · rw [hw0, hres]
    · intro hlt
      rw [fin sb2 hsz, Nat.mod_eq_of_lt hlt]


/-- Three bytes written at offset 2 of an empty file: the size becomes 5. -/
theorem osfs_write_postcondition_witness :
    4 < file_store.block_size ∧ 3 ≤ [1, 2, 3].length ∧
    (∀ sb1 p, osfs_write file_store 2 [1, 2, 3] 3 2 0 ≠ some (sb1, p, .error .ENOSPC)) ∧
    ∃ sb1, osfs_write file_store 2 [1, 2, 3] 3 2 0 = some (sb1, 2 + 3, .ok 3) ∧
      (sb1.inode_table 2).i_size =
        max (file_store.inode_table 2).i_size ((2 + 3) % 4294967296) ∧
      (2 + 3 < 4294967296 →
        (sb1.inode_table 2).i_size = max (file_store.inode_table 2).i_size (2 + 3)) := by
  have hno : ∀ sb1 p, osfs_write file_store 2 [1, 2, 3] 3 2 0 ≠ some (sb1, p, .error .ENOSPC) := by
    intro sb1 p h
    have e : write_answer (osfs_write file_store 2 [1, 2, 3] 3 2 0) = some (5, .ok 3) := by
      decide
    rw [h] at e
    simp [write_answer] at e
  exact ⟨by decide, by decide, hno,
    osfs_write_postcondition file_store 2 [1, 2, 3] 3 2 0 (by decide) (by decide) hno⟩

/-- C5 (counterexample): one byte written at offset `2^32` to an empty file.
No allocation fails, the call returns 1 and the position becomes `2^32 + 1`,
but the size becomes 1, not `max 0 (2^32 + 1)`: the position is cast to
`uint32_t` before the maximum is taken. -/
theorem osfs_write_size_counterexample :
    write_answer (osfs_write file_store 2 [7] 1 4294967296 0) = some (4294967297, .ok 1) ∧
    (file_store.inode_table 2).i_size = 0 ∧
    ((store_after (osfs_write file_store 2 [7] 1 4294967296 0) file_store).inode_table 2).i_size
      = 1 ∧
    ((store_after (osfs_write file_store 2 [7] 1 4294967296 0) file_store).inode_table 2).i_size
      ≠ max (file_store.inode_table 2).i_size (4294967296 + 1) :=
  ⟨by decide, by decide, by decide, by decide⟩

/-- C6 (the code at the failing input): file 2 owns no block and three blocks
of payload capacity 4 are free. Writing 16 bytes at offset 0 copies 12 bytes
into three newly chained blocks, then the fourth allocation fails: the call
returns `-ENOSPC`, the file position stays 0, and the size stays 0, so the
size does not cover the 12 bytes and reading them back returns 0 bytes. -/
theorem write_out_of_blocks_keeps_size :
    write_answer (osfs_write file_store 2 sixteen_bytes 16 0 0) = some (0, .error .ENOSPC) ∧
    (overfull_store.inode_table 2).first_block = 1 ∧
    (overfull_store.inode_table 2).i_blocks = 3 ∧
    (overfull_store.data_blocks 1).next_block = 2 ∧
    (overfull_store.data_blocks 2).next_block = 3 ∧
    (List.range 4).map (overfull_store.data_blocks 1).data = [20, 21, 22, 23] ∧
    (List.range 4).map (overfull_store.data_blocks 2).data = [24, 25, 26, 27] ∧
    (List.range 4).map (overfull_store.data_blocks 3).data = [28, 29, 30, 31] ∧
    (overfull_store.inode_table 2).i_size = 0 ∧
    osfs_read overfull_store 2 12 12 0 = some (0, .ok (0, [])) :=
  ⟨by decide, by decide, by decide, by decide, by decide, by decide, by decide, by decide,
    by decide, by decide⟩

/-! ## Claims on `osfs_new_inode` -/

/-- C9 (the code at the failing input): in a store whose free-block counter is
positive while every block bit is set, `osfs_new_inode` allocates inode 2,
fails to allocate the first data block and returns `-ENOSPC` with the inode
bit still set (bitmap 2 becomes 6) and the free-inode counter still
decremented (4 becomes 3). The same happens in the freshly formatted store
when the kernel's `new_inode` fails: `-ENOMEM`, bit set, counter decremented. -/
theorem new_inode_failure_keeps_inode_bit :
    miscounted_store.inode_bitmap = 2 ∧ miscounted_store.nr_free_inodes = 4 ∧
    (osfs_new_inode miscounted_store 33188 0 0 true 0).2 = .error .ENOSPC ∧
    (osfs_new_inode miscounted_store 33188 0 0 true 0).1.inode_bitmap = 6 ∧
    (osfs_new_inode miscounted_store 33188 0 0 true 0).1.nr_free_inodes = 3 ∧
    sample_store.inode_bitmap = 2 ∧ sample_store.nr_free_inodes = 4 ∧
    (osfs_new_inode sample_store 33188 0 0 false 0).2 = .error .ENOMEM ∧
    (osfs_new_inode sample_store 33188 0 0 false 0).1.inode_bitmap = 6 ∧
    (osfs_new_inode sample_store 33188 0 0 false 0).1.nr_free_inodes = 3 :=
  ⟨by decide, by decide, by decide, by decide, by decide, by decide, by decide, by decide,
    by decide, by decide⟩

/-- C10 (the code at the failing input): format with 5 inodes and 4 blocks,
then create two regular files with `osfs_new_inode` (inodes 2 and 3). Each
creation lowers the free-inode counter twice, so it is now 0 although inode 4
is free; blocks 2 and 3 are free as well. A third `osfs_new_inode` fails with
`-ENOSPC`. -/
theorem new_inode_enospc_with_free_inode :
    (osfs_fill_super sample_config true true true 0).toOption.isSome = true ∧
    (osfs_new_inode sample_store 33188 0 0 true 0).2.toOption.map (fun v => v.i_ino) = some 2 ∧
    (osfs_new_inode (osfs_new_inode sample_store 33188 0 0 true 0).1 33188 0 0 true 0).2.toOption.map
      (fun v => v.i_ino) = some 3 ∧
    two_files_store.inode_count = 5 ∧ test_bit 4 two_files_store.inode_bitmap = false ∧
    two_files_store.block_count = 4 ∧ test_bit 2 two_files_store.block_bitmap = false ∧
    test_bit 3 two_files_store.block_bitmap = false ∧
    two_files_store.nr_free_inodes = 0 ∧ two_files_store.nr_free_blocks = 2 ∧
    (osfs_new_inode two_files_store 33188 0 0 true 0).2 = .error .ENOSPC :=
  ⟨by decide, by decide, by decide, by decide, by decide, by decide, by decide, by decide,
    by decide, by decide, by decide⟩

/-! ## Releasing a chain -/

theorem chain_is_congr (sb sb1 : osfs_sb_info) (h : sb1.data_blocks = sb.data_blocks) :
    ∀ l b, chain_is sb1 b l = chain_is sb b l := by
  intro l
  induction l with
  | nil => intro b; rfl
  | cons c l ih =>
    intro b
    simp only [chain_is, h, ih]

theorem u32_inc_iterate (n : Nat) :
    ∀ x, x < 4294967296 → u32_inc^[n] x = (x + n) % 4294967296 := by
  induction n with
  | zero =>
    intro x hx
    exact (Nat.mod_eq_of_lt hx).symm
  | succ n ih =>
    intro x _
    rw [Function.iterate_succ_apply, ih (u32_inc x) (Nat.mod_lt _ (by decide))]
    unfold u32_inc
    omega

/-- Over a chain that is the list `l`, the release loop ends within `l.length`
steps, clears the bits of the blocks of `l` and no other, and counts the free
blocks up once per block; it touches nothing else. -/
theorem free_chain_loop_spec :
    ∀ (l : List Nat) (sb : osfs_sb_info) (b fuel : Nat), chain_is sb b l = true →
      l.length ≤ fuel →
      ∃ sb1, free_chain_loop fuel sb b = some sb1 ∧
        (∀ j, test_bit j sb1.block_bitmap = (test_bit j sb.block_bitmap && !decide (j ∈ l))) ∧
        sb1.nr_free_blocks = u32_inc^[l.length] sb.nr_free_blocks ∧
        sb1.inode_bitmap = sb.inode_bitmap ∧ sb1.nr_free_inodes = sb.nr_free_inodes ∧
        sb1.inode_table = sb.inode_table ∧ sb1.data_blocks = sb.data_blocks ∧
        sb1.inode_count = sb.inode_count ∧ sb1.block_count = sb.block_count ∧
        sb1.block_size = sb.block_size := by
  intro l
  induction l with
  | nil =>
    intro sb b fuel hch _
    simp only [chain_is, beq_iff_eq] at hch
    subst hch
    refine ⟨sb, ?_, ?_, rfl, rfl, rfl, rfl, rfl, rfl, rfl, rfl⟩
    · unfold free_chain_loop
      simp
    · intro j; simp
  | cons c l ih =>
    intro sb b fuel hch hfuel
    simp only [chain_is, Bool.and_eq_true, beq_iff_eq, bne_iff_ne, ne_eq] at hch
    obtain ⟨⟨hbc, hne⟩, hrest⟩ := hch
    subst hbc
    cases fuel with
    | zero => simp at hfuel
    | succ f =>
      have hrest1 : chain_is (osfs_free_data_block sb b) (sb.data_blocks b).next_block l = true := by
        rw [chain_is_congr sb (osfs_free_data_block sb b) rfl]
        exact hrest
      obtain ⟨sb1, h1, h2, h3, h4, h5, h6, h7, h8, h9, h10⟩ :=
        ih (osfs_free_data_block sb b) (sb.data_blocks b).next_block f hrest1
          (by simp only [List.length_cons] at hfuel; omega)
      refine ⟨sb1, ?_, ?_, ?_, h4, h5, h6, h7, h8, h9, h10⟩
      · rw [free_chain_loop]
        simp only [hne, if_false]
        exact h1
      · intro j
        rw [h2 j]
        simp only [osfs_free_data_block, test_bit_clear_bit, List.mem_cons]
        by_cases e : b = j
        · subst e; simp
        · have e1 : ¬ j = b := fun h => e h.symm
          simp [e, e1]
      · rw [h3]
        simp only [osfs_free_data_block, List.length_cons, Function.iterate_succ_apply]

/-- A chain that is a list starts the list of every later start: the part of
`l` from an element `c` on is the chain from `c`. -/
theorem chain_is_suffix (sb : osfs_sb_info) :
    ∀ (l : List Nat) (b c : Nat), chain_is sb b l = true → c ∈ l →
      ∃ s, chain_is sb c (c :: s) = true ∧ s.length < l.length := by
  intro l
  induction l with
  | nil => intro b c _ hc; simp at hc
  | cons d l ih =>
    intro b c hch hc
    have hch0 := hch
    simp only [chain_is, Bool.and_eq_true, beq_iff_eq, bne_iff_ne, ne_eq] at hch
    obtain ⟨⟨hbd, hne⟩, hrest⟩ := hch
    subst hbd
    rcases List.mem_cons.mp hc with h | h
    · subst h
      exact ⟨l, hch0, by simp⟩
    · obtain ⟨s, hs, hlen⟩ := ih _ c hrest h
      exact ⟨s, hs, by simp only [List.length_cons]; omega⟩

/-- The chain from a block is one list at most. -/
theorem chain_is_unique (sb : osfs_sb_info) :
    ∀ (l1 l2 : List Nat) (b : Nat), chain_is sb b l1 = true → chain_is sb b l2 = true →
      l1 = l2 := by
  intro l1
  induction l1 with
  | nil =>
    intro l2 b h1 h2
    simp only [chain_is, beq_iff_eq] at h1
    cases l2 with
    | nil => rfl
    | cons c l =>
      simp only [chain_is, Bool.and_eq_true, beq_iff_eq, bne_iff_ne, ne_eq] at h2
      exact absurd (h2.1.1 ▸ h1) h2.1.2
  | cons d l ih =>
    intro l2 b h1 h2
    simp only [chain_is, Bool.and_eq_true, beq_iff_eq, bne_iff_ne, ne_eq] at h1
    cases l2 with
    | nil =>
      simp only [chain_is, beq_iff_eq] at h2
      exact absurd (h1.1.1 ▸ h2) h1.1.2
    | cons c l3 =>
      simp only [chain_is, Bool.and_eq_true, beq_iff_eq, bne_iff_ne, ne_eq] at h2
      have hcd : d = c := h1.1.1.symm.trans h2.1.1
      subst hcd
      rw [ih l3 _ h1.2 h2.2]

/-- The blocks of a chain that is a list are distinct: such a chain has no
cycle. -/
theorem chain_is_nodup (sb : osfs_sb_info) :
    ∀ (l : List Nat) (b : Nat), chain_is sb b l = true → l.Nodup := by
  intro l
  induction l with
  | nil => intro _ _; exact List.nodup_nil
  | cons d l ih =>
    intro b hch
    have hch0 := hch
    simp only [chain_is, Bool.and_eq_true, beq_iff_eq, bne_iff_ne, ne_eq] at hch
    obtain ⟨⟨hbd, _⟩, hrest⟩ := hch
    subst hbd
    refine List.nodup_cons.mpr ⟨?_, ih _ hrest⟩
    intro hmem
    obtain ⟨s, hs, hlen⟩ := chain_is_suffix sb l _ b hrest hmem
    have heq := chain_is_unique sb _ _ b hs hch0
    have hl : s.length = l.length := by
      have := congrArg List.length heq
      simpa using this
    omega

/-- A number that `osfs_get_free_inode` returns has a clear bit in the bitmap
the scan reads. -/
theorem get_free_inode_from_clear (sb : osfs_sb_info) :
    ∀ (k ino j : Nat), (osfs_get_free_inode_from sb ino k).2 = (j : Int) →
      test_bit j sb.inode_bitmap = false := by
  intro k
  induction k with
  | zero =>
    intro ino j h
    simp only [osfs_get_free_inode_from] at h
    omega
  | succ k ih =>
    intro ino j h
    rw [osfs_get_free_inode_from] at h
    by_cases hb : test_bit ino sb.inode_bitmap = false
    · rw [if_pos hb] at h
      simp only [Nat.cast_inj] at h
      subst h
      exact hb
    · rw [if_neg hb] at h
      exact ih _ _ h

/-! ## The two readings of a directory block agree inside the payload -/

theorem area_byte_in_payload (sb : osfs_sb_info) (b o : Nat) (hb : b < sb.block_count)
    (ho : o < payload sb) :
    area_byte sb (b * sb.block_size + o) = some ((sb.data_blocks b).data o) := by
  have hbs : o < sb.block_size := by unfold payload at ho; omega
  have hdiv : (b * sb.block_size + o) / sb.block_size = b := by
    rw [Nat.mul_comm, Nat.mul_add_div (by omega), Nat.div_eq_of_lt hbs, Nat.add_zero]
  have hmod : (b * sb.block_size + o) % sb.block_size = o := by
    rw [Nat.mul_comm, Nat.mul_add_mod, Nat.mod_eq_of_lt hbs]
  unfold area_byte
  simp only [hdiv, hmod, hb, if_true, ho]

theorem area_strlen_of_c_strlen (sb : osfs_sb_info) (b : Nat) (hb : b < sb.block_count) :
    ∀ (m p n fuel : Nat), c_strlen (sb.data_blocks b).data p m = some n → p + m ≤ payload sb →
      m ≤ fuel → area_strlen sb (b * sb.block_size + p) fuel = some n := by
  intro m
  induction m with
  | zero =>
    intro p n fuel h _ _
    simp [c_strlen] at h
  | succ m ih =>
    intro p n fuel h hp hfuel
    cases fuel with
    | zero => omega
    | succ f =>
      rw [c_strlen] at h
      rw [area_strlen, area_byte_in_payload sb b p hb (by omega)]
      simp only
      by_cases hz : (sb.data_blocks b).data p = 0
      · rw [if_pos hz] at h
        rw [if_pos hz]
        exact h
      · rw [if_neg hz] at h
        rw [if_neg hz]
        cases hrec : c_strlen (sb.data_blocks b).data (p + 1) m with
        | none => rw [hrec] at h; cases h
        | some n1 =>
          rw [hrec] at h
          have := ih (p + 1) n1 f hrec (by omega) (by omega)
          rw [Nat.add_assoc, this]
          exact h

theorem c_strlen_lt (d : Nat → Nat) :
    ∀ (m p n : Nat), c_strlen d p m = some n → n < m := by
  intro m
  induction m with
  | zero => intro p n h; simp [c_strlen] at h
  | succ m ih =>
    intro p n h
    rw [c_strlen] at h
    by_cases hz : d p = 0
    · rw [if_pos hz] at h
      simp only [Option.some.injEq] at h
      omega
    · rw [if_neg hz] at h
      cases hrec : c_strlen d (p + 1) m with
      | none => rw [hrec] at h; cases h
      | some n1 =>
        rw [hrec] at h
        simp only [Option.some.injEq] at h
        have := ih (p + 1) n1 hrec
        omega

theorem area_name_eq_in_payload (sb : osfs_sb_info) (b p : Nat) (name : List Nat)
    (hb : b < sb.block_count) (hp : p + name.length ≤ payload sb) :
    area_name_eq sb (b * sb.block_size + p) name = c_name_eq (sb.data_blocks b).data p name := by
  have key : ∀ k, k ∈ List.range name.length →
      (area_byte sb (b * sb.block_size + p + k) == some (name.getD k 0)) =
        ((sb.data_blocks b).data (p + k) == name.getD k 0) := by
    intro k hk
    rw [List.mem_range] at hk
    rw [Nat.add_assoc, area_byte_in_payload sb b (p + k) hb (by omega)]
    rfl
  unfold area_name_eq c_name_eq
  rw [Bool.eq_iff_iff, List.all_eq_true, List.all_eq_true]
  constructor
  · intro h k hk
    rw [← key k hk]
    exact h k hk
  · intro h k hk
    rw [key k hk]
    exact h k hk

theorem area_load_le32_in_payload (sb : osfs_sb_info) (b p : Nat) (hb : b < sb.block_count)
    (hp : p + 4 ≤ payload sb) :
    area_load_le32 sb (b * sb.block_size + p) = some (load_le32 (sb.data_blocks b).data p) := by
  unfold area_load_le32 load_le32
  have e0 := area_byte_in_payload sb b p hb (by omega)
  have e1 := area_byte_in_payload sb b (p + 1) hb (by omega)
  have e2 := area_byte_in_payload sb b (p + 2) hb (by omega)
  have e3 := area_byte_in_payload sb b (p + 3) hb (by omega)
  rw [← Nat.add_assoc] at e1 e2 e3
  rw [e0, e1, e2, e3]

/-- Where the scan of a block stays inside the payload, the machine's reading
gives the same answer. -/
theorem lookup_block_flat_agrees (L : osfs_dir_layout) (sb : osfs_sb_info) (b : Nat)
    (name : List Nat) (hb : b < sb.block_count) :
    ∀ (k i : Nat) (r : Option Nat), lookup_block L sb b name i k = some r →
      lookup_block_flat L sb b name i k = some r := by
  intro k
  induction k with
  | zero => intro i r h; exact h
  | succ k ih =>
    intro i r h
    rw [lookup_block] at h
    rw [lookup_block_flat]
    cases hlen : c_strlen (sb.data_blocks b).data (i * L.sizeof_dir_entry)
        (payload sb - i * L.sizeof_dir_entry) with
    | none => rw [hlen] at h; cases h
    | some n =>
      rw [hlen] at h
      simp only at h
      have hn := c_strlen_lt _ _ _ _ hlen
      have hbs : payload sb ≤ sb.block_size := by unfold payload; omega
      have hmul : (b + 1) * sb.block_size ≤ sb.block_count * sb.block_size :=
        Nat.mul_le_mul_right _ (by omega)
      rw [Nat.add_mul, Nat.one_mul] at hmul
      have hflat := area_strlen_of_c_strlen sb b hb (payload sb - i * L.sizeof_dir_entry)
        (i * L.sizeof_dir_entry) n
        (sb.block_count * sb.block_size - (b * sb.block_size + i * L.sizeof_dir_entry))
        hlen (by omega) (by omega)
      rw [hflat]
      simp only
      by_cases hm : n = name.length ∧
          c_name_eq (sb.data_blocks b).data (i * L.sizeof_dir_entry) name = true
      · rw [if_pos hm] at h
        have hm2 : n = name.length ∧
            area_name_eq sb (b * sb.block_size + i * L.sizeof_dir_entry) name = true := by
          refine ⟨hm.1, ?_⟩
          rw [area_name_eq_in_payload sb b _ name hb (by omega)]
          exact hm.2
        rw [if_pos hm2]
        unfold slot_inode_no at h
        simp only at h
        by_cases hin : i * L.sizeof_dir_entry + L.inode_no_offset + 4 ≤ payload sb
        · rw [if_pos hin] at h
          rw [Nat.add_assoc, area_load_le32_in_payload sb b _ hb (by omega)]
          exact h
        · rw [if_neg hin] at h
          cases h
      · rw [if_neg hm] at h
        have hm2 : ¬ (n = name.length ∧
            area_name_eq sb (b * sb.block_size + i * L.sizeof_dir_entry) name = true) := by
          intro hc
          apply hm
          refine ⟨hc.1, ?_⟩
          rw [← area_name_eq_in_payload sb b _ name hb (by omega)]
          exact hc.2
        rw [if_neg hm2]
        exact ih (i + 1) r h

theorem lookup_chain_flat_agrees (L : osfs_dir_layout) (sb : osfs_sb_info) (dir : Nat)
    (name : List Nat) (hlinks : links_in_range sb) :
    ∀ (fuel cur : Nat) (r : Option Nat), cur = NO_BLOCK ∨ cur < sb.block_count →
      lookup_chain L sb dir name fuel cur = some r →
      lookup_chain_flat L sb dir name fuel cur = some r := by
  intro fuel
  induction fuel with
  | zero =>
    intro cur r _ h
    unfold lookup_chain at h
    unfold lookup_chain_flat
    by_cases hc : cur = NO_BLOCK
    · simp only [hc, if_true] at h ⊢
      exact h
    · simp only [hc, if_false] at h
      cases h
  | succ f ih =>
    intro cur r hcur h
    rw [lookup_chain] at h
    rw [lookup_chain_flat]
    by_cases hc : cur = NO_BLOCK
    · simp only [hc, if_true] at h ⊢
      exact h
    · simp only [hc, if_false] at h ⊢
      have hb : cur < sb.block_count := by
        rcases hcur with h1 | h1
        · exact absurd h1 hc
        · exact h1
      cases hblk : lookup_block L sb cur name 0 ((sb.inode_table dir).i_size / L.sizeof_dir_entry)
        with
      | none => rw [hblk] at h; cases h
      | some q =>
        rw [hblk] at h
        rw [lookup_block_flat_agrees L sb cur name hb _ _ _ hblk]
        cases q with
        | some ino => exact h
        | none => exact ih _ r (hlinks cur hb) h

/-- Wherever `osfs_lookup` has a result, `osfs_lookup_flat` has the same: the
second reading only adds results where the first reads outside a payload. -/
theorem osfs_lookup_flat_agrees (L : osfs_dir_layout) (sb : osfs_sb_info) (dir : Nat)
    (name : List Nat) (vfs_ok : Bool) (fuel : Nat) (r : Except Errno (Option vfs_inode))
    (hlinks : links_in_range sb)
    (hfirst : (sb.inode_table dir).first_block = NO_BLOCK ∨
      (sb.inode_table dir).first_block < sb.block_count)
    (h : osfs_lookup L sb dir name vfs_ok fuel = some r) :
    osfs_lookup_flat L sb dir name vfs_ok fuel = some r := by
  unfold osfs_lookup at h
  unfold osfs_lookup_flat
  cases hch : lookup_chain L sb dir name fuel (sb.inode_table dir).first_block with
  | none => rw [hch] at h; cases h
  | some q =>
    rw [hch] at h
    rw [lookup_chain_flat_agrees L sb dir name hlinks fuel _ q hfirst hch]
    exact h

/-! ## Claims on the directory engine -/

/-- C11 (the code at the failing input): `osfs_lookup` compares the name with
`i_size / sizeof(struct osfs_dir_entry)` slots of every block, also with slots
that lie past the block's payload. With 2 entries in a block (entry size 8,
payload 16, blocks of 20 bytes): format, create "a" and then n, the name that
is the one byte 255. The root's size is 32, so 4 slots of its block 1 are
compared. Slot 2 starts at byte 16 of the block, the link: the four bytes 255
of the terminator, followed by the zeroed start of block 2. It reads as the
name 255, 255, 255, 255 with inode number 0. Looking up n finds inode 3;
looking up that proper extension of n, which was never inserted, matches
slot 2 and returns the `-EFAULT` of `osfs_iget(0)` instead of not-found. In the
same way, after "a" and "b" the creation of n = the one byte 4 puts the entry
into the new block 4 and makes the link of block 1 the bytes 4, 0, 0, 0:
looking up n matches that link and returns `-EFAULT` instead of inode 4. With
the one entry "abc" the claim's witness holds. -/
theorem lookup_matches_bytes_past_the_payload :
    create_answer (osfs_create tiny_layout tiny_store 1 [97, 98, 99] 33188 0 0 true 0 20) =
      some (.ok 2) ∧
    lookup_answer (osfs_lookup_flat tiny_layout abc_store 1 [97, 98, 99] true 20) =
      some (.ok (some 2)) ∧
    lookup_answer (osfs_lookup_flat tiny_layout abc_store 1 [97, 98] true 20) = some (.ok none) ∧
    lookup_answer (osfs_lookup_flat tiny_layout abc_store 1 [97, 98, 99, 100] true 20) =
      some (.ok none) ∧
    create_answer (osfs_create tiny_layout tiny_store 1 [97] 33188 0 0 true 0 20) =
      some (.ok 2) ∧
    create_answer (osfs_create tiny_layout pair_one 1 [255] 33188 0 0 true 0 20) =
      some (.ok 3) ∧
    (high_two.inode_table 1).i_size / tiny_layout.sizeof_dir_entry = 4 ∧
    chain_is high_two (high_two.inode_table 1).first_block [1] = true ∧
    slot_name tiny_layout high_two 1 1 = some [255] ∧
    slot_inode_no tiny_layout high_two 1 1 = some 3 ∧
    (List.range 8).map (fun k => area_byte high_two (1 * high_two.block_size + 16 + k)) =
      [some 255, some 255, some 255, some 255, some 0, some 0, some 0, some 0] ∧
    lookup_answer (osfs_lookup_flat tiny_layout high_two 1 [255] true 20) =
      some (.ok (some 3)) ∧
    lookup_answer (osfs_lookup_flat tiny_layout high_two 1 [255, 255, 255, 255] true 20) =
      some (.error .EFAULT) ∧
    create_answer (osfs_create tiny_layout pair_two 1 [4] 33188 0 0 true 0 20) = some (.ok 4) ∧
    chain_is pair_three (pair_three.inode_table 1).first_block [1, 4] = true ∧
    slot_name tiny_layout pair_three 4 0 = some [4] ∧
    slot_inode_no tiny_layout pair_three 4 0 = some 4 ∧
    (List.range 8).map (fun k => area_byte pair_three (1 * pair_three.block_size + 16 + k)) =
      [some 4, some 0, some 0, some 0, some 0, some 0, some 0, some 0] ∧
    lookup_answer (osfs_lookup_flat tiny_layout pair_three 1 [4] true 20) =
      some (.error .EFAULT) :=
  ⟨by decide!, by decide!, by decide!, by decide!, by decide!, by decide!, by decide!,
    by decide!, by decide!, by decide!, by decide!, by decide!, by decide!, by decide!,
    by decide!, by decide!, by decide!, by decide!, by decide!⟩

/-- C12 (the code at the failing input): with 2 entries in a block (entry size
8, payload 16, blocks of 20 bytes), format with 12 inodes and 10 blocks and
create "a", "b", "c" and d, the name that is the one byte 5, in the root. The
root's chain is block 1 and block 4, both full; d has inode 5 and sits in
slot 1 of block 4, and looking d up finds inode 5. The creation of "e" finds
no empty slot: block 7 is allocated, the link of the tail block 4 names it,
the chain is 1, 4, 7, the entry is in slot 0 of block 7 and the entry of d is
untouched, as the claim says. But the root's size is now 80, so a lookup
compares 10 slots from the start of block 1, across the blocks that follow
it. Slot 9 is made of the inode number of d (the bytes 5, 0, 0, 0) and the
link of block 4 (now the bytes 7, 0, 0, 0): looking d up matches it and
returns inode 7 instead of inode 5. -/
theorem insert_into_full_chain_hides_entry :
    create_answer (osfs_create tiny_layout deep_store 1 [97] 33188 0 0 true 0 20) =
      some (.ok 2) ∧
    create_answer (osfs_create tiny_layout deep_one 1 [98] 33188 0 0 true 0 20) =
      some (.ok 3) ∧
    create_answer (osfs_create tiny_layout deep_two 1 [99] 33188 0 0 true 0 20) =
      some (.ok 4) ∧
    create_answer (osfs_create tiny_layout deep_three 1 [5] 33188 0 0 true 0 20) =
      some (.ok 5) ∧
    chain_is deep_four (deep_four.inode_table 1).first_block [1, 4] = true ∧
    find_empty_slot tiny_layout deep_four 1 0 tiny_layout.MAX_DIR_ENTRIES = some none ∧
    find_empty_slot tiny_layout deep_four 4 0 tiny_layout.MAX_DIR_ENTRIES = some none ∧
    slot_name tiny_layout deep_four 4 1 = some [5] ∧
    slot_inode_no tiny_layout deep_four 4 1 = some 5 ∧
    (deep_four.inode_table 1).i_size = 64 ∧
    lookup_answer (osfs_lookup_flat tiny_layout deep_four 1 [5] true 20) =
      some (.ok (some 5)) ∧
    create_answer (osfs_create tiny_layout deep_four 1 [101] 33188 0 0 true 0 20) =
      some (.ok 6) ∧
    test_bit 7 deep_four.block_bitmap = false ∧ test_bit 7 deep_five.block_bitmap = true ∧
    (deep_five.data_blocks 4).next_block = 7 ∧
    chain_is deep_five (deep_five.inode_table 1).first_block [1, 4, 7] = true ∧
    slot_name tiny_layout deep_five 7 0 = some [101] ∧
    slot_inode_no tiny_layout deep_five 7 0 = some 6 ∧
    slot_name tiny_layout deep_five 4 1 = some [5] ∧
    slot_inode_no tiny_layout deep_five 4 1 = some 5 ∧
    (deep_five.inode_table 1).i_size / tiny_layout.sizeof_dir_entry = 10 ∧
    (List.range 8).map (fun k => area_byte deep_five (1 * deep_five.block_size + 72 + k)) =
      [some 5, some 0, some 0, some 0, some 7, some 0, some 0, some 0] ∧
    lookup_answer (osfs_lookup_flat tiny_layout deep_five 1 [5] true 20) =
      some (.ok (some 7)) :=
  ⟨by decide!, by decide!, by decide!, by decide!, by decide!, by decide!, by decide!,
    by decide!, by decide!, by decide!, by decide!, by decide!, by decide!, by decide!,
    by decide!, by decide!, by decide!, by decide!, by decide!, by decide!, by decide!,
    by decide!, by decide!⟩

/-- C13 (the code at the failing input): format with 8 inodes and 16 blocks and
create "a", "b" and "c" in the root with `osfs_create`. The directory entry
size is 8. Each creation succeeds and adds 16 to the root's size: once inside
`osfs_add_dir_entry` and once more in `osfs_create` after it. The size is 16,
32 and 48 after 1, 2 and 3 creations, not 8, 16 and 24. -/
theorem create_counts_entry_twice :
    (wide_store.inode_table 1).i_size = 0 ∧ wide_layout.sizeof_dir_entry = 8 ∧
    create_answer (osfs_create wide_layout wide_store 1 [97] 33188 0 0 true 0 20) =
      some (.ok 2) ∧
    ((store_added (osfs_add_dir_entry wide_layout
      (osfs_create_reset (osfs_new_inode wide_store 33188 0 0 true 0).1 2) 1 2 [97] 0 20)
      wide_store).inode_table 1).i_size = 8 ∧
    (root_one.inode_table 1).i_size = 16 ∧
    create_answer (osfs_create wide_layout root_one 1 [98] 33188 0 0 true 0 20) = some (.ok 3) ∧
    (root_two.inode_table 1).i_size = 32 ∧
    create_answer (osfs_create wide_layout root_two 1 [99] 33188 0 0 true 0 20) = some (.ok 4) ∧
    (root_three.inode_table 1).i_size = 48 :=
  ⟨by decide!, by decide!, by decide!, by decide!, by decide!, by decide!, by decide!,
    by decide!, by decide!⟩

/-- C14: for every layout, store, directory and name longer than
`MAX_FILENAME_LEN`, `osfs_create` returns `-ENAMETOOLONG` and the store it
leaves is the store it was given: the directory's size and entries, both
bitmaps and both free counters are unchanged. -/
theorem create_rejects_long_name (L : osfs_dir_layout) (sb : osfs_sb_info) (dir : Nat)
    (name : List Nat) (mode uid gid : Nat) (vfs_ok : Bool) (now fuel : Nat)
    (hlen : name.length > L.MAX_FILENAME_LEN) :
    osfs_create L sb dir name mode uid gid vfs_ok now fuel = some (sb, .error .ENAMETOOLONG) := by
  unfold osfs_create
  rw [if_pos hlen]

/-- C14 at a concrete input: the 4-byte name "abcd" with a limit of 3 bytes, in
the root of a freshly formatted store. -/
theorem create_rejects_long_name_witness :
    [97, 98, 99, 100].length > wide_layout.MAX_FILENAME_LEN ∧
    osfs_create wide_layout wide_store 1 [97, 98, 99, 100] 33188 0 0 true 0 20 =
      some (wide_store, .error .ENAMETOOLONG) :=
  ⟨by decide, create_rejects_long_name wide_layout wide_store 1 [97, 98, 99, 100] 33188 0 0 true
    0 20 (by decide)⟩

/-- C15 (the code at the failing input): format with 8 inodes and 1 block and
create "a" in the root. `osfs_new_inode` takes inode 2 and block 0,
`osfs_create` resets the new inode's `first_block` to the terminator, and
`osfs_add_dir_entry` finds no block for the directory. `osfs_create` returns
that `-ENOSPC`, but the inode bit 2 and the block bit 0 stay set and the
counters stay lowered: inode bitmap 2 becomes 6, block bitmap 0 becomes 1,
free inodes 7 become 5, free blocks 1 become 0. -/
theorem create_failure_keeps_inode_and_block :
    one_store.inode_bitmap = 2 ∧ one_store.block_bitmap = 0 ∧
    one_store.nr_free_inodes = 7 ∧ one_store.nr_free_blocks = 1 ∧
    create_answer (osfs_create wide_layout one_store 1 [97] 33188 0 0 true 0 20) =
      some (.error .ENOSPC) ∧
    add_answer (osfs_add_dir_entry wide_layout
      (osfs_create_reset (osfs_new_inode one_store 33188 0 0 true 0).1 2) 1 2 [97] 0 20) =
      some (.error .ENOSPC) ∧
    one_failed.inode_bitmap = 6 ∧ one_failed.block_bitmap = 1 ∧
    one_failed.nr_free_inodes = 5 ∧ one_failed.nr_free_blocks = 0 ∧
    (one_failed.inode_table 2).first_block = NO_BLOCK :=
  ⟨by decide!, by decide!, by decide!, by decide!, by decide!, by decide!, by decide!,
    by decide!, by decide!, by decide!, by decide!⟩

/-- C16 (the code at the failing input): the claim's own witness. Format with 8
inodes and 16 blocks and create "a", "b" and "c" in the root. The root's size
is then 48, so `osfs_iterate` visits 6 slots of the block and hands each to
`dir_emit`, the three empty ones included. With an actor that takes every
entry the listing from cursor 0 is ".", "..", "a", "b", "c" and then three
entries with an empty name and inode number 0, and the cursor ends at 8. With
an actor that refuses an empty name the listing stops after "c" with cursor 5
and the call returns `-EINVAL`. -/
theorem iterate_emits_empty_slots :
    (root_three.inode_table 1).i_size = 48 ∧
    osfs_iterate wide_layout root_three accept_all 1 1 0 20 =
      some { pos := 8,
             emitted := [([46], 1), ([46, 46], 1), ([97], 2), ([98], 3), ([99], 4),
                         ([], 0), ([], 0), ([], 0)],
             error := none } ∧
    osfs_iterate wide_layout root_three accept_named 1 1 0 20 =
      some { pos := 5,
             emitted := [([46], 1), ([46, 46], 1), ([97], 2), ([98], 3), ([99], 4)],
             error := some .EINVAL } :=
  ⟨by decide!, by decide!, by decide!⟩

/-! ## Claims on `osfs_destroy_inode` -/

/-- C17: for every inode whose chain from `first_block` is a list `l` of blocks
that ends with the terminator, `osfs_destroy_inode` and
`osfs_free_data_block_chain` return once the fuel covers the length of `l`;
the blocks of `l` are distinct; every bit of a block of `l` is clear
afterwards and every other block bit is as before; the free-block counter, a
32-bit value, has grown by the length of `l` modulo 2^32, which is the plain
sum whenever that sum fits 32 bits; the inode's private pointer is cleared.
The blocks need not be allocated for any of this. -/
theorem destroy_inode_frees_chain (sb : osfs_sb_info) (inode : vfs_inode) (slot : Nat)
    (l : List Nat) (fuel : Nat)
    (hpriv : inode.i_private = some slot)
    (hchain : chain_is sb (sb.inode_table slot).first_block l = true)
    (hfuel : l.length ≤ fuel)
    (hword : sb.nr_free_blocks < 4294967296) :
    ∃ sb1 inode1, osfs_destroy_inode sb inode fuel = some (sb1, inode1) ∧
      osfs_free_data_block_chain sb inode fuel = some (sb1, inode1) ∧
      inode1.i_private = none ∧ l.Nodup ∧
      (∀ b, b ∈ l → test_bit b sb1.block_bitmap = false) ∧
      (∀ j, j ∉ l → test_bit j sb1.block_bitmap = test_bit j sb.block_bitmap) ∧
      sb1.nr_free_blocks = (sb.nr_free_blocks + l.length) % 4294967296 ∧
      (sb.nr_free_blocks + l.length < 4294967296 →
        sb1.nr_free_blocks = sb.nr_free_blocks + l.length) := by
  obtain ⟨sb1, h1, h2, h3, _⟩ := free_chain_loop_spec l sb _ fuel hchain hfuel
  have hcount : sb1.nr_free_blocks = (sb.nr_free_blocks + l.length) % 4294967296 := by
    rw [h3]
    exact u32_inc_iterate _ _ hword
  refine ⟨sb1, { inode with i_private := none }, ?_, ?_, rfl, chain_is_nodup sb l _ hchain,
    ?_, ?_, hcount, ?_⟩
  · unfold osfs_destroy_inode
    rw [hpriv]
    simp only [h1]
  · unfold osfs_free_data_block_chain
    rw [hpriv]
    simp only [h1]
  · intro b hb
    rw [h2 b]
    simp [hb]
  · intro j hj
    rw [h2 j]
    simp [hj]
  · intro hfit
    rw [hcount]
    exact Nat.mod_eq_of_lt hfit

/-- C17 at a concrete input: file 2 of `written_store` owns the chain of blocks
1, 2 and 3; destroying it clears these three bits, keeps the bit of block 0
and raises the free-block counter from 0 to 3. -/
theorem destroy_inode_frees_chain_witness :
    written_store.block_bitmap = 15 ∧ written_store.nr_free_blocks = 0 ∧
    ∃ sb1 inode1,
      osfs_destroy_inode written_store (inode_of (osfs_iget written_store 2 true)) 3 =
        some (sb1, inode1) ∧
      osfs_free_data_block_chain written_store (inode_of (osfs_iget written_store 2 true)) 3 =
        some (sb1, inode1) ∧
      inode1.i_private = none ∧ [1, 2, 3].Nodup ∧
      (∀ b, b ∈ [1, 2, 3] → test_bit b sb1.block_bitmap = false) ∧
      (∀ j, j ∉ [1, 2, 3] → test_bit j sb1.block_bitmap = test_bit j written_store.block_bitmap) ∧
      sb1.nr_free_blocks = (written_store.nr_free_blocks + [1, 2, 3].length) % 4294967296 ∧
      (written_store.nr_free_blocks + [1, 2, 3].length < 4294967296 →
        sb1.nr_free_blocks = written_store.nr_free_blocks + [1, 2, 3].length) :=
  ⟨by decide, by decide,
    destroy_inode_frees_chain written_store (inode_of (osfs_iget written_store 2 true)) 2
      [1, 2, 3] 3 (by decide) (by decide) (by decide) (by decide)⟩

/-- The general form of what `osfs_destroy_inode` does to the inode allocator:
for every inode whose chain from `first_block` is a list of blocks that ends
with the terminator, it returns and leaves the inode bitmap and the
free-inode counter exactly as they were; an inode number whose bit was set
before the call is therefore not returned by the next `osfs_get_free_inode`. -/
theorem destroy_inode_keeps_inode_bitmap (sb : osfs_sb_info) (inode : vfs_inode) (slot : Nat)
    (l : List Nat) (fuel : Nat)
    (hpriv : inode.i_private = some slot)
    (hchain : chain_is sb (sb.inode_table slot).first_block l = true)
    (hfuel : l.length ≤ fuel) :
    ∃ sb1 inode1, osfs_destroy_inode sb inode fuel = some (sb1, inode1) ∧
      sb1.inode_bitmap = sb.inode_bitmap ∧ sb1.nr_free_inodes = sb.nr_free_inodes ∧
      (∀ ino, test_bit ino sb.inode_bitmap = true →
        (osfs_get_free_inode sb1).2 ≠ (ino : Int)) := by
  obtain ⟨sb1, h1, _, _, h4, h5, _⟩ := free_chain_loop_spec l sb _ fuel hchain hfuel
  refine ⟨sb1, { inode with i_private := none }, ?_, h4, h5, ?_⟩
  · unfold osfs_destroy_inode
    rw [hpriv]
    simp only [h1]
  · intro ino hset hret
    have hclear := get_free_inode_from_clear sb1 _ _ ino hret
    rw [h4, hset] at hclear
    exact Bool.noConfusion hclear

/-- C18 (the code at the failing input): format with 8 inodes and 16 blocks and
create "a", "b" and "c" in the root. Inode 3 ("b") is allocated and the
free-inode counter is 1. `osfs_destroy_inode` on inode 3 returns with the bit
of inode 3 still set and the counter still 1, not 2, and the next
`osfs_get_free_inode` returns 5, not 3. -/
theorem destroy_inode_leaves_inode_allocated :
    test_bit 3 root_three.inode_bitmap = true ∧ root_three.nr_free_inodes = 1 ∧
    (osfs_destroy_inode root_three (inode_of (osfs_iget root_three 3 true)) 20).isSome = true ∧
    test_bit 3 root_destroyed.inode_bitmap = true ∧ root_destroyed.nr_free_inodes = 1 ∧
    (osfs_get_free_inode root_destroyed).2 = 5 :=
  ⟨by decide!, by decide!, by decide!, by decide!, by decide!, by decide!⟩

/-- C19 (the code at the failing input): the claim's own witness. Format with 8
inodes and 16 blocks and create "a", "b" and "c" in the root. `osfs_new_inode`
allocates block 2 for "b", and `osfs_create` then sets the inode's
`first_block` to the terminator, so the inode of "b" owns no chain.
`osfs_destroy_inode` on it frees nothing: the bit of block 2 is still set, the
free-block counter is still 12, and the next `osfs_alloc_data_block` returns
block 4, not block 2. The entries "a" and "c" are still found. -/
theorem create_then_destroy_keeps_block :
    create_answer (osfs_create wide_layout root_one 1 [98] 33188 0 0 true 0 20) = some (.ok 3) ∧
    ((osfs_new_inode root_one 33188 0 0 true 0).1.inode_table 3).first_block = 2 ∧
    (root_two.inode_table 3).first_block = NO_BLOCK ∧
    (root_three.inode_table 3).first_block = NO_BLOCK ∧
    osfs_iget root_three 3 true =
      .ok { i_ino := 3, i_mode := 33188, i_uid := 0, i_gid := 0, i_nlink := 1, i_size := 0,
            i_blocks := 0, i_private := some 3 } ∧
    test_bit 2 root_three.block_bitmap = true ∧ root_three.nr_free_blocks = 12 ∧
    (osfs_destroy_inode root_three (inode_of (osfs_iget root_three 3 true)) 20).isSome = true ∧
    test_bit 2 root_destroyed.block_bitmap = true ∧ root_destroyed.nr_free_blocks = 12 ∧
    (osfs_alloc_data_block root_destroyed).2 = .ok 4 ∧
    lookup_answer (osfs_lookup wide_layout root_destroyed 1 [97] true 20) = some (.ok (some 2)) ∧
    lookup_answer (osfs_lookup wide_layout root_destroyed 1 [99] true 20) = some (.ok (some 4)) :=
  ⟨by decide!, by decide!, by decide!, by decide!, by decide!, by decide!, by decide!,
    by decide!, by decide!, by decide!, by decide!, by decide!, by decide!⟩

/-- C20 (the code at the failing input): format with 8 inodes and 16 blocks and
create the file "a" in the root with one `osfs_create`. The allocated inodes
are 1 (the root) and 2 ("a"). Block 0, which `osfs_new_inode` allocated for
"a" before `osfs_create` reset the inode's `first_block`, has its bit set but
lies on the chain of no allocated inode: the root's chain is block 1 alone and
the chain of "a" is empty. -/
theorem leaked_block_breaks_ownership :
    create_answer (osfs_create wide_layout wide_store 1 [97] 33188 0 0 true 0 20) =
      some (.ok 2) ∧
    root_one.inode_bitmap = 6 ∧ root_one.inode_count = 8 ∧ root_one.block_count = 16 ∧
    test_bit 0 root_one.block_bitmap = true ∧
    chain_is root_one (root_one.inode_table 1).first_block [1] = true ∧
    chain_is root_one (root_one.inode_table 2).first_block [] = true ∧
    (∀ ino, ino < root_one.inode_count → test_bit ino root_one.inode_bitmap = true →
      chain_reaches root_one 0 (root_one.block_count + 1) (root_one.inode_table ino).first_block =
        false) :=
  ⟨by decide!, by decide!, by decide!, by decide!, by decide!, by decide!, by decide!,
    by decide!⟩

/-! ## Insertion into an empty slot -/

theorem c_strlen_eq (d : Nat → Nat) :
    ∀ (n p k : Nat), (∀ j, j < n → d (p + j) ≠ 0) → d (p + n) = 0 → n < k →
      c_strlen d p k = some n := by
  intro n
  induction n with
  | zero =>
    intro p k _ hz hk
    cases k with
    | zero => omega
    | succ k =>
      rw [c_strlen]
      simp only [Nat.add_zero] at hz
      rw [if_pos hz]
  | succ n ih =>
    intro p k hnz hz hk
    cases k with
    | zero => omega
    | succ k =>
      rw [c_strlen]
      have h0 : d p ≠ 0 := by
        have := hnz 0 (by omega)
        simpa using this
      rw [if_neg h0]
      have hrec := ih (p + 1) k
        (fun j hj => by
          have := hnz (j + 1) (by omega)
          rw [show p + 1 + j = p + (j + 1) by omega]
          exact this)
        (by rw [show p + 1 + n = p + (n + 1) by omega]; exact hz)
        (by omega)
      rw [hrec]

theorem le32_round_trip (v : Nat) (hv : v < 4294967296) :
    le32_byte v 0 + 256 * le32_byte v 1 + 65536 * le32_byte v 2 + 16777216 * le32_byte v 3 =
      v := by
  unfold le32_byte
  norm_num
  omega

theorem slot_offset_bound (L : osfs_dir_layout) (sb : osfs_sb_info) (hlay : layout_ok L sb)
    (i : Nat) (hi : i < L.MAX_DIR_ENTRIES) :
    i * L.sizeof_dir_entry + L.sizeof_dir_entry ≤ payload sb ∧ 4 ≤ L.sizeof_dir_entry := by
  obtain ⟨h1, h2, h3⟩ := hlay
  have h4 : (i + 1) * L.sizeof_dir_entry ≤ L.MAX_DIR_ENTRIES * L.sizeof_dir_entry :=
    Nat.mul_le_mul_right _ (by omega)
  rw [Nat.add_mul, Nat.one_mul] at h4
  exact ⟨by omega, by omega⟩

/-- The scan of a block whose slots `i0 .. i0 + k - 1` are all taken finds
nothing. -/
theorem find_empty_slot_full (L : osfs_dir_layout) (sb : osfs_sb_info) (hlay : layout_ok L sb)
    (b : Nat) :
    ∀ (k i0 : Nat), i0 + k ≤ L.MAX_DIR_ENTRIES →
      (∀ j, i0 ≤ j → j < i0 + k → slot_empty L sb b j = false) →
      find_empty_slot L sb b i0 k = some none := by
  intro k
  induction k with
  | zero => intro i0 _ _; rfl
  | succ k ih =>
    intro i0 hle hfull
    obtain ⟨hb1, hb2⟩ := slot_offset_bound L sb hlay i0 (by omega)
    rw [find_empty_slot]
    have hin : i0 * L.sizeof_dir_entry < payload sb := by omega
    have hne : ¬ (sb.data_blocks b).data (i0 * L.sizeof_dir_entry) = 0 := by
      have := hfull i0 (Nat.le_refl _) (by omega)
      simpa [slot_empty] using this
    simp only [hin, if_true, hne, if_false]
    exact ih (i0 + 1) (by omega) (fun j h1 h2 => hfull j (by omega) (by omega))

/-- The scan of a block stops at the first empty slot. -/
theorem find_empty_slot_found (L : osfs_dir_layout) (sb : osfs_sb_info) (hlay : layout_ok L sb)
    (b i : Nat) (hempty : slot_empty L sb b i = true) :
    ∀ (k i0 : Nat), i0 ≤ i → i < i0 + k → i0 + k ≤ L.MAX_DIR_ENTRIES →
      (∀ j, i0 ≤ j → j < i → slot_empty L sb b j = false) →
      find_empty_slot L sb b i0 k = some (some i) := by
  intro k
  induction k with
  | zero => intro i0 h1 h2 _ _; omega
  | succ k ih =>
    intro i0 h1 h2 hle hfull
    obtain ⟨hb1, hb2⟩ := slot_offset_bound L sb hlay i0 (by omega)
    rw [find_empty_slot]
    have hin : i0 * L.sizeof_dir_entry < payload sb := by omega
    simp only [hin, if_true]
    by_cases e : i0 = i
    · subst e
      have hz : (sb.data_blocks b).data (i0 * L.sizeof_dir_entry) = 0 := by
        simpa [slot_empty] using hempty
      rw [if_pos hz]
    · have hne : ¬ (sb.data_blocks b).data (i0 * L.sizeof_dir_entry) = 0 := by
        have := hfull i0 (Nat.le_refl _) (by omega)
        simpa [slot_empty] using this
      rw [if_neg hne]
      exact ih (i0 + 1) (by omega) (by omega) (by omega)
        (fun j h3 h4 => hfull j (by omega) h4)

/-- The walk of `osfs_add_dir_entry` passes the full blocks of `pre` and stops
at the first empty slot of the block after them. -/
theorem add_dir_entry_walk_found (L : osfs_dir_layout) (sb : osfs_sb_info)
    (hlay : layout_ok L sb) (b i : Nat) (hb : b ≠ NO_BLOCK) (hi : i < L.MAX_DIR_ENTRIES)
    (hbefore : ∀ j, j < i → slot_empty L sb b j = false)
    (hempty : slot_empty L sb b i = true) :
    ∀ (pre : List Nat) (start prev fuel : Nat), chain_leads sb start pre b = true →
      (∀ c, c ∈ pre → ∀ j, j < L.MAX_DIR_ENTRIES → slot_empty L sb c j = false) →
      pre.length < fuel →
      add_dir_entry_walk L sb fuel start prev = some (.inl (b, i)) := by
  intro pre
  induction pre with
  | nil =>
    intro start prev fuel hch _ hfuel
    simp only [chain_leads, beq_iff_eq] at hch
    subst hch
    cases fuel with
    | zero => simp at hfuel
    | succ f =>
      rw [add_dir_entry_walk]
      simp only [hb, if_false]
      rw [find_empty_slot_found L sb hlay start i hempty L.MAX_DIR_ENTRIES 0 (Nat.zero_le _)
        (by omega) (by omega) (fun j _ h => hbefore j h)]
  | cons c l ih =>
    intro start prev fuel hch hfull hfuel
    simp only [chain_leads, Bool.and_eq_true, beq_iff_eq, bne_iff_ne, ne_eq] at hch
    obtain ⟨⟨hsc, hne⟩, hrest⟩ := hch
    subst hsc
    cases fuel with
    | zero => simp at hfuel
    | succ f =>
      rw [add_dir_entry_walk]
      simp only [hne, if_false]
      rw [find_empty_slot_full L sb hlay start L.MAX_DIR_ENTRIES 0 (by omega)
        (fun j _ h => hfull start (List.mem_cons_self _ _) j (by omega))]
      exact ih _ start f hrest (fun c hc => hfull c (List.mem_cons_of_mem _ hc))
        (by simp only [List.length_cons] at hfuel; omega)

/-- The three stores of `write_entry` land inside the record of slot `i` of
block `b`: the name bytes, the terminator after them, and the four bytes of
the inode number; nothing else changes. -/
theorem write_entry_spec (L : osfs_dir_layout) (sb : osfs_sb_info) (hlay : layout_ok L sb)
    (b i : Nat) (name : List Nat) (inode_no : Nat) (hi : i < L.MAX_DIR_ENTRIES)
    (hname : name.length ≤ L.MAX_FILENAME_LEN) :
    ∃ sb1, write_entry L sb b i name inode_no = some sb1 ∧
      sb1.block_bitmap = sb.block_bitmap ∧ sb1.nr_free_blocks = sb.nr_free_blocks ∧
      sb1.inode_bitmap = sb.inode_bitmap ∧ sb1.nr_free_inodes = sb.nr_free_inodes ∧
      sb1.inode_table = sb.inode_table ∧ sb1.block_size = sb.block_size ∧
      sb1.block_count = sb.block_count ∧ sb1.inode_count = sb.inode_count ∧
      (∀ c, (sb1.data_blocks c).next_block = (sb.data_blocks c).next_block) ∧
      (∀ c k, ¬ (c = b ∧ i * L.sizeof_dir_entry ≤ k ∧
          k < i * L.sizeof_dir_entry + L.sizeof_dir_entry) →
        (sb1.data_blocks c).data k = (sb.data_blocks c).data k) ∧
      (∀ j, j < name.length →
        (sb1.data_blocks b).data (i * L.sizeof_dir_entry + j) = name.getD j 0) ∧
      (sb1.data_blocks b).data (i * L.sizeof_dir_entry + name.length) = 0 ∧
      (∀ t, t < 4 →
        (sb1.data_blocks b).data (i * L.sizeof_dir_entry + L.inode_no_offset + t) =
          le32_byte inode_no t) := by
  obtain ⟨hb1, hb2⟩ := slot_offset_bound L sb hlay i hi
  obtain ⟨h1, h2, h3⟩ := hlay
  have hc1 : i * L.sizeof_dir_entry + name.length < payload sb := by omega
  have hc2 : i * L.sizeof_dir_entry + L.inode_no_offset + 4 ≤ payload sb := by omega
  have hw : (write_entry L sb b i name inode_no).isSome = true := by
    unfold write_entry
    simp only
    rw [if_pos ⟨hc1, hc2⟩]
    rfl
  obtain ⟨sb1, hsb1⟩ := Option.isSome_iff_exists.mp hw
  have hdef := hsb1
  unfold write_entry at hdef
  simp only at hdef
  rw [if_pos ⟨hc1, hc2⟩] at hdef
  simp only [Option.some.injEq] at hdef
  subst hdef
  refine ⟨_, hsb1, rfl, rfl, rfl, rfl, rfl, rfl, rfl, rfl, ?_, ?_, ?_, ?_, ?_⟩
  · intro c
    simp only [upd]
    by_cases e : c = b
    · subst e; simp
    · simp [e]
  · intro c k hnot
    simp only [upd]
    by_cases e : c = b
    · subst e
      have hk : ¬ (i * L.sizeof_dir_entry ≤ k ∧
          k < i * L.sizeof_dir_entry + L.sizeof_dir_entry) := fun h => hnot ⟨rfl, h⟩
      have k1 : ¬ (i * L.sizeof_dir_entry + L.inode_no_offset ≤ k ∧
          k < i * L.sizeof_dir_entry + L.inode_no_offset + 4) := by omega
      have k2 : ¬ k = i * L.sizeof_dir_entry + name.length := by omega
      have k3 : ¬ (i * L.sizeof_dir_entry ≤ k ∧ k < i * L.sizeof_dir_entry + name.length) := by
        omega
      simp [k1, k2, k3]
    · simp [e]
  · intro j hj
    have k1 : ¬ (i * L.sizeof_dir_entry + L.inode_no_offset ≤ i * L.sizeof_dir_entry + j ∧
        i * L.sizeof_dir_entry + j < i * L.sizeof_dir_entry + L.inode_no_offset + 4) := by omega
    have k2 : ¬ i * L.sizeof_dir_entry + j = i * L.sizeof_dir_entry + name.length := by omega
    have k3 : i * L.sizeof_dir_entry ≤ i * L.sizeof_dir_entry + j ∧
        i * L.sizeof_dir_entry + j < i * L.sizeof_dir_entry + name.length := by omega
    simp only [upd, eq_self_iff_true, if_true]
    rw [if_neg k1, if_neg k2, if_pos k3, Nat.add_sub_cancel_left]
  · have k1 : ¬ (i * L.sizeof_dir_entry + L.inode_no_offset ≤
          i * L.sizeof_dir_entry + name.length ∧
        i * L.sizeof_dir_entry + name.length <
          i * L.sizeof_dir_entry + L.inode_no_offset + 4) := by omega
    simp only [upd, eq_self_iff_true, if_true]
    rw [if_neg k1]
  · intro t ht
    have k1 : i * L.sizeof_dir_entry + L.inode_no_offset ≤
          i * L.sizeof_dir_entry + L.inode_no_offset + t ∧
        i * L.sizeof_dir_entry + L.inode_no_offset + t <
          i * L.sizeof_dir_entry + L.inode_no_offset + 4 := by omega
    simp only [upd, eq_self_iff_true, if_true]
    rw [if_pos k1, Nat.add_sub_cancel_left]

/-- A slot whose record holds the bytes of `name`, a terminator after them and
the four bytes of `inode_no` reads back as `(name, inode_no)`. -/
theorem slot_reads_back (L : osfs_dir_layout) (sb : osfs_sb_info) (hlay : layout_ok L sb)
    (b i : Nat) (name : List Nat) (inode_no : Nat) (hi : i < L.MAX_DIR_ENTRIES)
    (hname : name.length ≤ L.MAX_FILENAME_LEN) (hnz : ∀ c, c ∈ name → c ≠ 0)
    (hino : inode_no < 4294967296)
    (hbytes : ∀ j, j < name.length →
      (sb.data_blocks b).data (i * L.sizeof_dir_entry + j) = name.getD j 0)
    (hend : (sb.data_blocks b).data (i * L.sizeof_dir_entry + name.length) = 0)
    (hnum : ∀ t, t < 4 →
      (sb.data_blocks b).data (i * L.sizeof_dir_entry + L.inode_no_offset + t) =
        le32_byte inode_no t) :
    slot_name L sb b i = some name ∧ slot_inode_no L sb b i = some inode_no := by
  obtain ⟨hb1, hb2⟩ := slot_offset_bound L sb hlay i hi
  obtain ⟨h1, h2, h3⟩ := hlay
  constructor
  · unfold slot_name
    simp only
    have hlen := c_strlen_eq (sb.data_blocks b).data name.length (i * L.sizeof_dir_entry)
      (payload sb - i * L.sizeof_dir_entry)
      (fun j hj => by
        rw [hbytes j hj, List.getD_eq_getElem _ _ hj]
        exact hnz _ (List.getElem_mem _))
      hend (by omega)
    rw [hlen]
    simp only [Option.some.injEq]
    apply List.ext_getElem
    · simp
    · intro k hk1 hk2
      simp only [List.getElem_map, List.getElem_range]
      rw [hbytes k hk2, List.getD_eq_getElem _ _ hk2]
  · unfold slot_inode_no
    simp only
    rw [if_pos (by omega)]
    unfold load_le32
    have e0 := hnum 0 (by omega)
    have e1 := hnum 1 (by omega)
    have e2 := hnum 2 (by omega)
    have e3 := hnum 3 (by omega)
    simp only [Nat.add_zero] at e0
    rw [e0, e1, e2, e3, le32_round_trip inode_no hino]

/-! ## The free-block counter and the block bitmap -/

theorem count_clear_clear_bit (bm i : Nat) :
    ∀ n, i < n → test_bit i bm = true →
      count_clear (clear_bit i bm) n = count_clear bm n + 1 := by
  intro n
  induction n with
  | zero => intro h; omega
  | succ n ih =>
    intro hi hc
    simp only [count_clear]
    by_cases hin : i = n
    · subst hin
      have h1 : count_clear (clear_bit i bm) i = count_clear bm i :=
        count_clear_congr bm (clear_bit i bm) i (fun m hm => by
          rw [test_bit_clear_bit]
          have : ¬ i = m := by omega
          simp [this])
      have h2 : test_bit i (clear_bit i bm) = false := by
        rw [test_bit_clear_bit]; simp
      rw [h1, h2, hc]
      simp
    · have h1 := ih (by omega) hc
      have h2 : test_bit n (clear_bit i bm) = test_bit n bm := by
        rw [test_bit_clear_bit]; simp [hin]
      rw [h2]
      omega

theorem blocks_consistent_frame (sb sb1 : osfs_sb_info)
    (h1 : sb1.nr_free_blocks = sb.nr_free_blocks) (h2 : sb1.block_bitmap = sb.block_bitmap)
    (h3 : sb1.block_count = sb.block_count) (h : blocks_consistent sb) :
    blocks_consistent sb1 := by
  unfold blocks_consistent at h ⊢
  rw [h1, h2, h3]
  exact h

theorem alloc_keeps_consistent (sb : osfs_sb_info) (h : blocks_consistent sb) :
    blocks_consistent (osfs_alloc_data_block sb).1 := by
  cases hal : osfs_alloc_data_block sb with
  | mk sb1 r =>
    cases r with
    | error e =>
      obtain ⟨e1, _, _⟩ := alloc_err_inv _ _ _ hal
      subst e1
      exact h
    | ok i =>
      obtain ⟨hi, hc, _, e1⟩ := alloc_ok_inv _ _ _ hal
      subst e1
      obtain ⟨g1, g2, g3⟩ := h
      have hcnt := count_clear_set_bit sb.block_bitmap i sb.block_count hi hc
      have hle := count_clear_le sb.block_bitmap sb.block_count
      refine ⟨?_, ?_, g3⟩
      · show u32_dec sb.nr_free_blocks = count_clear (set_bit i sb.block_bitmap) sb.block_count
        have := u32_dec_pos sb.nr_free_blocks (by omega) (by omega)
        omega
      · intro j hj
        show test_bit j (set_bit i sb.block_bitmap) = false
        rw [test_bit_set_bit, g2 j hj]
        have : ¬ i = j := by
          have : sb.block_count ≤ j := hj
          omega
        simp [this]

theorem free_keeps_consistent (sb : osfs_sb_info) (b : Nat) (h : blocks_consistent sb)
    (hb : test_bit b sb.block_bitmap = true) :
    blocks_consistent (osfs_free_data_block sb b) := by
  obtain ⟨g1, g2, g3⟩ := h
  have hin : b < sb.block_count := by
    by_contra hge
    have := g2 b (by omega)
    rw [hb] at this
    cases this
  have hcnt := count_clear_clear_bit sb.block_bitmap b sb.block_count hin hb
  have hle := count_clear_le (clear_bit b sb.block_bitmap) sb.block_count
  refine ⟨?_, ?_, g3⟩
  · show u32_inc sb.nr_free_blocks = count_clear (clear_bit b sb.block_bitmap) sb.block_count
    unfold u32_inc
    rw [hcnt, g1]
    exact Nat.mod_eq_of_lt (by omega)
  · intro j hj
    show test_bit j (clear_bit b sb.block_bitmap) = false
    rw [test_bit_clear_bit, g2 j hj]
    rfl

theorem free_chain_keeps_consistent :
    ∀ (l : List Nat) (sb : osfs_sb_info) (b fuel : Nat) (sb1 : osfs_sb_info),
      chain_is sb b l = true → (∀ c, c ∈ l → test_bit c sb.block_bitmap = true) →
      blocks_consistent sb → free_chain_loop fuel sb b = some sb1 → blocks_consistent sb1 := by
  intro l
  induction l with
  | nil =>
    intro sb b fuel sb1 hch _ h hres
    simp only [chain_is, beq_iff_eq] at hch
    subst hch
    unfold free_chain_loop at hres
    simp only [if_true, Option.some.injEq] at hres
    subst hres
    exact h
  | cons c l ih =>
    intro sb b fuel sb1 hch hall h hres
    have hnd := chain_is_nodup sb _ _ hch
    simp only [chain_is, Bool.and_eq_true, beq_iff_eq, bne_iff_ne, ne_eq] at hch
    obtain ⟨⟨hbc, hne⟩, hrest⟩ := hch
    subst hbc
    cases fuel with
    | zero =>
      unfold free_chain_loop at hres
      simp [hne] at hres
    | succ f =>
      rw [free_chain_loop] at hres
      simp only [hne, if_false] at hres
      have hnot : b ∉ l := (List.nodup_cons.mp hnd).1
      refine ih (osfs_free_data_block sb b) _ f sb1 ?_ ?_
        (free_keeps_consistent sb b h (hall b (List.mem_cons_self _ _))) hres
      · rw [chain_is_congr sb (osfs_free_data_block sb b) rfl]
        exact hrest
      · intro c hc
        show test_bit c (clear_bit b sb.block_bitmap) = true
        rw [test_bit_clear_bit, hall c (List.mem_cons_of_mem _ hc)]
        have : ¬ b = c := fun e => hnot (e ▸ hc)
        simp [this]

theorem write_loop_keeps_consistent (ino : Nat) (buf : List Nat) :
    ∀ (fuel : Nat) (sb : osfs_sb_info) (cur off len bw : Nat) (sb1 : osfs_sb_info)
      (r : Except Errno Nat),
      blocks_consistent sb → osfs_write_loop ino buf fuel sb cur off len bw = some (sb1, r) →
      blocks_consistent sb1 := by
  intro fuel
  induction fuel with
  | zero =>
    intro sb cur off len bw sb1 r h hres
    unfold osfs_write_loop at hres
    by_cases h0 : len > 0
    · simp [h0] at hres
    · simp only [h0, if_false, Option.some.injEq, Prod.mk.injEq] at hres
      rw [← hres.1]
      exact h
  | succ f ih =>
    intro sb cur off len bw sb1 r h hres
    by_cases h0 : len = 0
    · subst h0
      rw [osfs_write_loop_zero] at hres
      simp only [Option.some.injEq, Prod.mk.injEq] at hres
      rw [← hres.1]
      exact h
    · rw [osfs_write_loop_succ ino buf f sb cur off len bw (by omega)] at hres
      have hst : blocks_consistent (block_store sb cur (off % payload sb)
          (min len (payload sb - off % payload sb)) buf bw) :=
        blocks_consistent_frame sb _ rfl rfl rfl h
      split at hres
      · simp only [Option.some.injEq, Prod.mk.injEq] at hres
        rw [← hres.1]
        exact h
      · split at hres
        · have hal := alloc_keeps_consistent _ hst
          split at hres
          · rename_i sb2 e heq
            simp only [Option.some.injEq, Prod.mk.injEq] at hres
            rw [← hres.1]
            rw [heq] at hal
            exact hal
          · rename_i sb2 nb heq
            rw [heq] at hal
            exact ih (inc_i_blocks (link_block sb2 cur nb) ino) _ _ _ _ _ _
              (blocks_consistent_frame sb2 _ rfl rfl rfl hal) hres
        · exact ih _ _ _ _ _ _ _ hst hres

theorem write_keeps_consistent (sb : osfs_sb_info) (ino : Nat) (buf : List Nat)
    (len ppos now : Nat) (sb1 : osfs_sb_info) (ppos1 : Nat) (r : Except Errno Nat)
    (h : blocks_consistent sb)
    (hres : osfs_write sb ino buf len ppos now = some (sb1, ppos1, r)) :
    blocks_consistent sb1 := by
  unfold osfs_write at hres
  simp only at hres
  by_cases hz : (sb.inode_table ino).i_blocks = 0
  · rw [if_pos hz] at hres
    have hal := alloc_keeps_consistent sb h
    cases heq : osfs_alloc_data_block sb with
    | mk sb2 r2 =>
      rw [heq] at hres hal
      cases r2 with
      | error e =>
        simp only [Option.some.injEq, Prod.mk.injEq] at hres
        rw [← hres.1]
        exact hal
      | ok cur =>
        simp only at hres
        have hst : blocks_consistent (set_first_block sb2 ino cur) :=
          blocks_consistent_frame sb2 _ rfl rfl rfl hal
        cases hl : osfs_write_loop ino buf len (set_first_block sb2 ino cur) cur ppos len 0 with
        | none => rw [hl] at hres; simp at hres
        | some p =>
          obtain ⟨sb3, r3⟩ := p
          have h3 := write_loop_keeps_consistent ino buf _ _ _ _ _ _ sb3 r3 hst hl
          rw [hl] at hres
          cases r3 with
          | error e =>
            simp only [Option.some.injEq, Prod.mk.injEq] at hres
            rw [← hres.1]
            exact h3
          | ok n =>
            simp only [Option.some.injEq, Prod.mk.injEq] at hres
            rw [← hres.1]
            exact blocks_consistent_frame sb3 _ rfl rfl rfl h3
  · rw [if_neg hz] at hres
    simp only at hres
    cases hl : osfs_write_loop ino buf len sb (sb.inode_table ino).first_block ppos len 0 with
    | none => rw [hl] at hres; simp at hres
    | some p =>
      obtain ⟨sb3, r3⟩ := p
      have h3 := write_loop_keeps_consistent ino buf _ _ _ _ _ _ sb3 r3 h hl
      rw [hl] at hres
      cases r3 with
      | error e =>
        simp only [Option.some.injEq, Prod.mk.injEq] at hres
        rw [← hres.1]
        exact h3
      | ok n =>
        simp only [Option.some.injEq, Prod.mk.injEq] at hres
        rw [← hres.1]
        exact blocks_consistent_frame sb3 _ rfl rfl rfl h3

theorem get_free_inode_from_frame (sb : osfs_sb_info) :
    ∀ (k ino : Nat),
      (osfs_get_free_inode_from sb ino k).1.nr_free_blocks = sb.nr_free_blocks ∧
      (osfs_get_free_inode_from sb ino k).1.block_bitmap = sb.block_bitmap ∧
      (osfs_get_free_inode_from sb ino k).1.block_count = sb.block_count := by
  intro k
  induction k with
  | zero => intro ino; exact ⟨rfl, rfl, rfl⟩
  | succ k ih =>
    intro ino
    rw [osfs_get_free_inode_from]
    split
    · exact ⟨rfl, rfl, rfl⟩
    · exact ih (ino + 1)

theorem new_inode_keeps_consistent (sb : osfs_sb_info) (mode uid gid : Nat) (vfs_ok : Bool)
    (now : Nat) (h : blocks_consistent sb) :
    blocks_consistent (osfs_new_inode sb mode uid gid vfs_ok now).1 := by
  have hg : blocks_consistent (osfs_get_free_inode sb).1 := by
    obtain ⟨g1, g2, g3⟩ := get_free_inode_from_frame sb (sb.inode_count - 1) 1
    exact blocks_consistent_frame sb _ g1 g2 g3 h
  unfold osfs_new_inode
  split
  · exact h
  · split
    · exact h
    · split
      rename_i sb1 r heq
      rw [heq] at hg
      simp only at hg
      simp only
      split
      · exact hg
      · split
        · exact hg
        · split
          · exact hg
          · rename_i slot hslot
            have h2 : blocks_consistent { sb1 with
                inode_table := upd sb1.inode_table slot
                  (init_inode (r % 4294967296).toNat mode uid gid now) } :=
              blocks_consistent_frame sb1 _ rfl rfl rfl hg
            have h3 := alloc_keeps_consistent _ h2
            split
            · rename_i sb3 e heq3
              rw [heq3] at h3
              exact h3
            · rename_i sb3 fb heq3
              rw [heq3] at h3
              exact blocks_consistent_frame sb3 _ rfl rfl rfl h3

theorem write_entry_frame (L : osfs_dir_layout) (sb : osfs_sb_info) (b i : Nat)
    (name : List Nat) (inode_no : Nat) (sb1 : osfs_sb_info)
    (h : write_entry L sb b i name inode_no = some sb1) :
    sb1.nr_free_blocks = sb.nr_free_blocks ∧ sb1.block_bitmap = sb.block_bitmap ∧
      sb1.block_count = sb.block_count := by
  unfold write_entry at h
  simp only at h
  split at h
  · simp only [Option.some.injEq] at h
    subst h
    exact ⟨rfl, rfl, rfl⟩
  · cases h

/-- A failed `osfs_add_dir_entry` leaves the store as it was. -/
theorem add_dir_entry_error_store (L : osfs_dir_layout) (sb : osfs_sb_info) (dir inode_no : Nat)
    (name : List Nat) (now fuel : Nat) (sb1 : osfs_sb_info) (e : Errno)
    (hres : osfs_add_dir_entry L sb dir inode_no name now fuel = some (sb1, .error e)) :
    sb1 = sb := by
  unfold osfs_add_dir_entry at hres
  split at hres
  · cases hres
  · split at hres
    · cases hres
    · simp at hres
  · split at hres
    · rename_i sb2 e2 heq
      obtain ⟨e1, _, _⟩ := alloc_err_inv _ _ _ heq
      simp only [Option.some.injEq, Prod.mk.injEq] at hres
      rw [← hres.1]
      exact e1
    · simp only at hres
      split at hres
      · cases hres
      · simp at hres

theorem add_dir_entry_keeps_consistent (L : osfs_dir_layout) (sb : osfs_sb_info)
    (dir inode_no : Nat) (name : List Nat) (now fuel : Nat) (sb1 : osfs_sb_info)
    (r : Except Errno Unit) (h : blocks_consistent sb)
    (hres : osfs_add_dir_entry L sb dir inode_no name now fuel = some (sb1, r)) :
    blocks_consistent sb1 := by
  unfold osfs_add_dir_entry at hres
  split at hres
  · cases hres
  · split at hres
    · cases hres
    · rename_i sb2 hw
      obtain ⟨g1, g2, g3⟩ := write_entry_frame _ _ _ _ _ _ _ hw
      simp only [Option.some.injEq, Prod.mk.injEq] at hres
      rw [← hres.1]
      exact blocks_consistent_frame sb2 _ rfl rfl rfl (blocks_consistent_frame sb _ g1 g2 g3 h)
  · have hal := alloc_keeps_consistent sb h
    split at hres
    · rename_i sb2 e2 heq
      rw [heq] at hal
      simp only [Option.some.injEq, Prod.mk.injEq] at hres
      rw [← hres.1]
      exact hal
    · rename_i sb2 nb heq
      rw [heq] at hal
      simp only at hres
      split at hres
      · cases hres
      · rename_i sb4 hw
        obtain ⟨g1, g2, g3⟩ := write_entry_frame _ _ _ _ _ _ _ hw
        simp only [Option.some.injEq, Prod.mk.injEq] at hres
        rw [← hres.1]
        refine blocks_consistent_frame sb4 _ rfl rfl rfl
          (blocks_consistent_frame _ _ g1 g2 g3 ?_)
        split
        · exact blocks_consistent_frame sb2 _ rfl rfl rfl hal
        · exact blocks_consistent_frame sb2 _ rfl rfl rfl hal

theorem create_keeps_consistent (L : osfs_dir_layout) (sb : osfs_sb_info) (dir : Nat)
    (name : List Nat) (mode uid gid : Nat) (vfs_ok : Bool) (now fuel : Nat)
    (sb1 : osfs_sb_info) (r : Except Errno vfs_inode) (h : blocks_consistent sb)
    (hres : osfs_create L sb dir name mode uid gid vfs_ok now fuel = some (sb1, r)) :
    blocks_consistent sb1 := by
  unfold osfs_create at hres
  split at hres
  · simp only [Option.some.injEq, Prod.mk.injEq] at hres
    rw [← hres.1]
    exact h
  · have hn := new_inode_keeps_consistent sb mode uid gid vfs_ok now h
    split at hres
    · rename_i sb2 e heq
      rw [heq] at hn
      simp only [Option.some.injEq, Prod.mk.injEq] at hres
      rw [← hres.1]
      exact hn
    · rename_i sb2 inode heq
      rw [heq] at hn
      simp only at hres
      split at hres
      · simp only [Option.some.injEq, Prod.mk.injEq] at hres
        rw [← hres.1]
        exact hn
      · rename_i slot hslot
        have hr : blocks_consistent (osfs_create_reset sb2 slot) :=
          blocks_consistent_frame sb2 _ rfl rfl rfl hn
        split at hres
        · cases hres
        · rename_i sb3 e hadd
          have e3 := add_dir_entry_error_store _ _ _ _ _ _ _ _ _ hadd
          subst e3
          have hfree : osfs_destroy_inode (osfs_create_reset sb2 slot) inode fuel =
              some (osfs_create_reset sb2 slot, { inode with i_private := none }) := by
            unfold osfs_destroy_inode
            rw [hslot]
            have hfb : ((osfs_create_reset sb2 slot).inode_table slot).first_block = NO_BLOCK := by
              simp [osfs_create_reset, upd]
            simp only [hfb]
            unfold free_chain_loop
            simp
          rw [hfree] at hres
          simp only [Option.some.injEq, Prod.mk.injEq] at hres
          rw [← hres.1]
          exact hr
        · rename_i sb3 u hadd
          have h3 := add_dir_entry_keeps_consistent _ _ _ _ _ _ _ _ _ hr hadd
          simp only [Option.some.injEq, Prod.mk.injEq] at hres
          rw [← hres.1]
          exact blocks_consistent_frame sb3 _ rfl rfl rfl h3

theorem count_clear_zero (n : Nat) : count_clear 0 n = n := by
  induction n with
  | zero => rfl
  | succ n ih =>
    simp only [count_clear, ih]
    simp [test_bit]

theorem fill_super_consistent (cfg : osfs_config) (vmalloc_ok new_inode_ok make_root_ok : Bool)
    (now : Nat) (sb : osfs_sb_info)
    (hres : osfs_fill_super cfg vmalloc_ok new_inode_ok make_root_ok now = .ok sb) :
    blocks_consistent sb := by
  unfold osfs_fill_super at hres
  split at hres
  · cases hres
  · simp only at hres
    split at hres
    · cases hres
    · split at hres
      · cases hres
      · split at hres
        · cases hres
        · simp only [Except.ok.injEq] at hres
          subst hres
          refine ⟨?_, ?_, ?_⟩
          · show cfg.DATA_BLOCK_COUNT % 4294967296 = count_clear 0 (cfg.DATA_BLOCK_COUNT % 4294967296)
            rw [count_clear_zero]
          · intro j _
            show test_bit j 0 = false
            simp [test_bit]
          · show cfg.DATA_BLOCK_COUNT % 4294967296 < 4294967296
            exact Nat.mod_lt _ (by decide)

theorem reached_consistent (sb : osfs_sb_info) (h : reached sb) : blocks_consistent sb := by
  induction h with
  | fill cfg a b c now sb hres => exact fill_super_consistent cfg a b c now sb hres
  | alloc sb _ ih => exact alloc_keeps_consistent sb ih
  | free sb b _ hb ih => exact free_keeps_consistent sb b ih hb
  | create L sb dir name mode uid gid vfs_ok now fuel sb1 r _ hres ih =>
    exact create_keeps_consistent L sb dir name mode uid gid vfs_ok now fuel sb1 r ih hres
  | write sb ino buf len ppos now sb1 ppos1 r _ hres ih =>
    exact write_keeps_consistent sb ino buf len ppos now sb1 ppos1 r ih hres
  | destroy sb inode fuel slot l sb1 inode1 _ hpriv hchain hall hres ih =>
    unfold osfs_destroy_inode at hres
    rw [hpriv] at hres
    simp only at hres
    cases hl : free_chain_loop fuel sb (sb.inode_table slot).first_block with
    | none => rw [hl] at hres; cases hres
    | some sb2 =>
      rw [hl] at hres
      simp only [Option.some.injEq, Prod.mk.injEq] at hres
      rw [← hres.1]
      exact free_chain_keeps_consistent l sb _ fuel sb2 hchain hall ih hl

theorem reached_create_step (L : osfs_dir_layout) (sb : osfs_sb_info) (dir : Nat)
    (name : List Nat) (mode uid gid : Nat) (vfs_ok : Bool) (now fuel : Nat) (h : reached sb) :
    reached (store_created (osfs_create L sb dir name mode uid gid vfs_ok now fuel) sb) := by
  cases hres : osfs_create L sb dir name mode uid gid vfs_ok now fuel with
  | none => exact h
  | some p =>
    obtain ⟨sb1, r⟩ := p
    exact reached.create L sb dir name mode uid gid vfs_ok now fuel sb1 r h hres

theorem reached_write_step (sb : osfs_sb_info) (ino : Nat) (buf : List Nat) (len ppos now : Nat)
    (h : reached sb) : reached (store_after (osfs_write sb ino buf len ppos now) sb) := by
  cases hres : osfs_write sb ino buf len ppos now with
  | none => exact h
  | some p =>
    obtain ⟨sb1, ppos1, r⟩ := p
    exact reached.write sb ino buf len ppos now sb1 ppos1 r h hres

theorem reached_destroy_step (sb : osfs_sb_info) (inode : vfs_inode) (fuel slot : Nat)
    (l : List Nat) (h : reached sb) (hpriv : inode.i_private = some slot)
    (hchain : chain_is sb (sb.inode_table slot).first_block l = true)
    (hall : ∀ b, b ∈ l → test_bit b sb.block_bitmap = true) :
    reached (store_destroyed (osfs_destroy_inode sb inode fuel) sb) := by
  cases hres : osfs_destroy_inode sb inode fuel with
  | none => exact h
  | some p =>
    obtain ⟨sb1, inode1⟩ := p
    exact reached.destroy sb inode fuel slot l sb1 inode1 h hpriv hchain hall hres

theorem reached_root_released : reached root_released :=
  reached_destroy_step root_written (inode_of (osfs_iget root_written 2 true)) 20 2 [2]
    (reached_write_step root_one 2 [7] 1 0 0
      (reached_create_step wide_layout wide_store 1 [97] 33188 0 0 true 0 20
        (reached.fill wide_config true true true 0 wide_store rfl)))
    (by decide!) (by decide!) (by decide!)

/-! ## Claims on writing in place, `osfs_new_inode` and the counters -/

/-- C21 (the code at the failing input): file 2 holds the 10 bytes 10 .. 19 in
three blocks of payload capacity 4. Writing the one byte 99 at offset 4, the
first byte of the second block, returns 1 and moves the position to 5, but the
byte is stored at offset 4 mod 4 = 0 of the first block: the file then reads
99, 11, 12, 13, 14, ... instead of 10, 11, 12, 13, 99, .... At offset 1, below
the payload capacity, the same write replaces byte 1 and nothing else. -/
theorem write_past_first_block_lands_in_first_block :
    (written_store.inode_table 2).i_size = 10 ∧ payload written_store = 4 ∧
    chain_is written_store (written_store.inode_table 2).first_block [1, 2, 3] = true ∧
    blocks_for 10 4 = 3 ∧
    osfs_read written_store 2 10 10 0 =
      some (10, .ok (10, [10, 11, 12, 13, 14, 15, 16, 17, 18, 19])) ∧
    write_answer (osfs_write written_store 2 [99] 1 4 0) = some (5, .ok 1) ∧
    osfs_read patched_store 2 10 10 0 =
      some (10, .ok (10, [99, 11, 12, 13, 14, 15, 16, 17, 18, 19])) ∧
    write_answer (osfs_write written_store 2 [99] 1 1 0) = some (2, .ok 1) ∧
    osfs_read patched_low_store 2 10 10 0 =
      some (10, .ok (10, [10, 99, 12, 13, 14, 15, 16, 17, 18, 19])) :=
  ⟨by decide!, by decide!, by decide!, by decide!, by decide!, by decide!, by decide!,
    by decide!, by decide!⟩

/-- C22 (the code at the failing input): in the freshly formatted store of 5
inodes and 4 blocks, `osfs_new_inode` for a directory (mode 040755) succeeds
with inode 2 and gives the VFS inode 2 links, but the inode-table record has
`i_links_count` 0: the record is zeroed and the field is never assigned. For
a regular file (0100644) and a symlink (0120777) the VFS inode has 1 link and
the record 0. The rest of the record is as claimed: size 0, block count 1,
and `first_block` 0, a block that was free before the call and whose link is
the terminator. -/
theorem new_inode_leaves_link_count_zero :
    (osfs_new_inode sample_store 16877 0 0 true 0).2.toOption.map
      (fun v => (v.i_ino, v.i_nlink)) = some (2, 2) ∧
    ((osfs_new_inode sample_store 16877 0 0 true 0).1.inode_table 2).i_links_count = 0 ∧
    (osfs_new_inode sample_store 33188 0 0 true 0).2.toOption.map
      (fun v => (v.i_ino, v.i_nlink)) = some (2, 1) ∧
    ((osfs_new_inode sample_store 33188 0 0 true 0).1.inode_table 2).i_links_count = 0 ∧
    (osfs_new_inode sample_store 41471 0 0 true 0).2.toOption.map
      (fun v => (v.i_ino, v.i_nlink)) = some (2, 1) ∧
    ((osfs_new_inode sample_store 41471 0 0 true 0).1.inode_table 2).i_links_count = 0 ∧
    ((osfs_new_inode sample_store 16877 0 0 true 0).1.inode_table 2).i_size = 0 ∧
    ((osfs_new_inode sample_store 16877 0 0 true 0).1.inode_table 2).i_blocks = 1 ∧
    ((osfs_new_inode sample_store 16877 0 0 true 0).1.inode_table 2).first_block = 0 ∧
    test_bit 0 sample_store.block_bitmap = false ∧
    test_bit 0 (osfs_new_inode sample_store 16877 0 0 true 0).1.block_bitmap = true ∧
    ((osfs_new_inode sample_store 16877 0 0 true 0).1.data_blocks 0).next_block = NO_BLOCK :=
  ⟨by decide!, by decide!, by decide!, by decide!, by decide!, by decide!, by decide!,
    by decide!, by decide!, by decide!, by decide!, by decide!⟩

/-- C23: for every directory whose chain runs through full blocks `pre` and
then reaches a block `b` whose first empty slot is `i` (so that slot `i` of
`b` is the first empty slot in chain order, then slot order), and every name
without a zero byte that fits the name buffer, `osfs_add_dir_entry` returns 0;
slot `i` of `b` then reads back as the name and the inode number; the
directory's size has grown by one entry size (as a 32-bit sum); no block is
allocated (bitmap and free-block counter are unchanged); every byte outside
the record of that slot, every link and the directory's `first_block` are
unchanged, and so is every other inode record. -/
theorem add_dir_entry_fills_first_empty_slot (L : osfs_dir_layout) (sb : osfs_sb_info)
    (dir inode_no : Nat) (name : List Nat) (now fuel : Nat) (pre : List Nat) (b i : Nat)
    (hlay : layout_ok L sb)
    (hname : name.length ≤ L.MAX_FILENAME_LEN) (hnz : ∀ c, c ∈ name → c ≠ 0)
    (hino : inode_no < 4294967296)
    (hchain : chain_leads sb (sb.inode_table dir).first_block pre b = true)
    (hb : b ≠ NO_BLOCK)
    (hfull : ∀ c, c ∈ pre → ∀ j, j < L.MAX_DIR_ENTRIES → slot_empty L sb c j = false)
    (hi : i < L.MAX_DIR_ENTRIES)
    (hbefore : ∀ j, j < i → slot_empty L sb b j = false)
    (hempty : slot_empty L sb b i = true)
    (hfuel : pre.length < fuel) :
    ∃ sb1, osfs_add_dir_entry L sb dir inode_no name now fuel = some (sb1, .ok ()) ∧
      slot_name L sb1 b i = some name ∧ slot_inode_no L sb1 b i = some inode_no ∧
      (sb1.inode_table dir).i_size =
        ((sb.inode_table dir).i_size + L.sizeof_dir_entry) % 4294967296 ∧
      sb1.block_bitmap = sb.block_bitmap ∧ sb1.nr_free_blocks = sb.nr_free_blocks ∧
      (∀ c k, ¬ (c = b ∧ i * L.sizeof_dir_entry ≤ k ∧
          k < i * L.sizeof_dir_entry + L.sizeof_dir_entry) →
        (sb1.data_blocks c).data k = (sb.data_blocks c).data k) ∧
      (∀ c, (sb1.data_blocks c).next_block = (sb.data_blocks c).next_block) ∧
      (sb1.inode_table dir).first_block = (sb.inode_table dir).first_block ∧
      (∀ n, n ≠ dir → sb1.inode_table n = sb.inode_table n) := by
  have hwalk := add_dir_entry_walk_found L sb hlay b i hb hi hbefore hempty pre
    (sb.inode_table dir).first_block 0 fuel hchain hfull hfuel
  obtain ⟨sb1, hw, g1, g2, g3, g4, g5, g6, g7, g8, g9, g10, g11, g12, g13⟩ :=
    write_entry_spec L sb hlay b i name inode_no hi hname
  have hlay1 : layout_ok L (bump_dir_size L sb1 dir now) := by
    unfold layout_ok payload at hlay ⊢
    simp only [bump_dir_size]
    rw [g6]
    exact hlay
  have hback := slot_reads_back L (bump_dir_size L sb1 dir now) hlay1 b i name inode_no hi hname
    hnz hino g11 g12 g13
  refine ⟨bump_dir_size L sb1 dir now, ?_, hback.1, hback.2, ?_, g1, g2, g10, g9, ?_, ?_⟩
  · unfold osfs_add_dir_entry
    rw [hwalk]
    simp only [hw]
  · simp [bump_dir_size, upd, g5]
  · simp [bump_dir_size, upd, g5]
  · intro n hn
    simp [bump_dir_size, upd, hn, g5]

/-- C23 at a concrete input: the root's chain is block 1, which is full, and
then block 2, whose slot 0 is taken and whose slot 1 is empty. Inserting
("d", 4) fills slot 1 of block 2. -/
theorem add_dir_entry_fills_first_empty_slot_witness :
    slot_empty tiny_layout dir_three_late 2 0 = false ∧
    slot_empty tiny_layout dir_three_late 2 1 = true ∧
    ∃ sb1, osfs_add_dir_entry tiny_layout dir_three_late 1 4 [100] 0 10 = some (sb1, .ok ()) ∧
      slot_name tiny_layout sb1 2 1 = some [100] ∧ slot_inode_no tiny_layout sb1 2 1 = some 4 ∧
      (sb1.inode_table 1).i_size =
        ((dir_three_late.inode_table 1).i_size + tiny_layout.sizeof_dir_entry) % 4294967296 ∧
      sb1.block_bitmap = dir_three_late.block_bitmap ∧
      sb1.nr_free_blocks = dir_three_late.nr_free_blocks ∧
      (∀ c k, ¬ (c = 2 ∧ 1 * tiny_layout.sizeof_dir_entry ≤ k ∧
          k < 1 * tiny_layout.sizeof_dir_entry + tiny_layout.sizeof_dir_entry) →
        (sb1.data_blocks c).data k = (dir_three_late.data_blocks c).data k) ∧
      (∀ c, (sb1.data_blocks c).next_block = (dir_three_late.data_blocks c).next_block) ∧
      (sb1.inode_table 1).first_block = (dir_three_late.inode_table 1).first_block ∧
      (∀ n, n ≠ 1 → sb1.inode_table n = dir_three_late.inode_table n) :=
  ⟨by decide!, by decide!,
    add_dir_entry_fills_first_empty_slot tiny_layout dir_three_late 1 4 [100] 0 10 [1] 2 1
      ⟨by decide, by decide, by decide!⟩ (by decide) (by decide) (by decide) (by decide!)
      (by decide) (by decide!) (by decide) (by decide!) (by decide!) (by decide)⟩

/-- C24 (the code at the failing input): format with 8 inodes and 16 blocks and
create "a" in the root with one `osfs_create`. `osfs_add_dir_entry` gives the
root its first block, block 1, and never counts it: the root's chain is one
block long while its `i_blocks` is 0. For the file "a", after one byte has
been written to it, `i_blocks` is 1 and the chain is block 2 alone, as the
claim says. -/
theorem directory_blocks_are_not_counted :
    create_answer (osfs_create wide_layout wide_store 1 [97] 33188 0 0 true 0 20) =
      some (.ok 2) ∧
    chain_is root_one (root_one.inode_table 1).first_block [1] = true ∧
    (root_one.inode_table 1).i_blocks = 0 ∧
    write_answer (osfs_write root_one 2 [7] 1 0 0) = some (1, .ok 1) ∧
    chain_is root_written (root_written.inode_table 2).first_block [2] = true ∧
    (root_written.inode_table 2).i_blocks = 1 ∧
    chain_is root_written (root_written.inode_table 1).first_block [1] = true ∧
    (root_written.inode_table 1).i_blocks = 0 :=
  ⟨by decide!, by decide!, by decide!, by decide!, by decide!, by decide!, by decide!,
    by decide!⟩

/-- C25 (amended): in every store reached from a successful `osfs_fill_super`
by `osfs_alloc_data_block`, `osfs_free_data_block` on a block whose bit is
set, `osfs_create`, `osfs_write`, and `osfs_destroy_inode` on an inode whose
chain is a list of blocks whose bits are set, the free-block counter equals
the number of clear bits of the block bitmap below `block_count`. -/
theorem free_block_counter_consistent (sb : osfs_sb_info) (h : reached sb) :
    sb.nr_free_blocks = count_clear sb.block_bitmap sb.block_count :=
  (reached_consistent sb h).1

/-- C25 (amended) at a concrete input: format with 8 inodes and 16 blocks,
create "a", write one byte to it, destroy its inode. The counter and the
bitmap agree on 14 free blocks. -/
theorem free_block_counter_consistent_witness :
    reached root_released ∧ root_released.nr_free_blocks = 14 ∧
    root_released.nr_free_blocks =
      count_clear root_released.block_bitmap root_released.block_count :=
  ⟨reached_root_released, by decide!,
    free_block_counter_consistent root_released reached_root_released⟩

/-- C25 (the claim as stated fails): format with 8 inodes and 16 blocks, create
"a" and write one byte to it, which gives the file block 2; counter and bitmap
agree on 13 free blocks. `osfs_free_data_block` on block 2, an allocated
block, gives 14 and 14. `osfs_destroy_inode` on the inode of "a", destroyed
for the first time, walks the chain and frees block 2 again: the counter
becomes 15 while the bitmap has 14 clear bits. -/
theorem free_then_destroy_miscounts_counterexample :
    root_written.nr_free_blocks = 13 ∧
    count_clear root_written.block_bitmap root_written.block_count = 13 ∧
    chain_is root_written (root_written.inode_table 2).first_block [2] = true ∧
    test_bit 2 root_written.block_bitmap = true ∧
    root_freed.nr_free_blocks = 14 ∧
    count_clear root_freed.block_bitmap root_freed.block_count = 14 ∧
    (osfs_destroy_inode root_freed (inode_of (osfs_iget root_freed 2 true)) 20).isSome = true ∧
    root_freed_twice.nr_free_blocks = 15 ∧
    count_clear root_freed_twice.block_bitmap root_freed_twice.block_count = 14 :=
  ⟨by decide!, by decide!, by decide!, by decide!, by decide!, by decide!, by decide!,
    by decide!, by decide!⟩

/-- C26 (the code at the failing input): right after `osfs_fill_super` with 5
inodes the counter is 4, while the inode numbers 2, 3 and 4 are the only free
ones in `[1, 5)`: the root's bit is set but the counter starts at
`INODE_COUNT - 1`. The first successful `osfs_new_inode` lowers the counter
by 2, to 2, with 2 numbers free; the second lowers it by 2 again, to 0, with 1
number free. -/
theorem free_inode_counter_drifts :
    sample_store.inode_count = 5 ∧ sample_store.inode_bitmap = 2 ∧
    sample_store.nr_free_inodes = 4 ∧ free_inode_numbers sample_store = 3 ∧
    (osfs_new_inode sample_store 33188 0 0 true 0).2.toOption.map (fun v => v.i_ino) = some 2 ∧
    (osfs_new_inode sample_store 33188 0 0 true 0).1.nr_free_inodes = 2 ∧
    free_inode_numbers (osfs_new_inode sample_store 33188 0 0 true 0).1 = 2 ∧
    (osfs_new_inode (osfs_new_inode sample_store 33188 0 0 true 0).1 33188 0 0 true 0).2.toOption.map
      (fun v => v.i_ino) = some 3 ∧
    two_files_store.nr_free_inodes = 0 ∧ free_inode_numbers two_files_store = 1 :=
  ⟨by decide!, by decide!, by decide!, by decide!, by decide!, by decide!, by decide!,
    by decide!, by decide!, by decide!⟩

/-- C27 (the code at the failing input): with 2 directory entries in a block
(entry size 8, payload capacity 16), format and create "a" and "b" in the
root. Both creations succeed and the root's size is 32, so the scan bound
`i_size / sizeof(struct osfs_dir_entry)` is 4, above the 2 entries a block
holds. Looking up the absent name "c", the loop passes slots 0 and 1 of the
root's block without a match and goes on to slot 2, which starts at byte 16,
outside the `data` array; `osfs_iterate` does the same after it has emitted
"a" and "b". -/
theorem scan_bound_exceeds_block_capacity :
    create_answer (osfs_create tiny_layout tiny_store 1 [97] 33188 0 0 true 0 20) =
      some (.ok 2) ∧
    create_answer (osfs_create tiny_layout pair_one 1 [98] 33188 0 0 true 0 20) =
      some (.ok 3) ∧
    tiny_layout.MAX_DIR_ENTRIES = 2 ∧ payload pair_two / tiny_layout.sizeof_dir_entry = 2 ∧
    (pair_two.inode_table 1).i_size / tiny_layout.sizeof_dir_entry = 4 ∧
    chain_is pair_two (pair_two.inode_table 1).first_block [1] = true ∧
    lookup_answer (osfs_lookup tiny_layout pair_two 1 [98] true 20) = some (.ok (some 3)) ∧
    lookup_block tiny_layout pair_two 1 [99] 0 2 = some none ∧
    slot_name tiny_layout pair_two 1 2 = none ∧
    lookup_block tiny_layout pair_two 1 [99] 0 4 = none ∧
    osfs_lookup tiny_layout pair_two 1 [99] true 20 = none ∧
    iterate_block tiny_layout pair_two accept_all 1 0 2 0
        { pos := 2, emitted := [([46], 1), ([46, 46], 1)], error := none } =
      some (0, { pos := 4, emitted := [([46], 1), ([46, 46], 1), ([97], 2), ([98], 3)],
                 error := none }) ∧
    osfs_iterate tiny_layout pair_two accept_all 1 1 0 20 = none :=
  ⟨by decide!, by decide!, by decide!, by decide!, by decide!, by decide!, by decide!,
    by decide!, by decide!, by decide!, by decide!, by decide!, by decide!⟩

end OSFS
